import Mathlib

/-!
# MyPL: lexer, parser, type checker and interpreter

A shallow embedding of the MyPL toolchain (`lexer.h`, `parser.h`,
`type_checker.h`, `interpreter.h`) together with theorems about it.

Conventions of the embedding:

* C++ exceptions thrown through `error(...)` become `Run.raise`.
* Loops and recursion that the C++ code does not bound are driven by a fuel
  argument; `Run.timeout` is the answer when the fuel runs out.
* Behaviour the C++ standard leaves undefined (reading an uninitialised local,
  `front()` of an empty list, a null dereference, falling off the end of a
  non-void function) and exceptions of the standard library become `Run.crash`.
-/

namespace MyPL

/-! ## Tokens and exceptions (`token.h`, `mypl_exception.h`) -/

/-- Modelled from the spec: the enumeration `TokenType` of `token.h`, with the enumerators
the sources use. -/
inductive TokenType where
  | LPAREN | RPAREN | DOT | COMMA | COLON
  | PLUS | MINUS | MULTIPLY | DIVIDE | MODULO
  | AND | OR | NOT | NEG
  | ASSIGN | EQUAL | NOT_EQUAL | LESS | LESS_EQUAL | GREATER | GREATER_EQUAL
  | INT_TYPE | BOOL_TYPE | DOUBLE_TYPE | CHAR_TYPE | STRING_TYPE
  | INT_VAL | BOOL_VAL | DOUBLE_VAL | CHAR_VAL | STRING_VAL
  | TYPE | WHILE | FOR | TO | DO | IF | THEN | ELSEIF | ELSE | END
  | FUN | VAR | RETURN | NEW | NIL
  | ID | EOS
  deriving DecidableEq, Repr

/-- Modelled from the spec: the class `Token` of `token.h`: kind, lexeme, line and column. -/
structure Token where
  type : TokenType
  lexeme : String
  line : Nat
  column : Nat
  deriving DecidableEq, Repr

/-- The default-constructed token (`Token()`), as held by a fresh AST node. -/
def Token.empty : Token := ⟨TokenType.EOS, "", 0, 0⟩

/-- A token with the given kind and lexeme (positions left at 0). -/
def tk (t : TokenType) (lexeme : String) : Token := ⟨t, lexeme, 0, 0⟩

/-- Modelled from the spec: the four error kinds of `mypl_exception.h`. -/
inductive ExceptionType where
  | LEXER | SYNTAX | SEMANTIC | RUNTIME
  deriving DecidableEq, Repr

/-- Modelled from the spec: a raised `MyPLException` of `mypl_exception.h`: kind, message
and, where given, line and column. -/
structure MyPLException where
  type : ExceptionType
  msg : String
  pos : Option (Nat × Nat)
  deriving DecidableEq, Repr

/-- Outcome of running a piece of the toolchain. -/
inductive Run (α : Type) where
  | ok (a : α)
  | raise (e : MyPLException)
  | crash (why : String)
  | timeout
  deriving DecidableEq, Repr

/-- Sequencing of outcomes: everything but `ok` propagates. -/
def Run.bind {α β : Type} (r : Run α) (f : α → Run β) : Run β :=
  match r with
  | .ok a => f a
  | .raise e => .raise e
  | .crash w => .crash w
  | .timeout => .timeout

instance : Monad Run where
  pure := Run.ok
  bind := Run.bind

/-! ## Lexer (`lexer.h`) -/

/-- Lexer state: the unread input, the current line and the current column. -/
structure Lexer where
  input_stream : List Char
  line : Nat
  column : Nat
  deriving DecidableEq, Repr

/-- The constructor `Lexer::Lexer`: line 1, column 1. -/
def Lexer.new (input : List Char) : Lexer := ⟨input, 1, 1⟩

/-- The method `Lexer::read`: the next character (`none` is `EOF`), advancing. -/
def Lexer.read (lx : Lexer) : Option Char × Lexer :=
  match lx.input_stream with
  | [] => (none, lx)
  | c :: cs => (some c, { lx with input_stream := cs })

/-- The method `Lexer::peek`: the next character (`none` is `EOF`), not advancing. -/
def Lexer.peek (lx : Lexer) : Option Char :=
  lx.input_stream.head?

/-- The method `Lexer::error`. -/
def Lexer.error {α : Type} (msg : String) (line column : Nat) : Run α :=
  .raise ⟨.LEXER, msg, some (line, column)⟩

/-- The C function `isspace` in the C locale; false on `EOF`. -/
def isspace (ch : Option Char) : Bool :=
  match ch with
  | none => false
  | some c => c.toNat == 32 || (9 ≤ c.toNat && c.toNat ≤ 13)

/-- The C function `isdigit`; false on `EOF`. -/
def isdigit (ch : Option Char) : Bool :=
  match ch with
  | none => false
  | some c => 48 ≤ c.toNat && c.toNat ≤ 57

/-- The C function `isalpha` in the C locale; false on `EOF`. -/
def isalpha (ch : Option Char) : Bool :=
  match ch with
  | none => false
  | some c => (65 ≤ c.toNat && c.toNat ≤ 90) || (97 ≤ c.toNat && c.toNat ≤ 122)

/-- The statement `lexeme += ch`: `EOF` narrowed to `char` is the byte 255. -/
def pushCh (lexeme : String) (ch : Option Char) : String :=
  match ch with
  | none => lexeme.push (Char.ofNat 255)
  | some c => lexeme.push c

/-- One pass through the body of the whitespace loop of `next_token`
(source lines 78-95): four `if`s in sequence, each reading one character. -/
def wsBody (ch : Option Char) (lx : Lexer) : Option Char × Lexer :=
  let (ch, lx) :=
    if ch = some '\n' then
      let (c, l) := lx.read
      (c, { l with line := l.line + 1, column := 1 })
    else (ch, lx)
  let (ch, lx) :=
    if ch = some '\r' then
      let (c, l) := lx.read
      (c, { l with line := l.line + 1, column := 1 })
    else (ch, lx)
  let (ch, lx) :=
    if ch = some ' ' then
      let (c, l) := lx.read
      (c, { l with column := l.column + 1 })
    else (ch, lx)
  if ch = some '\t' then
    let (c, l) := lx.read
    (c, { l with column := l.column + 2 })
  else (ch, lx)

/-- The loop `while (std::isspace(ch))` of `next_token` (source lines 77-96). -/
def wsLoop : Nat → Option Char → Lexer → Run (Option Char × Lexer)
  | 0, _, _ => .timeout
  | fuel + 1, ch, lx =>
    if isspace ch then
      let (ch, lx) := wsBody ch lx
      wsLoop fuel ch lx
    else .ok (ch, lx)

/-- The loop `while (ch != '\n') ch = read();` (source lines 104-106). -/
def toEol : Nat → Option Char → Lexer → Run (Option Char × Lexer)
  | 0, _, _ => .timeout
  | fuel + 1, ch, lx =>
    if ch ≠ some '\n' then
      let (ch, lx) := lx.read
      toEol fuel ch lx
    else .ok (ch, lx)

/-- One pass through the body of the whitespace loop inside the comment
branch (source lines 113-124). -/
def cwsBody (ch : Option Char) (lx : Lexer) : Option Char × Lexer :=
  let (ch, lx) :=
    if ch = some ' ' then
      let (c, l) := lx.read
      (c, { l with column := l.column + 1 })
    else (ch, lx)
  if ch = some '\n' then
    let (c, l) := lx.read
    (c, { l with line := l.line + 1, column := 1 })
  else (ch, lx)

/-- The loop `while (std::isspace(ch))` inside the comment branch (source lines 111-125). -/
def cwsLoop : Nat → Option Char → Lexer → Run (Option Char × Lexer)
  | 0, _, _ => .timeout
  | fuel + 1, ch, lx =>
    if isspace ch then
      let (ch, lx) := cwsBody ch lx
      cwsLoop fuel ch lx
    else .ok (ch, lx)

/-- The loop `while (multiline)` of the comment branch (source lines 102-131). -/
def commentLoop : Nat → Option Char → Lexer → Run (Option Char × Lexer)
  | 0, _, _ => .timeout
  | fuel + 1, ch, lx =>
    match toEol (fuel + 1) ch lx with
    | .ok (_, lx) =>
      let lx := { lx with line := lx.line + 1, column := 1 }
      let (ch, lx) := lx.read
      match cwsLoop (fuel + 1) ch lx with
      | .ok (ch, lx) =>
        if ch ≠ some '#' then .ok (ch, lx) else commentLoop fuel ch lx
      | .raise e => .raise e
      | .crash w => .crash w
      | .timeout => .timeout
    | .raise e => .raise e
    | .crash w => .crash w
    | .timeout => .timeout

/-- The loop `while (peek() != '"')` of the string branch (source lines 239-251).
`eos` is the integer value of the enumerator `EOS`, which the source compares
the character against. -/
def stringLoop (eos : Nat) (start_col : Nat) :
    Nat → Option Char → String → Lexer → Run (Option Char × String × Lexer)
  | 0, _, _, _ => .timeout
  | fuel + 1, ch, lexeme, lx =>
    if lx.peek ≠ some '"' then
      if ch.map Char.toNat = some eos then
        Lexer.error "missing \"" lx.line lx.column
      else if isspace ch && (ch = some '\n' && isspace lx.peek) then
        Lexer.error "Strings need to be one continuous string of characters" lx.line start_col
      else
        let lexeme := pushCh lexeme ch
        let lx := { lx with column := lx.column + 1 }
        let (ch, lx) := lx.read
        stringLoop eos start_col fuel ch lexeme lx
    else .ok (ch, lexeme, lx)

/-- The loop `while (std::isdigit(peek()) || peek() == '.')` of the numeric
branch (source lines 263-272). -/
def numLoop : Nat → Option Char → Bool → String → Lexer → Run (Option Char × Bool × String × Lexer)
  | 0, _, _, _, _ => .timeout
  | fuel + 1, ch, is_double, lexeme, lx =>
    if isdigit lx.peek || lx.peek = some '.' then
      let is_double := if ch = some '.' then true else is_double
      let lexeme := pushCh lexeme ch
      let (ch, lx) := lx.read
      let lx := { lx with column := lx.column + 1 }
      numLoop fuel ch is_double lexeme lx
    else .ok (ch, is_double, lexeme, lx)

/-- The loop condition of the identifier branch (source lines 290-293). -/
def idContinues (p : Option Char) : Bool :=
  !(isspace p) && p ≠ some ',' && p ≠ some '(' && p ≠ some ')'
    && p ≠ some ':' && p ≠ some '=' && p ≠ some '.' && p ≠ some '+' && p ≠ some '-'
    && p ≠ some '/' && p ≠ some '*' && p ≠ some '%' && p ≠ some '#'
    && p ≠ some '<' && p ≠ some '>'

/-- The loop of the identifier branch (source lines 290-298). -/
def idLoop : Nat → String → Lexer → Run (String × Lexer)
  | 0, _, _ => .timeout
  | fuel + 1, lexeme, lx =>
    if idContinues lx.peek then
      let (ch, lx) := lx.read
      let lexeme := pushCh lexeme ch
      let lx := { lx with column := lx.column + 1 }
      idLoop fuel lexeme lx
    else .ok (lexeme, lx)

/-- The keyword table at the end of `next_token` (source lines 300-376). -/
def keyword (lexeme : String) : TokenType :=
  if lexeme = "neg" then .NEG
  else if lexeme = "and" then .AND
  else if lexeme = "or" then .OR
  else if lexeme = "not" then .NOT
  else if lexeme = "type" then .TYPE
  else if lexeme = "while" then .WHILE
  else if lexeme = "for" then .FOR
  else if lexeme = "to" then .TO
  else if lexeme = "do" then .DO
  else if lexeme = "if" then .IF
  else if lexeme = "then" then .THEN
  else if lexeme = "elseif" then .ELSEIF
  else if lexeme = "else" then .ELSE
  else if lexeme = "end" then .END
  else if lexeme = "fun" then .FUN
  else if lexeme = "var" then .VAR
  else if lexeme = "return" then .RETURN
  else if lexeme = "new" then .NEW
  else if lexeme = "bool" then .BOOL_TYPE
  else if lexeme = "int" then .INT_TYPE
  else if lexeme = "double" then .DOUBLE_TYPE
  else if lexeme = "char" then .CHAR_TYPE
  else if lexeme = "string" then .STRING_TYPE
  else if lexeme = "nil" then .NIL
  else if lexeme = "true" ∨ lexeme = "false" then .BOOL_VAL
  else .ID

/-- The part of `next_token` after whitespace and comments have been skipped
(source lines 133-381). -/
def scanToken (eos : Nat) (fuel : Nat) (ch : Option Char) (lx : Lexer) : Run (Token × Lexer) :=
  let line := lx.line
  let column := lx.column
  if ch = none then .ok (⟨.EOS, "", line, column⟩, lx)
  else if ch = some '(' then .ok (⟨.LPAREN, "(", line, column⟩, lx)
  else if ch = some ')' then .ok (⟨.RPAREN, ")", line, column⟩, lx)
  else if ch = some '.' then .ok (⟨.DOT, ".", line, column⟩, lx)
  else if ch = some ',' then .ok (⟨.COMMA, ",", line, column⟩, lx)
  else if ch = some ':' then .ok (⟨.COLON, ":", line, column⟩, lx)
  else if ch = some '+' then .ok (⟨.PLUS, "+", line, column⟩, lx)
  else if ch = some '-' then .ok (⟨.MINUS, "-", line, column⟩, lx)
  else if ch = some '*' then .ok (⟨.MULTIPLY, "*", line, column⟩, lx)
  else if ch = some '/' then .ok (⟨.DIVIDE, "/", line, column⟩, lx)
  else if ch = some '%' then .ok (⟨.MODULO, "%", line, column⟩, lx)
  else if ch = some '=' then
    if lx.peek = some '=' then
      let (_, lx) := lx.read
      .ok (⟨.EQUAL, "==", line, column⟩, { lx with column := column + 1 })
    else .ok (⟨.ASSIGN, "=", line, column⟩, lx)
  else if ch = some '<' then
    if lx.peek = some '=' then
      let (_, lx) := lx.read
      .ok (⟨.LESS_EQUAL, "<=", line, column⟩, { lx with column := column + 1 })
    else .ok (⟨.LESS, "<", line, column⟩, lx)
  else if ch = some '>' then
    if lx.peek = some '=' then
      let (_, lx) := lx.read
      .ok (⟨.GREATER_EQUAL, ">=", line, column⟩, { lx with column := column + 1 })
    else .ok (⟨.GREATER, ">", line, column⟩, lx)
  else if ch = some '!' then
    if lx.peek = some '=' then
      let (_, lx) := lx.read
      .ok (⟨.NOT_EQUAL, "!=", line, column⟩, { lx with column := column + 1 })
    else Lexer.error "invalid symbol" line column
  else if ch = some '\'' then
    let (ch, lx) := lx.read
    if lx.peek = some '\'' then
      let lexeme := pushCh "" ch
      let (_, lx) := lx.read
      .ok (⟨.CHAR_VAL, lexeme, line, column⟩, { lx with column := column + 1 })
    else Lexer.error "invalid symbol" line column
  else if ch = some '"' then
    let (ch, lx) := lx.read
    let start_col := column
    let lx := { lx with column := column + 1 }
    if ch = some '"' then .ok (⟨.STRING_VAL, "", line, start_col⟩, lx)
    else
      match stringLoop eos start_col fuel ch "" lx with
      | .ok (ch, lexeme, lx) =>
        let lexeme := pushCh lexeme ch
        let (_, lx) := lx.read
        .ok (⟨.STRING_VAL, lexeme, lx.line, start_col⟩, lx)
      | .raise e => .raise e
      | .crash w => .crash w
      | .timeout => .timeout
  else if isdigit ch then
    let start_col := column
    let lexeme := pushCh "" ch
    match numLoop fuel ch false lexeme lx with
    | .ok (_, is_double, lexeme, lx) =>
      if is_double then .ok (⟨.DOUBLE_VAL, lexeme, lx.line, start_col⟩, lx)
      else .ok (⟨.INT_VAL, lexeme, lx.line, start_col⟩, lx)
    | .raise e => .raise e
    | .crash w => .crash w
    | .timeout => .timeout
  else if isalpha ch then
    let start_col := column
    let lexeme := pushCh "" ch
    match idLoop fuel lexeme lx with
    | .ok (lexeme, lx) => .ok (⟨keyword lexeme, lexeme, lx.line, start_col⟩, lx)
    | .raise e => .raise e
    | .crash w => .crash w
    | .timeout => .timeout
  else .crash "next_token: control reaches the end of the function without a return"

/-- The method `Lexer::next_token` (source lines 70-381). `eos` is the integer value of the
enumerator `EOS` (declared in `token.h`). -/
def Lexer.next_token (eos : Nat) (fuel : Nat) (lx : Lexer) : Run (Token × Lexer) :=
  let (ch, lx) := lx.read
  let lx := { lx with column := lx.column + 1 }
  match wsLoop fuel ch lx with
  | .ok (ch, lx) =>
    if ch = some '#' then
      match commentLoop fuel ch lx with
      | .ok (ch, lx) => scanToken eos fuel ch lx
      | .raise e => .raise e
      | .crash w => .crash w
      | .timeout => .timeout
    else scanToken eos fuel ch lx
  | .raise e => .raise e
  | .crash w => .crash w
  | .timeout => .timeout

/-! ## Abstract syntax (`ast.h`) -/

mutual
/-- Modelled from the spec: the expression node `Expr` of `ast.h`. The parser sets `op` and
`rest` together (`parser.h`, source lines 502-511), so a node is `single` (both null) or
`binary`. -/
inductive Expr where
  | single (negated : Bool) (first : ExprTerm)
  | binary (negated : Bool) (first : ExprTerm) (op : Token) (rest : Expr)
/-- Modelled from the spec: the expression terms `SimpleTerm` and `ComplexTerm` of `ast.h`. -/
inductive ExprTerm where
  | SimpleTerm (rvalue : RValue)
  | ComplexTerm (expr : Expr)
/-- Modelled from the spec: the rvalue nodes of `ast.h`. -/
inductive RValue where
  | SimpleRValue (value : Token)
  | NewRValue (type_id : Token)
  | CallExpr (function_id : Token) (arg_list : List Expr)
  | IDRValue (path : List Token)
  | NegatedRValue (expr : Expr)
end

/-- Modelled from the spec: the node `VarDeclStmt` of `ast.h`; `type` is null when no type
is written. -/
structure VarDeclStmt where
  id : Token
  type : Option Token
  expr : Expr

mutual
/-- Modelled from the spec: the statement nodes of `ast.h`; a call used as a statement is a
`CallExpr`. -/
inductive Stmt where
  | VarDecl (v : VarDeclStmt)
  | AssignStmt (lvalue_list : List Token) (expr : Expr)
  | ReturnStmt (expr : Expr)
  | IfStmt (if_part : BasicIf) (else_ifs : List BasicIf) (body_stmts : List Stmt)
  | WhileStmt (expr : Expr) (stmts : List Stmt)
  | ForStmt (var_id : Token) (start : Expr) (end_ : Expr) (stmts : List Stmt)
  | CallExpr (function_id : Token) (arg_list : List Expr)
/-- Modelled from the spec: the node `BasicIf` of `ast.h`, a condition with its body. -/
inductive BasicIf where
  | mk (expr : Expr) (stmts : List Stmt)
end

/-- Modelled from the spec: `FunDecl::FunParam` of `ast.h`, a formal parameter. -/
structure FunParam where
  id : Token
  type : Token
  deriving DecidableEq, Repr

/-- Modelled from the spec: the declaration nodes `FunDecl` and `TypeDecl` of `ast.h`. -/
inductive Decl where
  | FunDecl (return_type : Token) (id : Token) (params : List FunParam) (stmts : List Stmt)
  | TypeDecl (id : Token) (vdecls : List VarDeclStmt)

/-- Modelled from the spec: the node `Program` of `ast.h`, the root of the syntax tree. -/
structure Program where
  decls : List Decl

/-- The condition of a `BasicIf`. -/
def BasicIf.expr : BasicIf → Expr
  | .mk e _ => e

/-- The body of a `BasicIf`. -/
def BasicIf.stmts : BasicIf → List Stmt
  | .mk _ s => s

/-! ## Parser (`parser.h`)

The parser is embedded over the sequence of tokens its lexer delivers: `lexer`
holds the tokens not yet requested, and once they are used up every further
request yields an `EOS` token. The interactive entry points (`parse(Repl&)`,
`repl_endpoint`) are not embedded; `stmt` is embedded for `in_repl = false`. -/

/-- Parser state: the tokens still to come and the current token. -/
structure Parser where
  lexer : List Token
  curr_token : Token
  deriving DecidableEq, Repr

/-- The constructor `Parser::Parser`. -/
def Parser.new (tokens : List Token) : Parser := ⟨tokens, Token.empty⟩

/-- The method `Parser::advance`. -/
def Parser.advance (p : Parser) : Parser :=
  match p.lexer with
  | [] => { p with curr_token := ⟨.EOS, "", 0, 0⟩ }
  | t :: ts => ⟨ts, t⟩

/-- The method `Parser::error`. -/
def Parser.error {α : Type} (p : Parser) (err_msg : String) : Run α :=
  .raise ⟨.SYNTAX, err_msg ++ "found '" ++ p.curr_token.lexeme ++ "'",
    some (p.curr_token.line, p.curr_token.column)⟩

/-- The method `Parser::eat`. -/
def Parser.eat (p : Parser) (t : TokenType) (err_msg : String) : Run Parser :=
  if p.curr_token.type = t then .ok p.advance else p.error err_msg

/-- The method `Parser::is_operator`. -/
def Parser.is_operator (t : TokenType) : Bool :=
  t = .PLUS || t = .MINUS || t = .DIVIDE || t = .MULTIPLY ||
    t = .MODULO || t = .AND || t = .OR || t = .EQUAL || t = .LESS ||
    t = .GREATER || t = .LESS_EQUAL || t = .GREATER_EQUAL || t = .NOT_EQUAL

/-- The method `Parser::dtype`. -/
def Parser.dtype (p : Parser) : Run Parser :=
  if p.curr_token.type = .INT_TYPE then p.eat .INT_TYPE "expecting int_type"
  else if p.curr_token.type = .DOUBLE_TYPE then p.eat .DOUBLE_TYPE "expecting double_type"
  else if p.curr_token.type = .BOOL_TYPE then p.eat .BOOL_TYPE "expecting bool_type"
  else if p.curr_token.type = .CHAR_TYPE then p.eat .CHAR_TYPE "expecting char_type"
  else if p.curr_token.type = .STRING_TYPE then p.eat .STRING_TYPE "expecting string_type"
  else if p.curr_token.type = .ID then p.eat .ID "expecting id"
  else p.error "unexpected token "

/-- The method `Parser::new_rvalue`. -/
def Parser.new_rvalue (p : Parser) : Run (RValue × Parser) := do
  let type_id := p.curr_token
  let p ← p.eat .ID "expected id "
  pure (.NewRValue type_id, p)

/-- The loop `while(curr_token.type() == DOT)` of `simple_term` (source lines 585-590). -/
def Parser.pathLoop : Nat → Parser → List Token → Run (List Token × Parser)
  | 0, _, _ => .timeout
  | fuel + 1, p, path =>
    if p.curr_token.type = .DOT then do
      let p ← p.eat .DOT "Expected DOT "
      let path := path ++ [p.curr_token]
      let p ← p.eat .ID "Expected ID "
      Parser.pathLoop fuel p path
    else pure (path, p)

mutual
/-- The method `Parser::expr` (source lines 460-517). -/
def Parser.expr : Nat → Parser → Run (Expr × Parser)
  | 0, _ => .timeout
  | fuel + 1, p => do
    let (negated, p) ←
      if p.curr_token.type = .NEG then do
        let p ← p.eat .NEG "expecting neg "
        pure (true, p)
      else pure (false, p)
    let (negated, first, p) ←
      if p.curr_token.type = .NOT then do
        let p ← p.eat .NOT "expecting not "
        let (e, p) ← Parser.expr fuel p
        pure (true, ExprTerm.ComplexTerm e, p)
      else if p.curr_token.type = .LPAREN then do
        let p ← p.eat .LPAREN "expecting lparen "
        let (e, p) ← Parser.expr fuel p
        let p ← if p.curr_token.type = .RPAREN then p.eat .RPAREN "expecting rparen " else pure p
        pure (negated, ExprTerm.ComplexTerm e, p)
      else do
        let (s, p) ← Parser.simple_term fuel p
        pure (negated, s, p)
    if Parser.is_operator p.curr_token.type then do
      let new_op := p.curr_token
      let p := p.advance
      let (e, p) ← Parser.expr fuel p
      pure (Expr.binary negated first new_op e, p)
    else pure (Expr.single negated first, p)
/-- The method `Parser::simple_term` (source lines 520-598). -/
def Parser.simple_term : Nat → Parser → Run (ExprTerm × Parser)
  | 0, _ => .timeout
  | fuel + 1, p =>
    let t := p.curr_token.type
    if t = .INT_VAL || t = .DOUBLE_VAL || t = .BOOL_VAL || t = .CHAR_VAL
        || t = .STRING_VAL || t = .NIL then
      let value := p.curr_token
      pure (.SimpleTerm (.SimpleRValue value), p.advance)
    else if t = .NEW then do
      let p ← p.eat .NEW "Expected NEW "
      let (n, p) ← p.new_rvalue
      pure (.SimpleTerm n, p)
    else if t = .NEG then do
      let (ne, p) ← Parser.expr fuel p
      pure (.SimpleTerm (.NegatedRValue ne), p)
    else if t = .ID then do
      let new_id := p.curr_token
      let p ← p.eat .ID "Expected ID "
      if p.curr_token.type = .LPAREN then do
        let p ← p.eat .LPAREN "Expected LPAREN "
        let (arg_list, p) ← Parser.argLoop fuel p []
        let p ← p.eat .RPAREN "Expected RPAREN "
        pure (.SimpleTerm (.CallExpr new_id arg_list), p)
      else do
        let (path, p) ← Parser.pathLoop (fuel + 1) p [new_id]
        pure (.SimpleTerm (.IDRValue path), p)
    else p.error "Something went wrong "
/-- The argument loop `while (curr_token.type() != RPAREN)` of a call
(source lines 227-234 and 567-574). -/
def Parser.argLoop : Nat → Parser → List Expr → Run (List Expr × Parser)
  | 0, _, _ => .timeout
  | fuel + 1, p, arg_list =>
    if p.curr_token.type ≠ .RPAREN then do
      let (e, p) ← Parser.expr fuel p
      let arg_list := arg_list ++ [e]
      let p ← if p.curr_token.type = .COMMA then p.eat .COMMA "expecting comma " else pure p
      Parser.argLoop fuel p arg_list
    else pure (arg_list, p)
end

/-- The loop `while (curr_token.type() != ASSIGN)` of an assignment
(source lines 244-249). -/
def Parser.lvalueLoop : Nat → Parser → List Token → Run (List Token × Parser)
  | 0, _, _ => .timeout
  | fuel + 1, p, lvalue_list =>
    if p.curr_token.type ≠ .ASSIGN then do
      let p ← p.eat .DOT "Expected DOT "
      let lvalue_list := lvalue_list ++ [p.curr_token]
      let p ← p.eat .ID "Expected ID "
      Parser.lvalueLoop fuel p lvalue_list
    else pure (lvalue_list, p)

/-- The method `Parser::vdecl_stmt` (source lines 301-322). -/
def Parser.vdecl_stmt (fuel : Nat) (p : Parser) : Run (VarDeclStmt × Parser) := do
  let p ← p.eat .VAR "expecting var "
  let id := p.curr_token
  let p ← p.eat .ID "expecting ID "
  let (type, p) ←
    if p.curr_token.type = .COLON then do
      let p ← p.eat .COLON "expecting colon "
      let id := p.curr_token
      pure (some id, p.advance)
    else pure (none, p)
  let p ← p.eat .ASSIGN "expecting assign "
  let (e, p) ← Parser.expr fuel p
  pure (⟨id, type, e⟩, p)

/-- The method `Parser::return_stmt` (source lines 344-350). -/
def Parser.return_stmt (fuel : Nat) (p : Parser) : Run (Stmt × Parser) := do
  let p ← p.eat .RETURN "expecting return "
  let (e, p) ← Parser.expr fuel p
  pure (.ReturnStmt e, p)

mutual
/-- The method `Parser::stmt` for `in_repl = false` (source lines 202-285): parses one
statement and appends it to `stmts`. -/
def Parser.stmt : Nat → Parser → List Stmt → Run (List Stmt × Parser)
  | 0, _, _ => .timeout
  | fuel + 1, p, stmts =>
    if p.curr_token.type = .VAR then do
      let (v, p) ← Parser.vdecl_stmt fuel p
      pure (stmts ++ [.VarDecl v], p)
    else if p.curr_token.type = .ID then do
      let id := p.curr_token
      let p ← p.eat .ID "expecting ID "
      if p.curr_token.type = .LPAREN then do
        let p ← p.eat .LPAREN "Expected LPAREN "
        let (arg_list, p) ← Parser.argLoop fuel p []
        let p ← p.eat .RPAREN "Expected RPAREN "
        pure (stmts ++ [.CallExpr id arg_list], p)
      else do
        let (lvalue_list, p) ← Parser.lvalueLoop fuel p [id]
        let p ← p.eat .ASSIGN "Expected ASSIGN "
        let (e, p) ← Parser.expr fuel p
        pure (stmts ++ [.AssignStmt lvalue_list e], p)
    else if p.curr_token.type = .IF then do
      let (i, p) ← Parser.if_stmt fuel p
      pure (stmts ++ [i], p)
    else if p.curr_token.type = .WHILE then do
      let (w, p) ← Parser.while_stmt fuel p
      pure (stmts ++ [w], p)
    else if p.curr_token.type = .FOR then do
      let (f, p) ← Parser.for_stmt fuel p
      pure (stmts ++ [f], p)
    else if p.curr_token.type = .RETURN then do
      let (r, p) ← Parser.return_stmt fuel p
      pure (stmts ++ [r], p)
    else p.error "unexpected token "
/-- The loops `while (curr_token.type() != END ...) stmt(list);`: statements are parsed
and appended until the current token has one of the kinds in `stop`. -/
def Parser.stmtLoop (stop : List TokenType) : Nat → Parser → List Stmt → Run (List Stmt × Parser)
  | 0, _, _ => .timeout
  | fuel + 1, p, stmts =>
    if p.curr_token.type ∉ stop then do
      let (stmts, p) ← Parser.stmt fuel p stmts
      Parser.stmtLoop stop fuel p stmts
    else pure (stmts, p)
/-- The loop reading the `elseif` parts in `if_stmt` (source lines 375-392). -/
def Parser.elseifLoop : Nat → Parser → List BasicIf → Run (List BasicIf × Parser)
  | 0, _, _ => .timeout
  | fuel + 1, p, elif_stmt_list =>
    if p.curr_token.type ≠ .ELSE ∧ p.curr_token.type ≠ .END then do
      let p ← p.eat .ELSEIF "expecting elseif "
      let (eb2, p) ← Parser.expr fuel p
      let p ← p.eat .THEN "expecting then "
      let (b2_stmt_list, p) ← Parser.stmtLoop [.END, .ELSE, .ELSEIF] fuel p []
      Parser.elseifLoop fuel p (elif_stmt_list ++ [.mk eb2 b2_stmt_list])
    else pure (elif_stmt_list, p)
/-- The method `Parser::if_stmt` (source lines 353-408). -/
def Parser.if_stmt : Nat → Parser → Run (Stmt × Parser)
  | 0, _ => .timeout
  | fuel + 1, p => do
    let p ← p.eat .IF "expecting if "
    let (e, p) ← Parser.expr fuel p
    let p ← p.eat .THEN "expcting then "
    let (b_stmts, p) ← Parser.stmtLoop [.END, .ELSEIF, .ELSE] fuel p []
    let (elif_stmt_list, p) ←
      if p.curr_token.type = .ELSEIF then Parser.elseifLoop fuel p []
      else pure ([], p)
    let (else_stmt_list, p) ←
      if p.curr_token.type = .ELSE then do
        let p ← p.eat .ELSE "expecting else "
        Parser.stmtLoop [.END] fuel p []
      else pure ([], p)
    let p ← p.eat .END "expecting end "
    pure (.IfStmt (.mk e b_stmts) elif_stmt_list else_stmt_list, p)
/-- The method `Parser::while_stmt` (source lines 411-427). -/
def Parser.while_stmt : Nat → Parser → Run (Stmt × Parser)
  | 0, _ => .timeout
  | fuel + 1, p => do
    let p ← p.eat .WHILE "expecting while "
    let (e, p) ← Parser.expr fuel p
    let p ← p.eat .DO "expecting do "
    let (stmt_list, p) ← Parser.stmtLoop [.END] fuel p []
    -- `node.stmts = stmt_list;`
    let stmts := stmt_list
    let p ← p.eat .END "expecting end "
    pure (.WhileStmt e stmts, p)
/-- The method `Parser::for_stmt` (source lines 430-453). The statements of the body are
collected in the local `stmt_list`; the function ends without storing it in `node.stmts`,
which keeps the empty list of the freshly constructed node. -/
def Parser.for_stmt : Nat → Parser → Run (Stmt × Parser)
  | 0, _ => .timeout
  | fuel + 1, p => do
    let stmts : List Stmt := []
    let p ← p.eat .FOR "expecting for"
    let var_id := p.curr_token
    let p ← p.eat .ID "expecting id"
    let p ← p.eat .ASSIGN "expecting assign"
    let (start_e, p) ← Parser.expr fuel p
    let p ← p.eat .TO "expecting to"
    let (e, p) ← Parser.expr fuel p
    let p ← p.eat .DO "expecting do"
    let (_stmt_list, p) ← Parser.stmtLoop [.END] fuel p []
    let p ← p.eat .END "expecting end"
    pure (.ForStmt var_id start_e e stmts, p)
end

/-- The parameter loop `while(curr_token.type() != RPAREN)` of `fdecl` (source lines 158-171). -/
def Parser.paramLoop : Nat → Parser → List FunParam → Run (List FunParam × Parser)
  | 0, _, _ => .timeout
  | fuel + 1, p, params =>
    if p.curr_token.type ≠ .RPAREN then do
      let id := p.curr_token
      let p := p.advance
      let p ← p.eat .COLON "expecting colon "
      let type := p.curr_token
      let p ← p.dtype
      let params := params ++ [⟨id, type⟩]
      let p ← if p.curr_token.type = .COMMA then p.eat .COMMA "expecting comma " else pure p
      Parser.paramLoop fuel p params
    else pure (params, p)

/-- The method `Parser::fdecl` (source lines 145-179). -/
def Parser.fdecl (fuel : Nat) (p : Parser) : Run (Decl × Parser) := do
  let p ← p.eat .FUN "expecting FUN "
  let return_type := p.curr_token
  let p ← if p.curr_token.type = .NIL then p.eat .NIL "expecting nil " else p.dtype
  let id := p.curr_token
  let p ← p.eat .ID "expecting ID "
  let p ← p.eat .LPAREN "expecting lparen "
  let (params, p) ← Parser.paramLoop fuel p []
  let p ← p.eat .RPAREN "expecting rparen"
  let (stmts, p) ← Parser.stmtLoop [.END] fuel p []
  let p ← p.eat .END "expecting end"
  pure (.FunDecl return_type id params stmts, p)

/-- The loop `while (curr_token.type() != END)` of `tdecl` (source lines 188-193). -/
def Parser.vdeclLoop : Nat → Parser → List VarDeclStmt → Run (List VarDeclStmt × Parser)
  | 0, _, _ => .timeout
  | fuel + 1, p, vdecls =>
    if p.curr_token.type ≠ .END then do
      let (v, p) ← Parser.vdecl_stmt fuel p
      Parser.vdeclLoop fuel p (vdecls ++ [v])
    else pure (vdecls, p)

/-- The method `Parser::tdecl` (source lines 182-195). -/
def Parser.tdecl (fuel : Nat) (p : Parser) : Run (Decl × Parser) := do
  let p ← p.eat .TYPE "expecting type "
  let id := p.curr_token
  let p ← p.eat .ID "expecting id "
  let (vdecls, p) ← Parser.vdeclLoop fuel p []
  let p ← p.eat .END "expecteing end "
  pure (.TypeDecl id vdecls, p)

/-- The loop `while (curr_token.type() != EOS)` of `parse(Program&)` (source lines 118-140). -/
def Parser.declLoop : Nat → Parser → List Decl → Run (List Decl × Parser)
  | 0, _, _ => .timeout
  | fuel + 1, p, decls =>
    if p.curr_token.type ≠ .EOS then
      if p.curr_token.type = .TYPE then do
        let (t, p) ← Parser.tdecl fuel p
        Parser.declLoop fuel p (decls ++ [t])
      else if p.curr_token.type = .FUN then do
        let (f, p) ← Parser.fdecl fuel p
        Parser.declLoop fuel p (decls ++ [f])
      else p.error "Expecting Decl"
    else pure (decls, p)

/-- The method `Parser::parse(Program&)` (source lines 115-142). -/
def Parser.parse (fuel : Nat) (p : Parser) : Run (Program × Parser) := do
  let p := p.advance
  let (decls, p) ← Parser.declLoop fuel p []
  let p ← p.eat .EOS "Expecting end-of-file "
  pure (⟨decls⟩, p)

/-! ## Runtime values and the heap (`data_object.h`, `heap.h`) -/

/-- Modelled from the spec: the runtime value `DataObject` of `data_object.h`, a closed
tagged union over nil, bool, int, double, char, string and object reference. -/
inductive DataObject where
  | nil
  | bool (b : Bool)
  | int (i : Int)
  | double (d : Float)
  | char (c : Char)
  | string (s : String)
  | oid (o : Nat)

/-- Modelled from the spec: `HeapObject` of `heap.h`, a mapping from attribute name to value. -/
structure HeapObject where
  atts : List (String × DataObject)

/-- The method `HeapObject::has_att`. -/
def HeapObject.has_att (h : HeapObject) (name : String) : Bool :=
  (h.atts.lookup name).isSome

/-- The method `HeapObject::get_val`: the value of the attribute, when it has one. -/
def HeapObject.get_val (h : HeapObject) (name : String) : Option DataObject :=
  h.atts.lookup name

/-- The method `HeapObject::set_att`: adds or overwrites the attribute. -/
def HeapObject.set_att (h : HeapObject) (name : String) (v : DataObject) : HeapObject :=
  ⟨(name, v) :: h.atts.filter (fun a => a.1 != name)⟩

/-- Modelled from the spec: `Heap` of `heap.h`, a mapping from oid to `HeapObject`. -/
structure Heap where
  objs : List (Nat × HeapObject)

/-- The method `Heap::has_obj`. -/
def Heap.has_obj (h : Heap) (oid : Nat) : Bool :=
  (h.objs.lookup oid).isSome

/-- The method `Heap::get_obj`: a copy of the object stored under the oid, when there is one
(the output parameter is left as it was otherwise). -/
def Heap.get_obj (h : Heap) (oid : Nat) : Option HeapObject :=
  h.objs.lookup oid

/-- The method `Heap::set_obj`: stores the object under the oid. -/
def Heap.set_obj (h : Heap) (oid : Nat) (o : HeapObject) : Heap :=
  ⟨(oid, o) :: h.objs.filter (fun a => a.1 != oid)⟩

/-! ## Scoped symbol table (`symbol_table.h`) -/

/-- The payload bound to a name: nothing yet, a type name, a signature vector, an
attribute map, or a runtime value. -/
inductive Info where
  | none
  | str (s : String)
  | vec (v : List String)
  | map (m : List (String × String))
  | val (v : DataObject)

/-- One environment: its id, the id of the enclosing environment and its bindings. -/
structure Environment where
  id : Nat
  parent : Option Nat
  names : List (String × Info)

/-- Modelled from the spec: `SymbolTable` of `symbol_table.h`. Environments are kept by id
with a link to the enclosing one; `curr` is the active environment; lookup walks from the
active environment outward, `add_name` binds in the active environment only. -/
structure SymbolTable where
  envs : List Environment
  curr : Option Nat
  next_id : Nat

/-- The empty symbol table. -/
def SymbolTable.new : SymbolTable := ⟨[], none, 0⟩

/-- The environment with the given id. -/
def SymbolTable.env? (st : SymbolTable) (id : Nat) : Option Environment :=
  st.envs.find? (fun e => e.id == id)

/-- The method `SymbolTable::push_environment`. -/
def SymbolTable.push_environment (st : SymbolTable) : SymbolTable :=
  ⟨⟨st.next_id, st.curr, []⟩ :: st.envs, some st.next_id, st.next_id + 1⟩

/-- The method `SymbolTable::pop_environment`. -/
def SymbolTable.pop_environment (st : SymbolTable) : SymbolTable :=
  match st.curr with
  | none => st
  | some i =>
    { st with envs := st.envs.filter (fun e => e.id != i),
              curr := (st.env? i).bind (fun e => e.parent) }

/-- The method `SymbolTable::get_environment_id`. -/
def SymbolTable.get_environment_id (st : SymbolTable) : Option Nat := st.curr

/-- The method `SymbolTable::set_environment_id`. -/
def SymbolTable.set_environment_id (st : SymbolTable) (id : Option Nat) : SymbolTable :=
  { st with curr := id }

/-- The innermost environment that binds `name`, walking outward from environment `from_`
through at most `depth` environments. -/
def SymbolTable.findFrom (st : SymbolTable) (name : String) : Nat → Option Nat → Option Environment
  | 0, _ => none
  | _, none => none
  | depth + 1, some i =>
    match st.env? i with
    | none => none
    | some e =>
      if (e.names.lookup name).isSome then some e
      else SymbolTable.findFrom st name depth e.parent

/-- The innermost environment, seen from the active one, that binds `name`. -/
def SymbolTable.get_environment (st : SymbolTable) (name : String) : Option Environment :=
  st.findFrom name st.envs.length st.curr

/-- The payload of `name` in the innermost environment that binds it. -/
def SymbolTable.info? (st : SymbolTable) (name : String) : Option Info :=
  (st.get_environment name).bind (fun e => e.names.lookup name)

/-- The method `SymbolTable::name_exists`. -/
def SymbolTable.name_exists (st : SymbolTable) (name : String) : Bool :=
  (st.get_environment name).isSome

/-- The method `SymbolTable::name_exists_in_curr_env`. -/
def SymbolTable.name_exists_in_curr_env (st : SymbolTable) (name : String) : Bool :=
  match st.curr.bind st.env? with
  | none => false
  | some e => (e.names.lookup name).isSome

/-- Replaces the payload of `name` in the environment with id `i`. -/
def SymbolTable.setIn (st : SymbolTable) (i : Nat) (name : String) (info : Info) : SymbolTable :=
  { st with envs := st.envs.map (fun e =>
      if e.id == i then { e with names := (name, info) :: e.names.filter (fun b => b.1 != name) }
      else e) }

/-- The method `SymbolTable::add_name`: binds `name`, with no payload yet, in the active
environment. -/
def SymbolTable.add_name (st : SymbolTable) (name : String) : SymbolTable :=
  match st.curr with
  | none => st
  | some i => st.setIn i name .none

/-- Sets the payload of `name` in the innermost environment that binds it. -/
def SymbolTable.set_info (st : SymbolTable) (name : String) (info : Info) : SymbolTable :=
  match st.get_environment name with
  | none => st
  | some e => st.setIn e.id name info

/-- The method `SymbolTable::set_str_info`. -/
def SymbolTable.set_str_info (st : SymbolTable) (name : String) (s : String) : SymbolTable :=
  st.set_info name (.str s)

/-- The method `SymbolTable::set_vec_info`. -/
def SymbolTable.set_vec_info (st : SymbolTable) (name : String) (v : List String) : SymbolTable :=
  st.set_info name (.vec v)

/-- The method `SymbolTable::set_map_info`. -/
def SymbolTable.set_map_info (st : SymbolTable) (name : String) (m : List (String × String)) :
    SymbolTable :=
  st.set_info name (.map m)

/-- The method `SymbolTable::set_val_info`. -/
def SymbolTable.set_val_info (st : SymbolTable) (name : String) (v : DataObject) : SymbolTable :=
  st.set_info name (.val v)

/-- The method `SymbolTable::get_str_info`: the type name bound to `name`, when it has one
(the output parameter is left as it was otherwise). -/
def SymbolTable.get_str_info (st : SymbolTable) (name : String) : Option String :=
  match st.info? name with
  | some (.str s) => some s
  | _ => none

/-- The method `SymbolTable::get_vec_info`. -/
def SymbolTable.get_vec_info (st : SymbolTable) (name : String) : Option (List String) :=
  match st.info? name with
  | some (.vec v) => some v
  | _ => none

/-- The method `SymbolTable::get_map_info`. -/
def SymbolTable.get_map_info (st : SymbolTable) (name : String) : Option (List (String × String)) :=
  match st.info? name with
  | some (.map m) => some m
  | _ => none

/-- The method `SymbolTable::get_val_info`. -/
def SymbolTable.get_val_info (st : SymbolTable) (name : String) : Option DataObject :=
  match st.info? name with
  | some (.val v) => some v
  | _ => none

/-- The method `SymbolTable::has_str_info`. -/
def SymbolTable.has_str_info (st : SymbolTable) (name : String) : Bool :=
  (st.get_str_info name).isSome

/-- The method `SymbolTable::has_vec_info`. -/
def SymbolTable.has_vec_info (st : SymbolTable) (name : String) : Bool :=
  (st.get_vec_info name).isSome

/-- The method `SymbolTable::has_map_info`. -/
def SymbolTable.has_map_info (st : SymbolTable) (name : String) : Bool :=
  (st.get_map_info name).isSome

/-- The method `SymbolTable::has_val_info`. -/
def SymbolTable.has_val_info (st : SymbolTable) (name : String) : Bool :=
  (st.get_val_info name).isSome

/-! ## Type checker (`type_checker.h`) -/

mutual
/-- Modelled from the spec: the method `Expr::first_token` of `ast.h`, the first token of the
expression. -/
def Expr.first_token : Expr → Token
  | .single _ first => ExprTerm.first_token first
  | .binary _ first _ _ => ExprTerm.first_token first
/-- The method `first_token` of an expression term. -/
def ExprTerm.first_token : ExprTerm → Token
  | .SimpleTerm rvalue => RValue.first_token rvalue
  | .ComplexTerm expr => Expr.first_token expr
/-- The method `first_token` of an rvalue. -/
def RValue.first_token : RValue → Token
  | .SimpleRValue value => value
  | .NewRValue type_id => type_id
  | .CallExpr function_id _ => function_id
  | .IDRValue path => path.headD Token.empty
  | .NegatedRValue expr => Expr.first_token expr
end

/-- State of the type checker: its symbol table and the previously inferred type. -/
structure TypeChecker where
  sym_table : SymbolTable
  curr_type : String

/-- A freshly constructed type checker. -/
def TypeChecker.new : TypeChecker := ⟨SymbolTable.new, ""⟩

/-- The method `TypeChecker::error(msg, token)`. -/
def TypeChecker.error {α : Type} (msg : String) (token : Token) : Run α :=
  .raise ⟨.SEMANTIC, msg, some (token.line, token.column)⟩

/-- The method `TypeChecker::error(msg)`. -/
def TypeChecker.error1 {α : Type} (msg : String) : Run α :=
  .raise ⟨.SEMANTIC, msg, none⟩

/-- The statements `sym_table.add_name(name); sym_table.set_vec_info(name, v);`. -/
def TypeChecker.declare_vec (tc : TypeChecker) (name : String) (v : List String) : TypeChecker :=
  { tc with sym_table := (tc.sym_table.add_name name).set_vec_info name v }

/-- The statements `sym_table.add_name(name); sym_table.set_str_info(name, s);`. -/
def TypeChecker.declare_str (tc : TypeChecker) (name : String) (s : String) : TypeChecker :=
  { tc with sym_table := (tc.sym_table.add_name name).set_str_info name s }

/-- The method `TypeChecker::initialize_built_in_types` (source lines 74-104). -/
def TypeChecker.initialize_built_in_types (tc : TypeChecker) : TypeChecker :=
  let tc := tc.declare_vec "print" ["string", "nil"]
  let tc := tc.declare_vec "stoi" ["string", "int"]
  let tc := tc.declare_vec "stod" ["string", "double"]
  let tc := tc.declare_vec "itos" ["int", "string"]
  let tc := tc.declare_vec "dtos" ["double", "string"]
  let tc := tc.declare_vec "get" ["string", "char"]
  let tc := tc.declare_vec "length" ["string", "int"]
  tc.declare_vec "read" ["string", "nil"]

/-- The number `fun_type.size()-1`, computed in `size_t` (modulo `2 ^ 64`). -/
def sizeMinusOne (fun_type : List String) : Nat :=
  (fun_type.length + 18446744073709551616 - 1) % 18446744073709551616

/-- The loop over the path in `TypeChecker::visit(IDRValue&)` (source lines 563-589);
`first` is `node.first_token()`, the front of the path. -/
def TypeChecker.idrLoop (first : Token) : TypeChecker → List Token → Nat → String → Run TypeChecker
  | tc, [], _, _ => pure tc
  | tc, t :: ts, i, prev_type => do
    let tc ←
      (if i = 1 then
        if !tc.sym_table.name_exists first.lexeme then
          TypeChecker.error "Variable does not exist in scope " first
        else
          pure { tc with curr_type := (tc.sym_table.get_str_info t.lexeme).getD tc.curr_type }
      else
        if tc.sym_table.has_map_info prev_type = false then
          TypeChecker.error "Variable does not exist in scope " first
        else
          let map := (tc.sym_table.get_map_info prev_type).getD []
          match map.lookup t.lexeme with
          | some ty => pure { tc with curr_type := ty }
          | none => TypeChecker.error1 "Path value does not exist" : Run TypeChecker)
    TypeChecker.idrLoop first tc ts (i + 1) tc.curr_type

/-- The method `TypeChecker::visit(SimpleRValue&)` (source lines 501-518). -/
def TypeChecker.visitSimpleRValue (tc : TypeChecker) (value : Token) : Run TypeChecker :=
  if value.type = .CHAR_VAL then pure { tc with curr_type := "char" }
  else if value.type = .STRING_VAL then pure { tc with curr_type := "string" }
  else if value.type = .INT_VAL then pure { tc with curr_type := "int" }
  else if value.type = .DOUBLE_VAL then pure { tc with curr_type := "double" }
  else if value.type = .BOOL_VAL then pure { tc with curr_type := "bool" }
  else if value.type = .NIL then pure { tc with curr_type := "nil" }
  else TypeChecker.error1 "Unexpected value "

/-- The method `TypeChecker::visit(NewRValue&)` (source lines 520-532). -/
def TypeChecker.visitNewRValue (tc : TypeChecker) (type_id : Token) : Run TypeChecker :=
  if tc.sym_table.name_exists type_id.lexeme then
    if !tc.sym_table.has_map_info type_id.lexeme then
      TypeChecker.error "This type has no associated data  " type_id
    else pure { tc with curr_type := type_id.lexeme }
  else TypeChecker.error ("This type does not exist: " ++ tc.curr_type) type_id

/-- The operator checks of `TypeChecker::visit(Expr&)` once both operands have been visited
(source lines 420-483): `lhs_type` is the type of the left operand, `tc.curr_type` that of
the right one. -/
def TypeChecker.checkOp (tc : TypeChecker) (op : Token) (lhs_type : String) (first_token : Token) :
    Run TypeChecker :=
  let curr_type := tc.curr_type
  if op.type = .EQUAL ∨ op.type = .NOT_EQUAL then
    if lhs_type ≠ curr_type then
      if lhs_type = "nil" ∨ curr_type = "nil" then pure { tc with curr_type := "bool" }
      else TypeChecker.error ("Cannot compare types " ++ lhs_type ++ " and " ++ curr_type) first_token
    else pure { tc with curr_type := "bool" }
  else if op.type = .LESS ∨ op.type = .LESS_EQUAL ∨ op.type = .GREATER ∨ op.type = .GREATER_EQUAL then
    if (lhs_type = "int" ∨ lhs_type = "double" ∨ lhs_type = "char" ∨ lhs_type = "string") ∧
        (curr_type = "int" ∨ curr_type = "double" ∨ curr_type = "char" ∨ curr_type = "string") then
      if lhs_type ≠ curr_type then
        TypeChecker.error ("Cannot compare types " ++ lhs_type ++ " and " ++ curr_type) first_token
      else pure { tc with curr_type := "bool" }
    else
      TypeChecker.error ("Types must be int, double, char, or str to compare not " ++ lhs_type
        ++ " and " ++ curr_type) first_token
  else if op.type = .PLUS then
    if lhs_type = "int" ∧ curr_type = "int" then pure { tc with curr_type := "int" }
    else if lhs_type = "double" ∧ curr_type = "double" then pure { tc with curr_type := "double" }
    else if lhs_type = "char" ∨ lhs_type = "string" then
      if curr_type = "char" ∨ curr_type = "string" then
        -- `curr_type == "string";` is a comparison whose result is dropped
        pure tc
      else
        TypeChecker.error ("Can only add strings and chars not " ++ lhs_type ++ " and " ++ curr_type)
          first_token
    else TypeChecker.error ("Cannot add " ++ lhs_type ++ " with " ++ curr_type) first_token
  else if op.type = .MINUS ∨ op.type = .MULTIPLY ∨ op.type = .DIVIDE ∨ op.type = .MODULO then
    if op.type = .MODULO ∧ ¬ (lhs_type = "int" ∧ curr_type = "int") then
      TypeChecker.error ("Can only use % with ints not " ++ lhs_type ++ " and " ++ curr_type)
        first_token
    else if lhs_type = "int" ∧ curr_type = "int" then pure { tc with curr_type := "int" }
    else if lhs_type = "double" ∧ curr_type = "double" then pure { tc with curr_type := "double" }
    else
      TypeChecker.error ("Cannot operate between types " ++ lhs_type ++ " and " ++ curr_type)
        first_token
  else pure tc

mutual
/-- The method `TypeChecker::visit(Expr&)` (source lines 394-486). -/
def TypeChecker.visitExpr (tc : TypeChecker) : Expr → Run TypeChecker
  | .single negated first => do
    let tc ← TypeChecker.visitExprTerm tc first
    let tc ← TypeChecker.visitExprTerm tc first
    if negated ∧ tc.curr_type ≠ "bool" then
      TypeChecker.error ("Not should be used , got " ++ tc.curr_type) (ExprTerm.first_token first)
    else pure tc
  | .binary _ first op rest => do
    let tc ← TypeChecker.visitExprTerm tc first
    let lhs_type := tc.curr_type
    let tc ← TypeChecker.visitExpr tc rest
    tc.checkOp op lhs_type (ExprTerm.first_token first)
/-- The methods `TypeChecker::visit(SimpleTerm&)` and `TypeChecker::visit(ComplexTerm&)`
(source lines 488-496). -/
def TypeChecker.visitExprTerm (tc : TypeChecker) : ExprTerm → Run TypeChecker
  | .SimpleTerm rvalue => TypeChecker.visitRValue tc rvalue
  | .ComplexTerm expr => TypeChecker.visitExpr tc expr
/-- The `visit` methods of the rvalue nodes (source lines 501-600). -/
def TypeChecker.visitRValue (tc : TypeChecker) : RValue → Run TypeChecker
  | .SimpleRValue value => tc.visitSimpleRValue value
  | .NewRValue type_id => tc.visitNewRValue type_id
  | .CallExpr function_id arg_list =>
    -- `TypeChecker::visit(CallExpr&)` (source lines 534-556)
    if !tc.sym_table.name_exists function_id.lexeme then
      TypeChecker.error "Function does not exist: " function_id
    else
      let fun_type := (tc.sym_table.get_vec_info function_id.lexeme).getD []
      if sizeMinusOne fun_type ≠ arg_list.length then
        TypeChecker.error ("Fun Call requires " ++ toString (sizeMinusOne fun_type)
          ++ " arguments, got " ++ toString arg_list.length) function_id
      else do
        let tc ← TypeChecker.visitArgs tc fun_type function_id arg_list 0
        pure { tc with curr_type := fun_type.getD (sizeMinusOne fun_type) "" }
  | .IDRValue path =>
    -- `TypeChecker::visit(IDRValue&)` (source lines 558-590)
    TypeChecker.idrLoop (path.headD Token.empty) tc path 1 ""
  | .NegatedRValue expr => do
    -- `TypeChecker::visit(NegatedRValue&)` (source lines 592-600)
    let tc ← TypeChecker.visitExpr tc expr
    if tc.curr_type ≠ "int" ∨ tc.curr_type ≠ "double" then
      TypeChecker.error ("Expecting int or double for negation, not " ++ tc.curr_type)
        (Expr.first_token expr)
    else TypeChecker.visitExpr tc expr
/-- The loop over the arguments in `TypeChecker::visit(CallExpr&)` (source lines 547-554).
The index `i` is below `fun_type.size()-1` whenever the size check before the loop passed. -/
def TypeChecker.visitArgs (tc : TypeChecker) (fun_type : List String) (function_id : Token) :
    List Expr → Nat → Run TypeChecker
  | [], _ => pure tc
  | x :: xs, i => do
    let tc ← TypeChecker.visitExpr tc x
    if fun_type.getD i "" ≠ tc.curr_type ∧ tc.curr_type ≠ "nil" then
      TypeChecker.error ("Expected " ++ fun_type.getD i "" ++ ", got " ++ tc.curr_type) function_id
    else TypeChecker.visitArgs tc fun_type function_id xs (i + 1)
end

/-- The method `TypeChecker::visit(CallExpr&)` for a call used as a statement. -/
def TypeChecker.visitCallExpr (tc : TypeChecker) (function_id : Token) (arg_list : List Expr) :
    Run TypeChecker :=
  TypeChecker.visitRValue tc (.CallExpr function_id arg_list)

/-- The method `TypeChecker::visit(VarDeclStmt&)` (source lines 235-263). -/
def TypeChecker.visitVarDeclStmt (tc : TypeChecker) (node : VarDeclStmt) : Run TypeChecker := do
  let tc ←
    (match node.type with
    | some ty =>
      if ty.lexeme ≠ "nil" ∧ ty.lexeme ≠ "int" ∧ ty.lexeme ≠ "double" ∧ ty.lexeme ≠ "bool"
          ∧ ty.lexeme ≠ "string" ∧ ty.lexeme ≠ "char" then
        if tc.sym_table.name_exists ty.lexeme = false then
          TypeChecker.error ("UDT " ++ ty.lexeme ++ " does not exist") node.id
        else pure tc
      else pure tc
    | none => pure tc : Run TypeChecker)
  let tc ← tc.visitExpr node.expr
  let tc :=
    match node.type with
    | some ty => if tc.curr_type = "nil" then { tc with curr_type := ty.lexeme } else tc
    | none => tc
  let tc ←
    (match node.type with
    | some ty =>
      if ty.lexeme ≠ tc.curr_type ∧ tc.curr_type ≠ "nil" then
        TypeChecker.error ("Types do not match: " ++ ty.lexeme ++ " and " ++ tc.curr_type) node.id
      else pure tc
    | none => pure tc : Run TypeChecker)
  let rhs_type := tc.curr_type
  if tc.sym_table.name_exists_in_curr_env node.id.lexeme then
    TypeChecker.error "Redeclaration of var " node.id
  else pure (tc.declare_str node.id.lexeme rhs_type)

/-- The loop over the lvalue list in `TypeChecker::visit(AssignStmt&)` (source lines 269-294);
`front` is `node.lvalue_list.front()`. -/
def TypeChecker.lvalueLoop (front : Token) : TypeChecker → List Token → Nat → String → Run TypeChecker
  | tc, [], _, _ => pure tc
  | tc, t :: ts, i, prev_type => do
    let tc ←
      (if i = 1 then
        if tc.sym_table.name_exists t.lexeme then
          pure { tc with curr_type := (tc.sym_table.get_str_info t.lexeme).getD tc.curr_type }
        else TypeChecker.error ("var " ++ front.lexeme ++ " used before def") front
      else
        if tc.sym_table.has_map_info prev_type = false then
          TypeChecker.error ("UDT var " ++ t.lexeme ++ " does not exist") front
        else
          let map := (tc.sym_table.get_map_info prev_type).getD []
          match map.lookup t.lexeme with
          | some ty => pure { tc with curr_type := ty }
          | none => TypeChecker.error1 "Path value does not exist" : Run TypeChecker)
    TypeChecker.lvalueLoop front tc ts (i + 1) tc.curr_type

/-- The method `TypeChecker::visit(AssignStmt&)` (source lines 265-307). -/
def TypeChecker.visitAssignStmt (tc : TypeChecker) (lvalue_list : List Token) (expr : Expr) :
    Run TypeChecker := do
  let front := lvalue_list.headD Token.empty
  let tc ← TypeChecker.lvalueLoop front tc lvalue_list 1 ""
  let lhs_type := tc.curr_type
  let tc ← tc.visitExpr expr
  let rhs_type := tc.curr_type
  let rhs_type := if rhs_type = "char" ∧ lhs_type = "string" then "string" else rhs_type
  if rhs_type ≠ "nil" ∧ lhs_type ≠ "nil" ∧ lhs_type ≠ rhs_type then
    TypeChecker.error ("Types do not match: " ++ lhs_type ++ " and " ++ rhs_type) front
  else pure tc

/-- The method `TypeChecker::visit(ReturnStmt&)` (source lines 309-315). -/
def TypeChecker.visitReturnStmt (tc : TypeChecker) (expr : Expr) : Run TypeChecker := do
  let tc ← tc.visitExpr expr
  pure (tc.declare_str "return" tc.curr_type)

/-- The statement `sym_table.push_environment();` of the type checker. -/
def TypeChecker.push (tc : TypeChecker) : TypeChecker :=
  { tc with sym_table := tc.sym_table.push_environment }

/-- The statement `sym_table.pop_environment();` of the type checker. -/
def TypeChecker.pop (tc : TypeChecker) : TypeChecker :=
  { tc with sym_table := tc.sym_table.pop_environment }

mutual
/-- The `visit` methods of the statement nodes (source lines 235-388). -/
def TypeChecker.visitStmt (tc : TypeChecker) : Stmt → Run TypeChecker
  | .VarDecl v => tc.visitVarDeclStmt v
  | .AssignStmt lvalue_list expr => tc.visitAssignStmt lvalue_list expr
  | .ReturnStmt expr => tc.visitReturnStmt expr
  | .CallExpr function_id arg_list => tc.visitCallExpr function_id arg_list
  | .IfStmt if_part else_ifs body_stmts => do
    -- `TypeChecker::visit(IfStmt&)` (source lines 317-356)
    let tc ← TypeChecker.visitBasicIf tc if_part
    let tc ← TypeChecker.visitElseIfs tc else_ifs
    match body_stmts with
    | [] => pure tc
    | s :: ss => do
      let tc ← TypeChecker.visitStmts tc.push (s :: ss)
      pure tc.pop
  | .WhileStmt expr stmts => do
    -- `TypeChecker::visit(WhileStmt&)` (source lines 358-370)
    let tc ← tc.visitExpr expr
    if tc.curr_type ≠ "bool" then
      TypeChecker.error ("While stmt condition must be bool not " ++ tc.curr_type) expr.first_token
    else do
      let tc ← TypeChecker.visitStmts tc.push stmts
      pure tc.pop
  | .ForStmt _ start end_ stmts => do
    -- `TypeChecker::visit(ForStmt&)` (source lines 372-388)
    let tc ← tc.visitExpr start
    if tc.curr_type ≠ "int" then
      TypeChecker.error "For loop start and end expressions must be int, got " end_.first_token
    else do
      let tc ← tc.visitExpr end_
      if tc.curr_type ≠ "int" then
        TypeChecker.error "For loop start and end expressions must be int, got " end_.first_token
      else do
        let tc ← TypeChecker.visitStmts tc.push stmts
        pure tc.pop
/-- The check of one condition and its body in `TypeChecker::visit(IfStmt&)`: the `if`
part (source lines 319-328) and each `elseif` part (source lines 335-344). -/
def TypeChecker.visitBasicIf (tc : TypeChecker) : BasicIf → Run TypeChecker
  | .mk expr stmts => do
    let tc ← tc.visitExpr expr
    if tc.curr_type ≠ "bool" then
      TypeChecker.error ("If stmt must be boolean not " ++ tc.curr_type) expr.first_token
    else do
      let tc ← TypeChecker.visitStmts tc.push stmts
      pure tc.pop
/-- The loop `for (BasicIf* s : node.else_ifs)` (source lines 333-345). -/
def TypeChecker.visitElseIfs (tc : TypeChecker) : List BasicIf → Run TypeChecker
  | [] => pure tc
  | s :: rest => do
    let tc ← TypeChecker.visitBasicIf tc s
    TypeChecker.visitElseIfs tc rest
/-- The loops `for (Stmt* s : stmts) s->accept(*this);`. -/
def TypeChecker.visitStmts (tc : TypeChecker) : List Stmt → Run TypeChecker
  | [] => pure tc
  | s :: rest => do
    let tc ← TypeChecker.visitStmt tc s
    TypeChecker.visitStmts tc rest
end

/-- The parameter loop of `TypeChecker::visit(FunDecl&)` (source lines 185-190). -/
def TypeChecker.paramLoop : TypeChecker → List String → List FunParam → TypeChecker × List String
  | tc, the_type, [] => (tc, the_type)
  | tc, the_type, vars :: rest =>
    TypeChecker.paramLoop (tc.declare_str vars.id.lexeme vars.type.lexeme)
      (the_type ++ [vars.type.lexeme]) rest

/-- The method `TypeChecker::visit(FunDecl&)` (source lines 145-207). -/
def TypeChecker.visitFunDecl (tc : TypeChecker) (return_type id : Token) (params : List FunParam)
    (stmts : List Stmt) : Run TypeChecker := do
  if tc.sym_table.name_exists_in_curr_env id.lexeme then
    TypeChecker.error "Redeclaration of function " id
  else do
    let return_nil : Bool := return_type.lexeme = "nil"
    let tc ←
      (if return_type.lexeme ≠ "int" ∧ return_type.lexeme ≠ "double"
          ∧ return_type.lexeme ≠ "char" ∧ return_type.lexeme ≠ "string"
          ∧ return_type.lexeme ≠ "bool" ∧ return_type.lexeme ≠ "nil" then
        if !tc.sym_table.name_exists_in_curr_env return_type.lexeme then
          TypeChecker.error "Invalid return type: " return_type
        else pure tc
      else pure tc : Run TypeChecker)
    let tc ←
      (if return_nil then
        if tc.sym_table.name_exists_in_curr_env "return" ∧ tc.sym_table.has_str_info "return" then
          TypeChecker.error1 "Cannot return a value when return type is nil"
        else pure tc
      else
        if tc.sym_table.name_exists_in_curr_env "return" ∧ tc.sym_table.has_str_info "return" then
          let return_stmt_type := (tc.sym_table.get_str_info "return").getD ""
          if return_type.lexeme ≠ return_stmt_type ∧ return_stmt_type ≠ "nil" then
            TypeChecker.error ("Return type and returned value do not match: "
              ++ return_type.lexeme ++ " and " ++ return_stmt_type) return_type
          else pure tc
        else pure tc : Run TypeChecker)
    let (tc, the_type) := TypeChecker.paramLoop tc [] params
    let the_type := the_type ++ [return_type.lexeme]
    let tc := tc.declare_vec id.lexeme the_type
    let tc := tc.push
    let tc := tc.declare_str "return" return_type.lexeme
    let tc ← tc.visitStmts stmts
    pure tc.pop

/-- The loop over the variable declarations in `TypeChecker::visit(TypeDecl&)`
(source lines 221-225). -/
def TypeChecker.vdeclLoop : TypeChecker → List (String × String) → List VarDeclStmt →
    Run (TypeChecker × List (String × String))
  | tc, type_info, [] => pure (tc, type_info)
  | tc, type_info, v :: rest => do
    let tc ← tc.visitVarDeclStmt v
    let type_info := (v.id.lexeme, tc.curr_type) :: type_info.filter (fun a => a.1 != v.id.lexeme)
    TypeChecker.vdeclLoop tc type_info rest

/-- The method `TypeChecker::visit(TypeDecl&)` (source lines 210-229). -/
def TypeChecker.visitTypeDecl (tc : TypeChecker) (id : Token) (vdecls : List VarDeclStmt) :
    Run TypeChecker := do
  if tc.sym_table.name_exists_in_curr_env id.lexeme then
    TypeChecker.error "User Defined Type is already in scope " id
  else do
    let tc := { tc with sym_table := tc.sym_table.add_name id.lexeme }
    let tc := tc.push
    let tc := { tc with sym_table := tc.sym_table.set_map_info id.lexeme [] }
    let (tc, type_info) ← TypeChecker.vdeclLoop tc [] vdecls
    let tc := tc.pop
    pure { tc with sym_table := tc.sym_table.set_map_info id.lexeme type_info }

/-- The `accept` dispatch on a declaration. -/
def TypeChecker.visitDecl (tc : TypeChecker) : Decl → Run TypeChecker
  | .FunDecl return_type id params stmts => tc.visitFunDecl return_type id params stmts
  | .TypeDecl id vdecls => tc.visitTypeDecl id vdecls

/-- The loop `for (Decl* d : node.decls) d->accept(*this);` (source lines 118-119). -/
def TypeChecker.visitDecls : TypeChecker → List Decl → Run TypeChecker
  | tc, [] => pure tc
  | tc, d :: rest => do
    let tc ← tc.visitDecl d
    TypeChecker.visitDecls tc rest

/-- The method `TypeChecker::visit(Program&)` (source lines 110-138). -/
def TypeChecker.visitProgram (tc : TypeChecker) (node : Program) : Run TypeChecker := do
  let tc := tc.push
  let tc := tc.initialize_built_in_types
  let tc ← TypeChecker.visitDecls tc node.decls
  if tc.sym_table.name_exists "main" ∧ tc.sym_table.has_vec_info "main" then
    let main_info := (tc.sym_table.get_vec_info "main").getD []
    if main_info.length > 0 then
      TypeChecker.error1 "Main function should have no parameters"
    else pure tc.pop
  else TypeChecker.error1 "undefined 'main' function"

/-- The outcome of `visit(Program&)` with the final state dropped. -/
def typeCheck (node : Program) : Run Unit :=
  (TypeChecker.new.visitProgram node).bind (fun _ => .ok ())

/-- An `Expr` holding just the literal token `t`. -/
def litExpr (t : Token) : Expr := .single false (.SimpleTerm (.SimpleRValue t))

/-- The program `fun int main() return 0 end`. -/
def mainReturn0 : Program :=
  ⟨[.FunDecl (tk .INT_TYPE "int") (tk .ID "main") [] [.ReturnStmt (litExpr (tk .INT_VAL "0"))]]⟩

/-- The statements stored in a `ForStmt` node (`node.stmts`). -/
def Stmt.forBody? : Stmt → Option (List Stmt)
  | .ForStmt _ _ _ stmts => some stmts
  | _ => none

/-- The number of statements in a list. -/
def stmtCount (l : List Stmt) : Nat := l.length

/-- Tokens of `for i = 1 to 3 do x = 1 end`, with the parser positioned on `for`. -/
def forTokens : Parser :=
  ⟨[tk .ID "i", tk .ASSIGN "=", tk .INT_VAL "1", tk .TO "to", tk .INT_VAL "3", tk .DO "do",
    tk .ID "x", tk .ASSIGN "=", tk .INT_VAL "1", tk .END "end"], tk .FOR "for"⟩

/-! ## Interpreter (`interpreter.h`)

`code` is the integer value of each enumerator of `TokenType` (declared in `token.h`):
the source tests enumerators such as `EQUAL`, `PLUS` and `AND` as conditions. -/

/-- Modelled from the spec: `DataObject::to_string`, the text of a value. The text of a
double is that of the host's conversion. -/
def DataObject.to_string : DataObject → String
  | .nil => "nil"
  | .bool b => if b then "true" else "false"
  | .int i => toString i
  | .double d => toString d
  | .char c => String.singleton c
  | .string s => s
  | .oid o => toString o

/-- The smallest value of the C++ type `int`. -/
def INT_MIN : Int := -2147483648

/-- The largest value of the C++ type `int`. -/
def INT_MAX : Int := 2147483647

/-- An `int` result: signed overflow is undefined behaviour. -/
def checkInt (i : Int) : Run Int :=
  if INT_MIN ≤ i ∧ i ≤ INT_MAX then .ok i else .crash "signed integer overflow"

/-- The value of a run of decimal digits. -/
def digitsValue (l : List Char) : Nat :=
  l.foldl (fun acc c => 10 * acc + (c.toNat - 48)) 0

/-- The library function `std::stoi` on the text `s`: leading whitespace, an optional sign
and the longest run of decimal digits; it throws when there is no digit or the value does
not fit an `int`. -/
def stoi (s : String) : Run Int :=
  let l := s.toList.dropWhile (fun c => isspace (some c))
  let (neg, l) :=
    match l with
    | '-' :: r => (true, r)
    | '+' :: r => (false, r)
    | _ => (false, l)
  let ds := l.takeWhile (fun c => isdigit (some c))
  if ds.isEmpty then .crash "std::invalid_argument: stoi"
  else
    let v : Int := if neg then -(digitsValue ds : Int) else (digitsValue ds : Int)
    if INT_MIN ≤ v ∧ v ≤ INT_MAX then .ok v else .crash "std::out_of_range: stoi"

/-- The library function `std::stod` on the text `s`, for decimal texts: leading
whitespace, an optional sign, digits and an optional fraction. -/
def stod (s : String) : Run Float :=
  let l := s.toList.dropWhile (fun c => isspace (some c))
  let (neg, l) :=
    match l with
    | '-' :: r => (true, r)
    | '+' :: r => (false, r)
    | _ => (false, l)
  let ip := l.takeWhile (fun c => isdigit (some c))
  let rest := l.dropWhile (fun c => isdigit (some c))
  let fp :=
    match rest with
    | '.' :: r => r.takeWhile (fun c => isdigit (some c))
    | _ => []
  if ip.isEmpty ∧ fp.isEmpty then .crash "std::invalid_argument: stod"
  else
    let v := Float.ofScientific (digitsValue (ip ++ fp)) true fp.length
    .ok (if neg then -v else v)

/-- The call `std::regex_replace(str, std::regex("\\\\" + c), by)` on the characters of
`str`: every backslash followed by `c` becomes `by`. -/
def replaceEscape (c by_ : Char) : List Char → List Char
  | [] => []
  | [x] => [x]
  | x :: y :: rest =>
    if x = '\\' ∧ y = c then by_ :: replaceEscape c by_ rest
    else x :: replaceEscape c by_ (y :: rest)

/-- The two `regex_replace` calls of `print` and of `return` (source lines 248-249, 693-694). -/
def unescape (str : String) : String :=
  String.mk (replaceEscape 't' '\t' (replaceEscape 'n' '\n' str.toList))

/-- Lexicographic `<` on character sequences, as `operator<` of `std::string`. -/
def strLt : List Char → List Char → Bool
  | _, [] => false
  | [], _ :: _ => true
  | a :: as, b :: bs => a.toNat < b.toNat || (a.toNat == b.toNat && strLt as bs)

/-- A copy of a `FunDecl` node, as stored in the interpreter's function table. -/
structure FunDecl where
  return_type : Token
  id : Token
  params : List FunParam
  stmts : List Stmt

/-- State of the interpreter (the data members of `Interpreter`), with the text written to
`std::cout` and the whitespace-delimited words still to be read from `std::cin`. -/
structure Interpreter where
  sym_table : SymbolTable
  curr_val : DataObject
  heap : Heap
  next_oid : Nat
  functions : List (String × FunDecl)
  types : List (String × List VarDeclStmt)
  global_env_id : Option Nat
  ret_code : Int
  cout : String
  cin : List String

/-- A freshly constructed interpreter reading the words `cin`. -/
def Interpreter.new (cin : List String) : Interpreter :=
  ⟨SymbolTable.new, .nil, ⟨[]⟩, 0, [], [], some 0, 0, "", cin⟩

/-- The statement `curr_val = v` (also `curr_val.set(v)`). -/
def Interpreter.set (it : Interpreter) (v : DataObject) : Interpreter :=
  { it with curr_val := v }

/-- The statement `std::cout << str`. -/
def Interpreter.write (it : Interpreter) (str : String) : Interpreter :=
  { it with cout := it.cout ++ str }

/-- The statement `sym_table.push_environment();` of the interpreter. -/
def Interpreter.push (it : Interpreter) : Interpreter :=
  { it with sym_table := it.sym_table.push_environment }

/-- The statement `sym_table.pop_environment();` of the interpreter. -/
def Interpreter.pop (it : Interpreter) : Interpreter :=
  { it with sym_table := it.sym_table.pop_environment }

/-- The statements `sym_table.add_name(name); sym_table.set_val_info(name, obj);`. -/
def Interpreter.declare (it : Interpreter) (name : String) (obj : DataObject) : Interpreter :=
  { it with sym_table := (it.sym_table.add_name name).set_val_info name obj }

/-- The read `curr_val.value(v)` into an uninitialised `bool v` that is used afterwards. -/
def Interpreter.boolValue (it : Interpreter) : Run Bool :=
  match it.curr_val with
  | .bool b => .ok b
  | _ => .crash "read of an uninitialised bool"

/-- The statements `HeapObject h_obj; size_t oid; info.value(oid); heap.get_obj(oid, h_obj);`
of `visit(AssignStmt&)` and `visit(IDRValue&)`: the copy of the heap object that `info`
refers to, or the empty object when the heap has none under that oid. When `info` is no
object reference `oid` keeps an indeterminate value: in an empty heap nothing is found
whatever that value is, and the result is the empty object; in a heap that holds objects
the outcome depends on the indeterminate value, and the run is stopped. -/
def Interpreter.objectOf (it : Interpreter) (info : DataObject) : Run HeapObject :=
  match info with
  | .oid o => .ok ((it.heap.get_obj o).getD ⟨[]⟩)
  | _ =>
    match it.heap.objs with
    | [] => .ok ⟨[]⟩
    | _ :: _ => .crash "read of an uninitialised oid"

/-- The chain `if(EQUAL) ... else if (NOT_EQUAL) ... else if (GREATER) ...` of the
comparison case (source lines 389-412): the first enumerator with a non-zero value selects
the result, whatever the operator of the expression is. -/
def cmpChoice (code : TokenType → Nat) (eq ne le ge lt gt : Bool) : Option Bool :=
  if code .EQUAL ≠ 0 then some eq
  else if code .NOT_EQUAL ≠ 0 then some ne
  else if code .LESS_EQUAL ≠ 0 then some le
  else if code .GREATER_EQUAL ≠ 0 then some ge
  else if code .LESS ≠ 0 then some lt
  else if code .GREATER ≠ 0 then some gt
  else none

/-- Stores the result selected by `cmpChoice`, when there is one. -/
def Interpreter.setCmp (it : Interpreter) (r : Option Bool) : Interpreter :=
  match r with
  | some b => it.set (.bool b)
  | none => it

/-- The body of the case `EQUAL ... GREATER` of the `switch` in `visit(Expr&)`
(source lines 381-538). -/
def Interpreter.compareCase (code : TokenType → Nat) (it : Interpreter)
    (lhs_val rhs_val : DataObject) : Run Interpreter :=
  match lhs_val with
  | .int l =>
    match rhs_val with
    | .int r => .ok (it.setCmp (cmpChoice code (l == r) (l != r) (l ≤ r) (l ≥ r) (l < r) (l > r)))
    | _ => .crash "read of an uninitialised int"
  | .double l =>
    match rhs_val with
    | .double r =>
      .ok (it.setCmp (cmpChoice code (l == r) (l != r) (l ≤ r) (l ≥ r) (l < r) (l > r)))
    | _ => .crash "read of an uninitialised double"
  | .bool l =>
    match rhs_val with
    | .bool r =>
      .ok (it.setCmp (cmpChoice code (l == r) (l != r) (l.toNat ≤ r.toNat) (l.toNat ≥ r.toNat)
        (l.toNat < r.toNat) (l.toNat > r.toNat)))
    | _ => .crash "read of an uninitialised bool"
  | .string l =>
    let r := match rhs_val with
      | .string r => r
      | _ => ""
    .ok (it.setCmp (cmpChoice code (l == r) (l != r) (!strLt r.toList l.toList)
      (!strLt l.toList r.toList) (strLt l.toList r.toList) (strLt r.toList l.toList)))
  | .char l =>
    match rhs_val with
    | .char r =>
      .ok (it.setCmp (cmpChoice code (l == r) (l != r) (l.toNat ≤ r.toNat) (l.toNat ≥ r.toNat)
        (l.toNat < r.toNat) (l.toNat > r.toNat)))
    | _ => .crash "read of an uninitialised char"
  | _ => .ok it

/-- The chain `if(PLUS) ... else if(MODULO) ...` on two `int`s (source lines 548-557). -/
def arithInt (code : TokenType → Nat) (l r : Int) : Run (Option Int) :=
  if code .PLUS ≠ 0 then (checkInt (l + r)).bind (fun v => .ok (some v))
  else if code .MINUS ≠ 0 then (checkInt (l - r)).bind (fun v => .ok (some v))
  else if code .MULTIPLY ≠ 0 then (checkInt (l * r)).bind (fun v => .ok (some v))
  else if code .DIVIDE ≠ 0 then
    if r = 0 then .crash "integer division by zero"
    else (checkInt (Int.tdiv l r)).bind (fun v => .ok (some v))
  else if code .MODULO ≠ 0 then
    if r = 0 then .crash "integer division by zero"
    else if l = INT_MIN ∧ r = -1 then .crash "signed integer overflow"
    else .ok (some (Int.tmod l r))
  else .ok none

/-- The chain `if(PLUS) ... else if(DIVIDE) ...` on two `double`s (source lines 565-572). -/
def arithDouble (code : TokenType → Nat) (l r : Float) : Option Float :=
  if code .PLUS ≠ 0 then some (l + r)
  else if code .MINUS ≠ 0 then some (l - r)
  else if code .MULTIPLY ≠ 0 then some (l * r)
  else if code .DIVIDE ≠ 0 then some (l / r)
  else none

/-- The body of the case `PLUS ... MODULO` of the `switch` in `visit(Expr&)`
(source lines 540-619). -/
def Interpreter.arithCase (code : TokenType → Nat) (it : Interpreter)
    (lhs_val rhs_val : DataObject) : Run Interpreter :=
  match lhs_val with
  | .int l =>
    match rhs_val with
    | .int r =>
      (arithInt code l r).bind fun v =>
        match v with
        | some v => .ok (it.set (.int v))
        | none => .ok it
    | _ => .crash "read of an uninitialised int"
  | .double l =>
    match rhs_val with
    | .double r =>
      match arithDouble code l r with
      | some v => .ok (it.set (.double v))
      | none => .ok it
    | _ => .crash "read of an uninitialised double"
  | _ =>
    match lhs_val, rhs_val with
    | .char l, .string r => .ok (it.set (.string (String.singleton l ++ r)))
    | .string l, .char r => .ok (it.set (.string (l.push r)))
    | .char l, .char r =>
      -- `lval + rval` on two `char`s is an `int`
      .ok (it.set (.int ((l.toNat : Int) + (r.toNat : Int))))
    | _, _ =>
      let l := match lhs_val with
        | .string l => l
        | _ => ""
      let r := match rhs_val with
        | .string r => r
        | _ => ""
      .ok (it.set (.string (l ++ r)))

/-- The body of the case `AND: OR:` of the `switch` in `visit(Expr&)` (source lines 621-633). -/
def Interpreter.boolCase (code : TokenType → Nat) (it : Interpreter) (op : Token)
    (lhs_val rhs_val : DataObject) : Run Interpreter :=
  if op.type = .AND ∨ op.type = .OR then
    match lhs_val, rhs_val with
    | .bool l, .bool r =>
      if code .AND ≠ 0 then .ok (it.set (.bool (l && r)))
      else if code .OR ≠ 0 then .ok (it.set (.bool (l || r)))
      else .ok it
    | _, _ => .crash "read of an uninitialised bool"
  else .ok it

/-- The `switch (node.op->type())` of `visit(Expr&)` (source lines 378-634). No case ends
in `break`, so control falls through from each case into the ones below it. -/
def Interpreter.applyOp (code : TokenType → Nat) (it : Interpreter) (op : Token)
    (lhs_val rhs_val : DataObject) : Run Interpreter :=
  let t := op.type
  if t = .EQUAL ∨ t = .NOT_EQUAL ∨ t = .LESS_EQUAL ∨ t = .GREATER_EQUAL ∨ t = .LESS
      ∨ t = .GREATER then do
    let it ← it.compareCase code lhs_val rhs_val
    let it ← it.arithCase code lhs_val rhs_val
    it.boolCase code op lhs_val rhs_val
  else if t = .PLUS ∨ t = .MINUS ∨ t = .MULTIPLY ∨ t = .DIVIDE ∨ t = .MODULO then do
    let it ← it.arithCase code lhs_val rhs_val
    it.boolCase code op lhs_val rhs_val
  else if t = .AND ∨ t = .OR then
    it.boolCase code op lhs_val rhs_val
  else .ok it

/-- The method `Interpreter::visit(SimpleRValue&)` (source lines 650-675). -/
def Interpreter.visitSimpleRValue (it : Interpreter) (value : Token) : Run Interpreter :=
  if value.type = .BOOL_VAL then
    if value.lexeme = "true" then .ok (it.set (.bool true))
    else if value.lexeme = "false" then .ok (it.set (.bool false))
    else .ok it
  else if value.type = .INT_VAL then
    (stoi value.lexeme).bind fun val => .ok (it.set (.int val))
  else if value.type = .DOUBLE_VAL then
    (stod value.lexeme).bind fun val => .ok (it.set (.double val))
  else if value.type = .CHAR_VAL then
    match value.lexeme.toList.get? 3 with
    | some c => .ok (it.set (.char c))
    | none => .crash "std::out_of_range: basic_string::at"
  else if value.type = .STRING_VAL then .ok (it.set (.string value.lexeme))
  else .ok (it.set .nil)

/-- The method `Interpreter::visit(NewRValue&)` (source lines 677-683). -/
def Interpreter.visitNewRValue (it : Interpreter) (_type_id : Token) : Interpreter :=
  let obj := DataObject.oid it.next_oid
  let it := { it with next_oid := it.next_oid + 1 }
  { it with curr_val := obj }

/-- The loop `while (path_list.size() > 1)` shared by `visit(AssignStmt&)` (source lines
221-231) and `visit(IDRValue&)` (source lines 803-814): follows the attributes of the path,
all but the last, through copies of the heap objects. -/
def Interpreter.walkPath (it : Interpreter) : List Token → DataObject → Run (List Token × DataObject)
  | [], info => .ok ([], info)
  | [t], info => .ok ([t], info)
  | t :: t2 :: rest, info => do
    let h_obj ← it.objectOf info
    let info := if h_obj.has_att t.lexeme then (h_obj.get_val t.lexeme).getD info else info
    Interpreter.walkPath it (t2 :: rest) info

/-- The method `Interpreter::visit(IDRValue&)` (source lines 792-835). -/
def Interpreter.visitIDRValue (it : Interpreter) (path : List Token) : Run Interpreter :=
  match path with
  | [] => .crash "front() of an empty list"
  | [t] =>
    match it.sym_table.get_val_info t.lexeme with
    | some info => .ok (it.set info)
    | none => .ok it
  | t :: t2 :: rest => do
    let info := (it.sym_table.get_val_info t.lexeme).getD .nil
    let (path_list, info) ← it.walkPath (t2 :: rest) info
    let h_obj ← it.objectOf info
    match path_list with
    | [] => .crash "front() of an empty list"
    | last :: _ =>
      match h_obj.get_val last.lexeme with
      | some value_info => .ok (it.set value_info)
      | none => .ok it

/-- The part of `Interpreter::visit(AssignStmt&)` after the right-hand side has been
evaluated (source lines 212-241). The attribute is set in `h_obj`, a local copy of the
heap object, which is dropped at the end of the block. -/
def Interpreter.assignTo (it : Interpreter) (lvalue_list : List Token) : Run Interpreter :=
  match lvalue_list with
  | [] => .crash "front() of an empty list"
  | [t] => .ok { it with sym_table := it.sym_table.set_val_info t.lexeme it.curr_val }
  | t :: t2 :: rest => do
    let info := (it.sym_table.get_val_info t.lexeme).getD .nil
    let (tokens, info) ← it.walkPath (t2 :: rest) info
    let h_obj ← it.objectOf info
    match tokens with
    | [] => .crash "front() of an empty list"
    | last :: _ =>
      let _h_obj := if h_obj.has_att last.lexeme then h_obj.set_att last.lexeme it.curr_val else h_obj
      .ok it

/-- The part of `Interpreter::visit(VarDeclStmt&)` after the initialiser has been evaluated
(source lines 161-206): the name is bound when the value is an int, a double, a string, a
char or a bool. -/
def Interpreter.bindVar (it : Interpreter) (id : Token) : Interpreter :=
  match it.curr_val with
  | .int v => it.declare id.lexeme (.int v)
  | .double v => it.declare id.lexeme (.double v)
  | .string v => it.declare id.lexeme (.string v)
  | .char v => it.declare id.lexeme (.char v)
  | .bool v => it.declare id.lexeme (.bool v)
  | _ => it

/-- The parameter loop of `visit(CallExpr&)` (source lines 774-779). -/
def Interpreter.bindParams : Interpreter → List FunParam → List DataObject → Run Interpreter
  | it, [], _ => .ok it
  | _, _ :: _, [] => .crash "front() of an empty list"
  | it, param :: params, a :: args =>
    Interpreter.bindParams (it.declare param.id.lexeme a) params args

/-- The built-in functions of `visit(CallExpr&)` once their first argument, if they take
one, has been evaluated: `stoi`, `stod`, `itos`, `dtos`, `length` and `read`
(source lines 698-756 without `get`). -/
def Interpreter.builtinResult (it : Interpreter) (fun_name : String) : Run Interpreter :=
  let str := match it.curr_val with
    | .string s => s
    | _ => ""
  if fun_name = "stoi" then (stoi str).bind fun val => .ok (it.set (.int val))
  else if fun_name = "stod" then (stod str).bind fun val => .ok (it.set (.double val))
  else if fun_name = "itos" ∨ fun_name = "dtos" then .ok (it.set (.string it.curr_val.to_string))
  else
    -- `length`: `DataObject obj(str.length())` is built from a `size_t`, as an oid is
    .ok (it.set (.oid str.length))

mutual
/-- The method `Interpreter::visit(Expr&)` (source lines 360-638). -/
def Interpreter.visitExpr (code : TokenType → Nat) : Nat → Interpreter → Expr → Run Interpreter
  | 0, _, _ => .timeout
  | fuel + 1, it, .single negated first =>
    if negated then do
      let it ← Interpreter.visitExprTerm code fuel it first
      let val ← it.boolValue
      pure (it.set (.bool (!val)))
    else Interpreter.visitExprTerm code fuel it first
  | fuel + 1, it, .binary negated first op rest =>
    if negated then do
      let it ← Interpreter.visitExprTerm code fuel it first
      let val ← it.boolValue
      pure (it.set (.bool (!val)))
    else do
      let it ← Interpreter.visitExprTerm code fuel it first
      let lhs_val := it.curr_val
      let it ← Interpreter.visitExpr code fuel it rest
      let rhs_val := it.curr_val
      it.applyOp code op lhs_val rhs_val
/-- The methods `Interpreter::visit(SimpleTerm&)` and `Interpreter::visit(ComplexTerm&)`
(source lines 640-648). -/
def Interpreter.visitExprTerm (code : TokenType → Nat) :
    Nat → Interpreter → ExprTerm → Run Interpreter
  | 0, _, _ => .timeout
  | fuel + 1, it, .SimpleTerm rvalue => Interpreter.visitRValue code fuel it rvalue
  | fuel + 1, it, .ComplexTerm expr => Interpreter.visitExpr code fuel it expr
/-- The `visit` methods of the rvalue nodes (source lines 650-852). -/
def Interpreter.visitRValue (code : TokenType → Nat) :
    Nat → Interpreter → RValue → Run Interpreter
  | 0, _, _ => .timeout
  | _ + 1, it, .SimpleRValue value => it.visitSimpleRValue value
  | _ + 1, it, .NewRValue type_id => .ok (it.visitNewRValue type_id)
  | fuel + 1, it, .CallExpr function_id arg_list =>
    Interpreter.visitCallExpr code fuel it function_id arg_list
  | _ + 1, it, .IDRValue path => it.visitIDRValue path
  | fuel + 1, it, .NegatedRValue expr => do
    -- `Interpreter::visit(NegatedRValue&)` (source lines 837-852)
    let it ← Interpreter.visitExpr code fuel it expr
    match it.curr_val with
    | .double val => pure (it.set (.double (-1.0 * val)))
    | .int val => do
      let v ← checkInt (-1 * val)
      pure (it.set (.int v))
    | _ => .crash "read of an uninitialised int"
/-- The method `Interpreter::visit(CallExpr&)` (source lines 685-790). -/
def Interpreter.visitCallExpr (code : TokenType → Nat) :
    Nat → Interpreter → Token → List Expr → Run Interpreter
  | 0, _, _, _ => .timeout
  | fuel + 1, it, function_id, arg_list =>
    let fun_name := function_id.lexeme
    if fun_name = "print" then
      match arg_list with
      | [] => .crash "front() of an empty list"
      | e :: _ => do
        let it ← Interpreter.visitExpr code fuel it e
        pure (it.write (unescape it.curr_val.to_string))
    else if fun_name = "stoi" ∨ fun_name = "stod" ∨ fun_name = "itos" ∨ fun_name = "dtos" then
      match arg_list with
      | [] => .crash "front() of an empty list"
      | e :: _ => do
        let it ← Interpreter.visitExpr code fuel it e
        it.builtinResult fun_name
    else if fun_name = "get" then
      match arg_list with
      | [] => .crash "front() of an empty list"
      | e :: expr_list => do
        let it ← Interpreter.visitExpr code fuel it e
        let index ←
          (match it.curr_val with
          | .int i => .ok i
          | _ => .crash "read of an uninitialised int" : Run Int)
        match expr_list with
        | [] => .crash "front() of an empty list"
        | e2 :: _ => do
          let it ← Interpreter.visitExpr code fuel it e2
          let str := match it.curr_val with
            | .string s => s
            | _ => ""
          if index < 0 then .crash "std::out_of_range: basic_string::at"
          else
            match str.toList.get? index.toNat with
            | some c => pure (it.set (.char c))
            | none => .crash "std::out_of_range: basic_string::at"
    else if fun_name = "length" then
      match arg_list with
      | [] => .crash "front() of an empty list"
      | e :: _ => do
        let it ← Interpreter.visitExpr code fuel it e
        it.builtinResult fun_name
    else if fun_name = "read" then
      match it.cin with
      | [] => pure (it.set (.string ""))
      | w :: ws => pure ({ it with cin := ws }.set (.string w))
    else
      -- user defined function: the argument expressions are not visited, each
      -- argument is a copy of `curr_val`
      let args := arg_list.map (fun _ => it.curr_val)
      let curr_env_id := it.sym_table.get_environment_id
      let it := { it with sym_table := it.sym_table.set_environment_id it.global_env_id }
      let it := it.push
      match it.functions.lookup fun_name with
      | none => .crash "null FunDecl pointer"
      | some fun_node => do
        let it ← it.bindParams fun_node.params args
        let it ← Interpreter.visitStmts code fuel it fun_node.stmts
        let it := it.pop
        pure { it with sym_table := it.sym_table.set_environment_id curr_env_id }
/-- The `visit` methods of the statement nodes (source lines 158-358). -/
def Interpreter.visitStmt (code : TokenType → Nat) : Nat → Interpreter → Stmt → Run Interpreter
  | 0, _, _ => .timeout
  | fuel + 1, it, .VarDecl v => do
    let it ← Interpreter.visitExpr code fuel it v.expr
    pure (it.bindVar v.id)
  | fuel + 1, it, .AssignStmt lvalue_list expr => do
    let it ← Interpreter.visitExpr code fuel it expr
    it.assignTo lvalue_list
  | fuel + 1, it, .ReturnStmt expr => do
    -- `Interpreter::visit(ReturnStmt&)` (source lines 244-252): the `throw` is commented out
    let it ← Interpreter.visitExpr code fuel it expr
    pure (it.write (">>>" ++ unescape it.curr_val.to_string ++ "\n"))
  | fuel + 1, it, .CallExpr function_id arg_list =>
    Interpreter.visitCallExpr code fuel it function_id arg_list
  | fuel + 1, it, .IfStmt if_part else_ifs body_stmts => do
    -- `Interpreter::visit(IfStmt&)` (source lines 254-308)
    let it ← Interpreter.visitExpr code fuel it if_part.expr
    let v ← it.boolValue
    let (it, entered) ←
      (if v = true then do
        let it ← Interpreter.visitStmts code fuel it.push if_part.stmts
        pure (it.pop, true)
      else if else_ifs.length > 0 then
        Interpreter.elseifLoop code fuel it else_ifs false v
      else pure (it, false) : Run (Interpreter × Bool))
    if entered = false ∧ body_stmts.length ≠ 0 then do
      let it ← Interpreter.elseLoop code fuel it.push body_stmts
      pure it.pop
    else pure it
  | fuel + 1, it, .WhileStmt expr stmts => do
    -- `Interpreter::visit(WhileStmt&)` (source lines 310-328)
    let it ← Interpreter.visitExpr code fuel it expr
    let v ← it.boolValue
    let it ← Interpreter.whileLoop code fuel it.push expr stmts v
    pure it.pop
  | fuel + 1, it, .ForStmt var_id start end_ stmts => do
    -- `Interpreter::visit(ForStmt&)` (source lines 330-358)
    let it := it.push
    let it ← Interpreter.visitExpr code fuel it start
    let num ←
      (match it.curr_val with
      | .int n => .ok n
      | _ => .crash "read of an uninitialised int" : Run Int)
    let start_val := num
    let obj := it.curr_val
    let it := it.declare var_id.lexeme obj
    let it ← Interpreter.visitExpr code fuel it end_
    let num := match it.curr_val with
      | .int n => n
      | _ => num
    let end_val := num
    let it := it.push
    let it ← Interpreter.forLoop code fuel it stmts start_val end_val
    pure it.pop.pop
/-- The loops `while (stmts.size() != 0) { stmts.front()->accept(*this); stmts.pop_front(); }`
and `for (Stmt* stmt : stmts) stmt->accept(*this);`. -/
def Interpreter.visitStmts (code : TokenType → Nat) :
    Nat → Interpreter → List Stmt → Run Interpreter
  | 0, _, _ => .timeout
  | _ + 1, it, [] => pure it
  | fuel + 1, it, s :: rest => do
    let it ← Interpreter.visitStmt code fuel it s
    Interpreter.visitStmts code fuel it rest
/-- The loop `while (entered == false & elseif_list.size() != 0)` of `visit(IfStmt&)`
(source lines 277-294). The body never removes the front of `elseif_list`. -/
def Interpreter.elseifLoop (code : TokenType → Nat) :
    Nat → Interpreter → List BasicIf → Bool → Bool → Run (Interpreter × Bool)
  | 0, _, _, _, _ => .timeout
  | fuel + 1, it, elseif_list, entered, v =>
    if entered = false ∧ elseif_list.length ≠ 0 then
      match elseif_list with
      | [] => .crash "front() of an empty list"
      | if_stmt :: _ => do
        let it ← Interpreter.visitExpr code fuel it if_stmt.expr
        let v := match it.curr_val with
          | .bool b => b
          | _ => v
        if v = true then do
          let it ← Interpreter.visitStmts code fuel it.push if_stmt.stmts
          Interpreter.elseifLoop code fuel it.pop elseif_list true v
        else Interpreter.elseifLoop code fuel it elseif_list entered v
    else pure (it, entered)
/-- The loop `while (stmts.size() != 9)` over the `else` body (source lines 301-305). -/
def Interpreter.elseLoop (code : TokenType → Nat) :
    Nat → Interpreter → List Stmt → Run Interpreter
  | 0, _, _ => .timeout
  | fuel + 1, it, stmts =>
    if stmts.length ≠ 9 then
      match stmts with
      | [] => .crash "front() of an empty list"
      | s :: rest => do
        let it ← Interpreter.visitStmt code fuel it s
        Interpreter.elseLoop code fuel it rest
    else pure it
/-- The loop `while (v == true)` of `visit(WhileStmt&)` (source lines 316-326). -/
def Interpreter.whileLoop (code : TokenType → Nat) :
    Nat → Interpreter → Expr → List Stmt → Bool → Run Interpreter
  | 0, _, _, _, _ => .timeout
  | fuel + 1, it, expr, stmts, v =>
    if v = true then do
      let it ← Interpreter.visitStmts code fuel it stmts
      let it ← Interpreter.visitExpr code fuel it expr
      let v := match it.curr_val with
        | .bool b => b
        | _ => v
      Interpreter.whileLoop code fuel it expr stmts v
    else pure it
/-- The loop `for (int i = start_val; i <= end_val; ++i)` of `visit(ForStmt&)`
(source lines 347-355). -/
def Interpreter.forLoop (code : TokenType → Nat) :
    Nat → Interpreter → List Stmt → Int → Int → Run Interpreter
  | 0, _, _, _, _ => .timeout
  | fuel + 1, it, stmts, i, end_val =>
    if i ≤ end_val then do
      let it ← Interpreter.visitStmts code fuel it stmts
      let i ← checkInt (i + 1)
      Interpreter.forLoop code fuel it stmts i end_val
    else pure it
end

/-- The methods `Interpreter::visit(FunDecl&)` and `Interpreter::visit(TypeDecl&)`
(source lines 134-148). The latter assigns through the uninitialised pointer `temp`. -/
def Interpreter.visitDecl (it : Interpreter) : Decl → Run Interpreter
  | .FunDecl return_type id params stmts =>
    .ok { it with functions := (id.lexeme, ⟨return_type, id, params, stmts⟩)
            :: it.functions.filter (fun f => f.1 != id.lexeme) }
  | .TypeDecl _ _ => .crash "write through an uninitialised pointer"

/-- The loop `for (Decl * d: node.decls) d -> accept(*this);` (source lines 126-127). -/
def Interpreter.visitDecls : Interpreter → List Decl → Run Interpreter
  | it, [] => .ok it
  | it, d :: rest => (it.visitDecl d).bind fun it => Interpreter.visitDecls it rest

/-- The method `Interpreter::visit(Program&)` (source lines 122-132). -/
def Interpreter.visitProgram (code : TokenType → Nat) (fuel : Nat) (it : Interpreter)
    (node : Program) : Run Interpreter := do
  let it := it.push
  let it := { it with global_env_id := it.sym_table.get_environment_id }
  let it ← it.visitDecls node.decls
  match it.functions.lookup "main" with
  | none => .crash "null FunDecl pointer"
  | some main => do
    let it ← Interpreter.visitCallExpr code fuel it main.id []
    pure it.pop

/-- The text a program writes to `std::cout` when run by a fresh interpreter. -/
def runOutput (code : TokenType → Nat) (fuel : Nat) (node : Program) : Run String :=
  ((Interpreter.new []).visitProgram code fuel node).bind fun it => .ok it.cout

/-- Enumerator values with `LPAREN = 0` and the others numbered in declaration order. -/
def declOrder : TokenType → Nat
  | .LPAREN => 0 | .RPAREN => 1 | .DOT => 2 | .COMMA => 3 | .COLON => 4
  | .PLUS => 5 | .MINUS => 6 | .MULTIPLY => 7 | .DIVIDE => 8 | .MODULO => 9
  | .AND => 10 | .OR => 11 | .NOT => 12 | .NEG => 13
  | .ASSIGN => 14 | .EQUAL => 15 | .NOT_EQUAL => 16 | .LESS => 17 | .LESS_EQUAL => 18
  | .GREATER => 19 | .GREATER_EQUAL => 20
  | .INT_TYPE => 21 | .BOOL_TYPE => 22 | .DOUBLE_TYPE => 23 | .CHAR_TYPE => 24
  | .STRING_TYPE => 25
  | .INT_VAL => 26 | .BOOL_VAL => 27 | .DOUBLE_VAL => 28 | .CHAR_VAL => 29 | .STRING_VAL => 30
  | .TYPE => 31 | .WHILE => 32 | .FOR => 33 | .TO => 34 | .DO => 35 | .IF => 36 | .THEN => 37
  | .ELSEIF => 38 | .ELSE => 39 | .END => 40 | .FUN => 41 | .VAR => 42 | .RETURN => 43
  | .NEW => 44 | .NIL => 45 | .ID => 46 | .EOS => 47

/-- The expression made of the variable `x`. -/
def varExpr (x : String) : Expr := .single false (.SimpleTerm (.IDRValue [tk .ID x]))

/-- The statement `print(e)`. -/
def printStmt (e : Expr) : Stmt := .CallExpr (tk .ID "print") [e]

/-- The declaration `fun int main() stmts end`. -/
def mainDecl (stmts : List Stmt) : Decl := .FunDecl (tk .INT_TYPE "int") (tk .ID "main") [] stmts

/-- The program `fun int main() for i = 1 to 3 do print(i) end end`. -/
def forPrint : Program :=
  ⟨[mainDecl [.ForStmt (tk .ID "i") (litExpr (tk .INT_VAL "1")) (litExpr (tk .INT_VAL "3"))
    [printStmt (varExpr "i")]]]⟩

/-! ## Programs and states used by the theorems -/

/-- The program declares a function named `main`. -/
def Program.declaresMain (node : Program) : Bool :=
  node.decls.any fun d =>
    match d with
    | .FunDecl _ id _ _ => id.lexeme == "main"
    | .TypeDecl _ _ => false

/-- The program declares a function named `main` that has at least one parameter. -/
def Program.mainHasParams (node : Program) : Bool :=
  node.decls.any fun d =>
    match d with
    | .FunDecl _ id params _ => id.lexeme == "main" && !params.isEmpty
    | .TypeDecl _ _ => false

/-- The program `fun int main(x: int) return 0 end`. -/
def mainWithParam : Program :=
  ⟨[.FunDecl (tk .INT_TYPE "int") (tk .ID "main") [⟨tk .ID "x", tk .INT_TYPE "int"⟩]
    [.ReturnStmt (litExpr (tk .INT_VAL "0"))]]⟩

/-- The object reference held by a value, when it is one. -/
def DataObject.oid? : DataObject → Option Nat
  | .oid o => some o
  | _ => none

/-- The int held by a value, when it is one. -/
def DataObject.int? : DataObject → Option Int
  | .int i => some i
  | _ => none

/-- An interpreter state in which the heap holds, under oid 0, an object whose attribute
`x` is the int 1, and the variables `a` and `b` both hold a reference to oid 0. -/
def aliasState : Interpreter :=
  let it := (Interpreter.new []).push
  let it := (it.declare "a" (.oid 0)).declare "b" (.oid 0)
  { it with heap := ⟨[(0, ⟨[("x", .int 1)]⟩)]⟩, next_oid := 1 }

/-- The statement `a.x = 2`. -/
def assignAX : Stmt := .AssignStmt [tk .ID "a", tk .ID "x"] (litExpr (tk .INT_VAL "2"))

/-- The path expression `b.x`. -/
def readBX : Expr := .single false (.SimpleTerm (.IDRValue [tk .ID "b", tk .ID "x"]))

/-- Runs `a.x = 2` and then evaluates `b.x`, both in `aliasState`; the result is the int
left in the value register. -/
def aliasRun (code : TokenType → Nat) (fuel : Nat) : Run (Option Int) := do
  let it ← Interpreter.visitStmt code fuel aliasState assignAX
  let it ← Interpreter.visitExpr code fuel it readBX
  pure it.curr_val.int?

/-- The program
`fun int main() var a = new T  var b = a  a.x = 5  print(b.x) end`. -/
def aliasProgram : Program :=
  ⟨[mainDecl [
    .VarDecl ⟨tk .ID "a", none, .single false (.SimpleTerm (.NewRValue (tk .ID "T")))⟩,
    .VarDecl ⟨tk .ID "b", none, varExpr "a"⟩,
    .AssignStmt [tk .ID "a", tk .ID "x"] (litExpr (tk .INT_VAL "5")),
    printStmt readBX]]⟩

/-- The first statements of `aliasByAssignment`: `var a = ""  a = new T  var b = ""  b = a`.
The names are declared with a string, which `visit(VarDeclStmt&)` binds, and then assigned
the reference. -/
def aliasSetup : List Stmt :=
  [.VarDecl ⟨tk .ID "a", none, litExpr (tk .STRING_VAL "")⟩,
    .AssignStmt [tk .ID "a"] (.single false (.SimpleTerm (.NewRValue (tk .ID "T")))),
    .VarDecl ⟨tk .ID "b", none, litExpr (tk .STRING_VAL "")⟩,
    .AssignStmt [tk .ID "b"] (varExpr "a")]

/-- The path expression `a.x`. -/
def readAX : Expr := .single false (.SimpleTerm (.IDRValue [tk .ID "a", tk .ID "x"]))

/-- The program
`fun int main() var a = ""  a = new T  var b = ""  b = a  a.x = "v"  var c = "z"
print(a.x)  print(b.x) end`. -/
def aliasByAssignment : Program :=
  ⟨[mainDecl (aliasSetup ++ [
    .AssignStmt [tk .ID "a", tk .ID "x"] (litExpr (tk .STRING_VAL "v")),
    .VarDecl ⟨tk .ID "c", none, litExpr (tk .STRING_VAL "z")⟩,
    printStmt readAX,
    printStmt readBX])]⟩

/-- Runs `aliasSetup` in the body environment of a fresh interpreter; the result is the oid
bound to `a`, the oid bound to `b`, and whether the heap holds an object under oid 0. -/
def aliasSetupRun (code : TokenType → Nat) (fuel : Nat) :
    Run (Option Nat × Option Nat × Bool) := do
  let it ← Interpreter.visitStmts code fuel (Interpreter.new []).push aliasSetup
  pure ((it.sym_table.get_val_info "a").bind DataObject.oid?,
    (it.sym_table.get_val_info "b").bind DataObject.oid?, it.heap.has_obj 0)

/-- Evaluates `new T` in a fresh interpreter; the result is the oid left in the value
register, whether the heap holds an object under oid 0, and the next oid. -/
def newRun (code : TokenType → Nat) (fuel : Nat) : Run (Option Nat × Bool × Nat) := do
  let it ← Interpreter.visitRValue code fuel (Interpreter.new []) (.NewRValue (tk .ID "T"))
  pure (it.curr_val.oid?, it.heap.has_obj 0, it.next_oid)

/-- The program `fun int main() return 1 print("after") end`. -/
def returnThenPrint : Program :=
  ⟨[mainDecl [.ReturnStmt (litExpr (tk .INT_VAL "1")),
    printStmt (litExpr (tk .STRING_VAL "after"))]]⟩

/-- The program
`fun nil f(x: int) print(x) end  fun int main() var y = 7  f(5) end`. -/
def callWithArg : Program :=
  ⟨[.FunDecl (tk .NIL "nil") (tk .ID "f") [⟨tk .ID "x", tk .INT_TYPE "int"⟩]
      [printStmt (varExpr "x")],
    mainDecl [.VarDecl ⟨tk .ID "y", none, litExpr (tk .INT_VAL "7")⟩,
      .CallExpr (tk .ID "f") [litExpr (tk .INT_VAL "5")]]]⟩

/-- The statement
`if false then elseif false then print("a") elseif true then print("b") end`. -/
def elseifStmt : Stmt :=
  .IfStmt (.mk (litExpr (tk .BOOL_VAL "false")) [])
    [.mk (litExpr (tk .BOOL_VAL "false")) [printStmt (litExpr (tk .STRING_VAL "a"))],
     .mk (litExpr (tk .BOOL_VAL "true")) [printStmt (litExpr (tk .STRING_VAL "b"))]]
    []

/-- The kind and the lexeme of the first token of the input `src`. -/
def firstToken (eos : Nat) (fuel : Nat) (src : String) : Run (TokenType × String) :=
  (Lexer.next_token eos fuel (Lexer.new src.toList)).bind fun r => .ok (r.1.type, r.1.lexeme)

/-- The number of statements stored in the `ForStmt` node that `for_stmt` builds, and the
parser state it ends in. -/
def forStmtBody (fuel : Nat) (p : Parser) : Run (Option Nat × Parser) :=
  (Parser.for_stmt fuel p).bind fun r => .ok (r.1.forBody?.map stmtCount, r.2)

/-- The bool held by a value, when it is one. -/
def DataObject.bool? : DataObject → Option Bool
  | .bool b => some b
  | _ => none

/-- The char held by a value, when it is one. -/
def DataObject.char? : DataObject → Option Char
  | .char c => some c
  | _ => none

/-- The type checker as `visit(Program&)` sets it up before the declarations are visited:
the global environment with the built-in functions. -/
def builtinChecker : TypeChecker :=
  TypeChecker.new.push.initialize_built_in_types

/-- The type the checker infers for an expression: `curr_type` after `visit(Expr&)`. -/
def inferType (tc : TypeChecker) (e : Expr) : Run String :=
  (TypeChecker.visitExpr tc e).bind fun tc => .ok tc.curr_type

/-- The type the checker infers for an rvalue: `curr_type` after its `visit`. -/
def inferRValue (tc : TypeChecker) (r : RValue) : Run String :=
  (TypeChecker.visitRValue tc r).bind fun tc => .ok tc.curr_type

/-- The expression `a op b` on two literal tokens. -/
def binLit (a : Token) (op : Token) (b : Token) : Expr :=
  .binary false (.SimpleTerm (.SimpleRValue a)) op (litExpr b)

/-- The expression `"ab" + 'c'`. -/
def stringPlusChar : Expr :=
  binLit (tk .STRING_VAL "ab") (tk .PLUS "+") (tk .CHAR_VAL "c")

/-- The expression `'a' + 'c'`. -/
def charPlusChar : Expr :=
  binLit (tk .CHAR_VAL "a") (tk .PLUS "+") (tk .CHAR_VAL "c")

/-- The rvalue `neg 5`: a `NegatedRValue` whose operand is the int literal 5. -/
def negFive : RValue := .NegatedRValue (litExpr (tk .INT_VAL "5"))

/-- The call `get(0, "abc")`. -/
def getTwoArgs : RValue :=
  .CallExpr (tk .ID "get") [litExpr (tk .INT_VAL "0"), litExpr (tk .STRING_VAL "abc")]

/-- The call `get("abc")`. -/
def getOneArg : RValue :=
  .CallExpr (tk .ID "get") [litExpr (tk .STRING_VAL "abc")]

/-- The call `print(1 + 2)`. -/
def printOnePlusTwo : RValue :=
  .CallExpr (tk .ID "print") [binLit (tk .INT_VAL "1") (tk .PLUS "+") (tk .INT_VAL "2")]

/-- The call `print("hi")`. -/
def printHi : RValue :=
  .CallExpr (tk .ID "print") [litExpr (tk .STRING_VAL "hi")]

/-- Executes `var x = e` in a fresh interpreter with one environment pushed and tells
whether `x` is bound in the current environment afterwards, with the value the
initialiser left in the register rendered as text. -/
def varDeclRun (code : TokenType → Nat) (fuel : Nat) (e : Expr) : Run (Bool × String) := do
  let it ← Interpreter.visitStmt code fuel (Interpreter.new []).push
    (.VarDecl ⟨tk .ID "x", none, e⟩)
  pure (it.sym_table.name_exists_in_curr_env "x", it.curr_val.to_string)

/-- The outcome of `next_token` on the input `src` with the final lexer state dropped. -/
def nextTokenOf (eos : Nat) (fuel : Nat) (src : String) : Run Token :=
  (Lexer.next_token eos fuel (Lexer.new src.toList)).bind fun r => .ok r.1

/-- A state in which the variable `i` holds the int `i` and the variable `s` the string `s`. -/
def getState (i : Int) (s : String) : Interpreter :=
  (((Interpreter.new []).push).declare "i" (.int i)).declare "s" (.string s)

/-- Evaluates the call `get(i, s)` in `getState i s`; the result is the char left in the
value register. -/
def getRun (code : TokenType → Nat) (fuel : Nat) (i : Int) (s : String) : Run (Option Char) := do
  let it ← Interpreter.visitCallExpr code fuel (getState i s) (tk .ID "get")
    [varExpr "i", varExpr "s"]
  pure it.curr_val.char?

/-- A state in which the variable `a` holds the int `a` and the variable `b` the int `b`. -/
def binState (a b : Int) : Interpreter :=
  (((Interpreter.new []).push).declare "a" (.int a)).declare "b" (.int b)

/-- The expression `a op b` on the variables `a` and `b`. -/
def binExpr (op : Token) : Expr :=
  .binary false (.SimpleTerm (.IDRValue [tk .ID "a"])) op (varExpr "b")

/-- Evaluates `a op b` in `binState a b`. -/
def binRun (code : TokenType → Nat) (fuel : Nat) (op : Token) (a b : Int) : Run Interpreter :=
  Interpreter.visitExpr code fuel (binState a b) (binExpr op)

/-- The int left in the value register by `a op b`, when it is an int. -/
def binInt (code : TokenType → Nat) (fuel : Nat) (op : Token) (a b : Int) : Run (Option Int) :=
  (binRun code fuel op a b).bind fun it => .ok it.curr_val.int?

/-- The bool left in the value register by `a op b`, when it is a bool. -/
def binBool (code : TokenType → Nat) (fuel : Nat) (op : Token) (a b : Int) : Run (Option Bool) :=
  (binRun code fuel op a b).bind fun it => .ok it.curr_val.bool?

/-- In the symbol table `st` the expression `e` has inferred type `ty`: whatever the
register holds, `visit(Expr&)` raises nothing, leaves the symbol table as it is and leaves
`ty` in `curr_type`. -/
def TypeChecker.Infers (st : SymbolTable) (e : Expr) (ty : String) : Prop :=
  ∀ c : String, TypeChecker.visitExpr ⟨st, c⟩ e = .ok ⟨st, ty⟩

/-- An argument of inferred type `ty` fits a parameter of type `p`: the type is `nil` or
equal to the parameter type. -/
def argMatches (ty p : String) : Prop := ty = "nil" ∨ ty = p

/-- The tokens of `var x = ( 1 + 2` followed by `end`, the first being the current token:
the parenthesis is never closed. -/
def unclosedParenDecl : Parser :=
  ⟨[tk .ID "x", tk .ASSIGN "=", tk .LPAREN "(", tk .INT_VAL "1", tk .PLUS "+",
    tk .INT_VAL "2", tk .END "end"], tk .VAR "var"⟩

/-- The tokens of the program `fun int main() var x = ( 1 + 2 end`. -/
def unclosedParenTokens : List Token :=
  [tk .FUN "fun", tk .INT_TYPE "int", tk .ID "main", tk .LPAREN "(", tk .RPAREN ")",
    tk .VAR "var", tk .ID "x", tk .ASSIGN "=", tk .LPAREN "(", tk .INT_VAL "1", tk .PLUS "+",
    tk .INT_VAL "2", tk .END "end"]

/-- The declaration `var x = (1 + 2)` as a node: the initialiser is a complex term holding
`1 + 2`. -/
def varXOnePlusTwo : VarDeclStmt :=
  ⟨tk .ID "x", none,
    .single false (.ComplexTerm (binLit (tk .INT_VAL "1") (tk .PLUS "+") (tk .INT_VAL "2")))⟩

/-- The type name bound to the declared variable after `visit(VarDeclStmt&)` on `node`. -/
def varDeclType (tc : TypeChecker) (node : VarDeclStmt) : Run (Option String) :=
  (tc.visitVarDeclStmt node).bind fun tc => .ok (tc.sym_table.get_str_info node.id.lexeme)

/-- The signature vector bound to the function name after `visit(FunDecl&)`. -/
def funDeclSignature (tc : TypeChecker) (return_type id : Token) (params : List FunParam)
    (stmts : List Stmt) : Run (Option (List String)) :=
  (tc.visitFunDecl return_type id params stmts).bind fun tc =>
    .ok (tc.sym_table.get_vec_info id.lexeme)

/-- The token kinds that form an operand on their own: the literals and an identifier. -/
def isOperand (t : TokenType) : Bool :=
  t = .INT_VAL || t = .DOUBLE_VAL || t = .BOOL_VAL || t = .CHAR_VAL || t = .STRING_VAL
    || t = .NIL || t = .ID

/-- The term node of a one-token operand: a one-element path for an identifier, a simple
rvalue for a literal. -/
def operandTerm (t : Token) : ExprTerm :=
  if t.type = .ID then .SimpleTerm (.IDRValue [t]) else .SimpleTerm (.SimpleRValue t)

/-- The tokens `op1 t2 op2 t3 ...` of a chain after its first operand. -/
def chainTokens : List (Token × Token) → List Token
  | [] => []
  | (op, t) :: rest => op :: t :: chainTokens rest

/-- The right-nested tree of the chain `t op1 t2 op2 t3 ...`: the first operand, the first
operator and, as `rest`, the tree of the remaining chain; a lone operand has no operator
and no `rest`. -/
def chainExpr : Token → List (Token × Token) → Expr
  | t, [] => .single false (operandTerm t)
  | t, (op, t2) :: rest => .binary false (operandTerm t) op (chainExpr t2 rest)

/-- The tokens `, a2 , a3 ...` of the arguments after the first one. -/
def argTail (comma : Token) : List Token → List Token
  | [] => []
  | a :: rest => comma :: a :: argTail comma rest

/-- The tokens `a1 , a2 , a3 ...` of a list of one-token arguments. -/
def argTokens (comma : Token) : List Token → List Token
  | [] => []
  | a :: rest => a :: argTail comma rest

/-- The statement `if false then else body end`. -/
def ifFalseElse (body : List Stmt) : Stmt :=
  .IfStmt (.mk (litExpr (tk .BOOL_VAL "false")) []) [] body

/-- The statements `print("0") print("1") ... print("9")`. -/
def tenPrints : List Stmt :=
  ["0", "1", "2", "3", "4", "5", "6", "7", "8", "9"].map fun s =>
    printStmt (litExpr (tk .STRING_VAL s))

/-- The text written by `stmt` when a fresh interpreter with one environment executes it. -/
def stmtOutput (code : TokenType → Nat) (fuel : Nat) (stmt : Stmt) : Run String :=
  (Interpreter.visitStmt code fuel (Interpreter.new []).push stmt).bind fun it => .ok it.cout

/-- The type name bound to `name` after the type checker has visited `stmts` in `tc`. -/
def typeAfter (tc : TypeChecker) (stmts : List Stmt) (name : String) : Run (Option String) :=
  (tc.visitStmts stmts).bind fun tc => .ok (tc.sym_table.get_str_info name)

/-- The statements `var x = 1` and `var y: int = print`: the initialiser of `y` is the
function name `print` used as a variable. -/
def varFromFunctionName : List Stmt :=
  [.VarDecl ⟨tk .ID "x", none, litExpr (tk .INT_VAL "1")⟩,
   .VarDecl ⟨tk .ID "y", some (tk .INT_TYPE "int"), varExpr "print"⟩]

/-- The state in which `visit(FunDecl&)` visits the statements of the body (source lines
182-200): the parameters and the function name are bound in the environment current on
entry, a new environment is pushed and `return` is bound in it with the return type. -/
def TypeChecker.bodyChecker (tc : TypeChecker) (return_type id : Token)
    (params : List FunParam) : TypeChecker :=
  (((TypeChecker.paramLoop tc [] params).1.declare_vec id.lexeme
    ((TypeChecker.paramLoop tc [] params).2 ++ [return_type.lexeme])).push).declare_str
      "return" return_type.lexeme

/-- The declarations `fun int f(return: string) end` and `fun int g() end`: the first
function has a parameter written with the keyword `return`. -/
def paramNamedReturn : List Decl :=
  [.FunDecl (tk .INT_TYPE "int") (tk .ID "f")
      [⟨tk .RETURN "return", tk .STRING_TYPE "string"⟩] [],
   .FunDecl (tk .INT_TYPE "int") (tk .ID "g") [] []]

/-- The tokens of `fun int f(return: string) end fun int g() end`. -/
def paramNamedReturnTokens : List Token :=
  [tk .FUN "fun", tk .INT_TYPE "int", tk .ID "f", tk .LPAREN "(", tk .RETURN "return",
    tk .COLON ":", tk .STRING_TYPE "string", tk .RPAREN ")", tk .END "end",
    tk .FUN "fun", tk .INT_TYPE "int", tk .ID "g", tk .LPAREN "(", tk .RPAREN ")",
    tk .END "end"]

/-- The declaration `fun int f() return e  var y: int = print end`. -/
def returnThenTypedVar (e : Expr) : List Decl :=
  [.FunDecl (tk .INT_TYPE "int") (tk .ID "f") []
    [.ReturnStmt e, .VarDecl ⟨tk .ID "y", some (tk .INT_TYPE "int"), varExpr "print"⟩]]

/-- The outcome of visiting the declarations `decls` in `tc`, the final state dropped. -/
def checkDecls (tc : TypeChecker) (decls : List Decl) : Run Unit :=
  (TypeChecker.visitDecls tc decls).bind fun _ => .ok ()

/-- The type checker inside a block of the global environment in which `x` is declared with
type `int`: the global environment with the built-in functions and `x`, and a pushed
environment that is empty. -/
def blockChecker : TypeChecker :=
  (builtinChecker.declare_str "x" "int").push

/-- Every environment of the table has an id below `next_id`, the id the next pushed
environment gets. -/
def SymbolTable.Fresh (st : SymbolTable) : Prop :=
  ∀ e ∈ st.envs, e.id < st.next_id

/-- The table `b` has the environments of `a`, with the same ids and parents in the same
order, and the same current environment. -/
def SymbolTable.SameShape (a b : SymbolTable) : Prop :=
  b.curr = a.curr ∧ a.next_id ≤ b.next_id ∧
    List.Forall₂ (fun e e2 : Environment => e2.id = e.id ∧ e2.parent = e.parent) a.envs b.envs

/-- The table `b` has the shape of `a` and the bindings of `a` in every environment but the
current one. -/
def SymbolTable.SameOutside (a b : SymbolTable) : Prop :=
  b.curr = a.curr ∧ a.next_id ≤ b.next_id ∧
    List.Forall₂ (fun e e2 : Environment =>
      e2.id = e.id ∧ e2.parent = e.parent ∧ (some e.id ≠ a.curr → e2.names = e.names))
      a.envs b.envs

/-- When the outcome is a result, the result satisfies `P` (nothing is said about an
outcome that is no result). -/
def Run.Holds {α : Type} (P : α → Prop) : Run α → Prop
  | .ok a => P a
  | _ => True

/-- An interpreter state as `visit(Program&)` leaves it before `main` is called: the global
environment, with the variable `x` bound to 1 in it, and the function table holding
`fun nil f(a: int) var x = 2 return x end`. -/
def callState : Interpreter :=
  { ((Interpreter.new []).push.declare "x" (.int 1)) with
    functions := [("f", ⟨tk .NIL "nil", tk .ID "f", [⟨tk .ID "a", tk .INT_TYPE "int"⟩],
      [.VarDecl ⟨tk .ID "x", none, litExpr (tk .INT_VAL "2")⟩, .ReturnStmt (varExpr "x")]⟩)],
    global_env_id := some 0 }

/-- The statement `if true then var x = 2 end`. -/
def ifDeclaresX : Stmt :=
  .IfStmt (.mk (litExpr (tk .BOOL_VAL "true"))
    [.VarDecl ⟨tk .ID "x", none, litExpr (tk .INT_VAL "2")⟩]) [] []

/-- The program
`fun int main() var x = "outer"  if true then var x = e  x = "inner" end  print(x) end`. -/
def shadowProgram (e : Expr) : Program :=
  ⟨[mainDecl [
    .VarDecl ⟨tk .ID "x", none, litExpr (tk .STRING_VAL "outer")⟩,
    .IfStmt (.mk (litExpr (tk .BOOL_VAL "true"))
      [.VarDecl ⟨tk .ID "x", none, e⟩,
        .AssignStmt [tk .ID "x"] (litExpr (tk .STRING_VAL "inner"))]) [] [],
    printStmt (varExpr "x")]]⟩

/-- The statement `if true then var x = e  x = 5 end`. -/
def ifDeclaresThenAssigns (e : Expr) : Stmt :=
  .IfStmt (.mk (litExpr (tk .BOOL_VAL "true"))
    [.VarDecl ⟨tk .ID "x", none, e⟩,
      .AssignStmt [tk .ID "x"] (litExpr (tk .INT_VAL "5"))]) [] []

/-- Executes the statement `s` in `callState`, where the only environment binds `x` to 1;
the result is the int that a lookup of `x` yields afterwards and the number of
environments. -/
def outerXAfter (code : TokenType → Nat) (fuel : Nat) (s : Stmt) : Run (Option Int × Nat) :=
  (Interpreter.visitStmt code fuel callState s).bind fun it =>
    .ok ((it.sym_table.get_val_info "x").bind DataObject.int?, it.sym_table.envs.length)

/-- The token stream behind a parser state ends in `EOS`: the tokens still to come hold no
`EOS` token, and once the current token is `EOS` none is left (every later request yields
`EOS` again). -/
def Parser.Inv (p : Parser) : Prop :=
  (p.curr_token.type = .EOS → p.lexer = []) ∧ ∀ t ∈ p.lexer, t.type ≠ .EOS

/-- The number of tokens before the end of the stream, the current one included. -/
def Parser.remaining (p : Parser) : Nat :=
  p.lexer.length + (if p.curr_token.type = .EOS then 0 else 1)

/-- The parser state `p` is well formed and at least `k` tokens further than a state with
`m` tokens left. -/
def Parser.Within (m k : Nat) (p : Parser) : Prop := p.Inv ∧ p.remaining + k ≤ m

/-- The run ended: it returned a value satisfying `P` or raised a `SYNTAX` error; it neither
crashed nor ran out of fuel. -/
def Run.Syn {α : Type} (P : α → Prop) : Run α → Prop
  | .ok a => P a
  | .raise e => e.type = .SYNTAX
  | .crash _ => False
  | .timeout => False

/-! ## Invariants used by the theorems -/

/-- A payload is well formed when, if it is a signature vector, the vector is not empty. -/
def Info.vecOk : Info → Prop
  | .vec v => v ≠ []
  | _ => True

/-- Every signature vector stored anywhere in the symbol table is non-empty. -/
def SymbolTable.VecOk (st : SymbolTable) : Prop :=
  ∀ e ∈ st.envs, ∀ b ∈ e.names, b.2.vecOk

/-- The outcome is a result satisfying `P` or a raised SEMANTIC error. -/
def Run.Sem {α : Type} (P : α → Prop) : Run α → Prop
  | .ok a => P a
  | .raise e => e.type = .SEMANTIC
  | .crash _ => False
  | .timeout => False

/-- The symbol table of the type checker has only non-empty signature vectors. -/
def TypeChecker.Ok (tc : TypeChecker) : Prop := tc.sym_table.VecOk

/-! ## Theorems: the symbol table -/

theorem lookup_mem {α : Type} (name : String) (a : α) :
    ∀ l : List (String × α), l.lookup name = some a → (name, a) ∈ l
  | [], h => by simp [List.lookup] at h
  | (k, v) :: rest, h => by
    by_cases hk : name = k
    · subst hk
      simp [List.lookup] at h
      subst h
      exact List.mem_cons_self _ _
    · have hb : (name == k) = false := by simpa using hk
      simp only [List.lookup, hb] at h
      exact List.mem_cons_of_mem _ (lookup_mem name a rest h)

theorem SymbolTable.env?_mem (st : SymbolTable) (i : Nat) (e : Environment)
    (h : st.env? i = some e) : e ∈ st.envs :=
  List.mem_of_find?_eq_some h

theorem SymbolTable.findFrom_mem (st : SymbolTable) (name : String) (e : Environment) :
    ∀ (depth : Nat) (from_ : Option Nat), st.findFrom name depth from_ = some e →
      e ∈ st.envs ∧ (e.names.lookup name).isSome
  | 0, _, h => by simp [SymbolTable.findFrom] at h
  | _ + 1, none, h => by simp [SymbolTable.findFrom] at h
  | depth + 1, some i, h => by
    simp only [SymbolTable.findFrom] at h
    cases he : st.env? i with
    | none => simp [he] at h
    | some e0 =>
      simp only [he] at h
      by_cases hl : (e0.names.lookup name).isSome
      · simp only [hl, if_true, Option.some.injEq] at h
        subst h
        exact ⟨st.env?_mem i e0 he, hl⟩
      · simp only [hl] at h
        exact SymbolTable.findFrom_mem st name e depth e0.parent (by simpa using h)

theorem SymbolTable.info?_mem (st : SymbolTable) (name : String) (info : Info)
    (h : st.info? name = some info) : ∃ e ∈ st.envs, (name, info) ∈ e.names := by
  unfold SymbolTable.info? at h
  cases hg : st.get_environment name with
  | none => simp [hg] at h
  | some e =>
    simp only [hg, Option.bind] at h
    exact ⟨e, (st.findFrom_mem name e _ _ hg).1, lookup_mem name info _ h⟩

theorem SymbolTable.VecOk.get_vec_info {st : SymbolTable} (h : st.VecOk) (name : String)
    (v : List String) (hv : st.get_vec_info name = some v) : v ≠ [] := by
  unfold SymbolTable.get_vec_info at hv
  cases hi : st.info? name with
  | none => simp [hi] at hv
  | some info =>
    cases info with
    | vec w =>
      simp only [hi, Option.some.injEq] at hv
      subst hv
      obtain ⟨e, he, hb⟩ := st.info?_mem name _ hi
      exact h e he _ hb
    | none => simp [hi] at hv
    | str _ => simp [hi] at hv
    | map _ => simp [hi] at hv
    | val _ => simp [hi] at hv

theorem SymbolTable.VecOk.new : SymbolTable.new.VecOk := by
  intro e he
  simp [SymbolTable.new] at he

theorem SymbolTable.VecOk.push_environment {st : SymbolTable} (h : st.VecOk) :
    st.push_environment.VecOk := by
  intro e he b hb
  simp only [SymbolTable.push_environment, List.mem_cons] at he
  rcases he with he | he
  · subst he
    simp at hb
  · exact h e he b hb

theorem SymbolTable.VecOk.pop_environment {st : SymbolTable} (h : st.VecOk) :
    st.pop_environment.VecOk := by
  unfold SymbolTable.pop_environment
  cases st.curr with
  | none => exact h
  | some i =>
    intro e he b hb
    exact h e (List.mem_of_mem_filter he) b hb

theorem SymbolTable.VecOk.setIn {st : SymbolTable} (h : st.VecOk) (i : Nat) (name : String)
    (info : Info) (hi : info.vecOk) : (st.setIn i name info).VecOk := by
  intro e he b hb
  simp only [SymbolTable.setIn, List.mem_map] at he
  obtain ⟨e0, he0, rfl⟩ := he
  by_cases hid : (e0.id == i) = true
  · simp only [hid, if_true, List.mem_cons] at hb
    rcases hb with hb | hb
    · subst hb
      exact hi
    · exact h e0 he0 b (List.mem_of_mem_filter hb)
  · simp only [hid] at hb
    exact h e0 he0 b hb

theorem SymbolTable.VecOk.add_name {st : SymbolTable} (h : st.VecOk) (name : String) :
    (st.add_name name).VecOk := by
  unfold SymbolTable.add_name
  cases st.curr with
  | none => exact h
  | some i => exact h.setIn i name .none trivial

theorem SymbolTable.VecOk.set_info {st : SymbolTable} (h : st.VecOk) (name : String)
    (info : Info) (hi : info.vecOk) : (st.set_info name info).VecOk := by
  unfold SymbolTable.set_info
  cases st.get_environment name with
  | none => exact h
  | some e => exact h.setIn e.id name info hi

/-! ## Theorems: the type checker keeps signature vectors non-empty -/

theorem Run.Sem.bind {α β : Type} {P : α → Prop} {Q : β → Prop} {r : Run α} {f : α → Run β}
    (hr : r.Sem P) (hf : ∀ a, P a → (f a).Sem Q) : (r >>= f).Sem Q := by
  cases r with
  | ok a => exact hf a hr
  | raise e => exact hr
  | crash w => exact hr
  | timeout => exact hr

theorem Run.Sem.error {α : Type} (P : α → Prop) (msg : String) (t : Token) :
    (TypeChecker.error msg t : Run α).Sem P := rfl

theorem Run.Sem.error1 {α : Type} (P : α → Prop) (msg : String) :
    (TypeChecker.error1 msg : Run α).Sem P := rfl

theorem Run.Sem.ite {α : Type} (P : α → Prop) (c : Prop) {d : Decidable c} (a b : Run α)
    (ha : a.Sem P) (hb : b.Sem P) : (@ite (Run α) c d a b).Sem P := by
  cases d with
  | isTrue hc => exact ha
  | isFalse hc => exact hb

theorem TypeChecker.Ok.declare_str {tc : TypeChecker} (h : tc.Ok) (name s : String) :
    (tc.declare_str name s).Ok :=
  SymbolTable.VecOk.set_info (SymbolTable.VecOk.add_name h name) name (.str s) trivial

theorem TypeChecker.Ok.declare_vec {tc : TypeChecker} (h : tc.Ok) (name : String)
    (v : List String) (hv : v ≠ []) : (tc.declare_vec name v).Ok :=
  SymbolTable.VecOk.set_info (SymbolTable.VecOk.add_name h name) name (.vec v) hv

theorem TypeChecker.Ok.push {tc : TypeChecker} (h : tc.Ok) : tc.push.Ok :=
  SymbolTable.VecOk.push_environment h

theorem TypeChecker.Ok.pop {tc : TypeChecker} (h : tc.Ok) : tc.pop.Ok :=
  SymbolTable.VecOk.pop_environment h

theorem TypeChecker.Ok.initialize_built_in_types {tc : TypeChecker} (h : tc.Ok) :
    tc.initialize_built_in_types.Ok := by
  unfold TypeChecker.initialize_built_in_types
  refine TypeChecker.Ok.declare_vec ?_ _ _ (by simp)
  refine TypeChecker.Ok.declare_vec ?_ _ _ (by simp)
  refine TypeChecker.Ok.declare_vec ?_ _ _ (by simp)
  refine TypeChecker.Ok.declare_vec ?_ _ _ (by simp)
  refine TypeChecker.Ok.declare_vec ?_ _ _ (by simp)
  refine TypeChecker.Ok.declare_vec ?_ _ _ (by simp)
  refine TypeChecker.Ok.declare_vec ?_ _ _ (by simp)
  exact TypeChecker.Ok.declare_vec h _ _ (by simp)

theorem TypeChecker.idrLoop_sem (first : Token) :
    ∀ (path : List Token) (tc : TypeChecker) (i : Nat) (prev : String), tc.Ok →
      (TypeChecker.idrLoop first tc path i prev).Sem TypeChecker.Ok
  | [], tc, i, prev, h => h
  | t :: ts, tc, i, prev, h => by
    unfold TypeChecker.idrLoop
    refine Run.Sem.bind (P := TypeChecker.Ok) ?_ (fun a ha => TypeChecker.idrLoop_sem first ts a _ _ ha)
    split
    · split
      · exact Run.Sem.error _ _ _
      · exact h
    · split
      · exact Run.Sem.error _ _ _
      · dsimp only
        split
        · exact h
        · exact Run.Sem.error1 _ _

theorem TypeChecker.lvalueLoop_sem (front : Token) :
    ∀ (l : List Token) (tc : TypeChecker) (i : Nat) (prev : String), tc.Ok →
      (TypeChecker.lvalueLoop front tc l i prev).Sem TypeChecker.Ok
  | [], tc, i, prev, h => h
  | t :: ts, tc, i, prev, h => by
    unfold TypeChecker.lvalueLoop
    refine Run.Sem.bind (P := TypeChecker.Ok) ?_
      (fun a ha => TypeChecker.lvalueLoop_sem front ts a _ _ ha)
    split
    · split
      · exact h
      · exact Run.Sem.error _ _ _
    · split
      · exact Run.Sem.error _ _ _
      · dsimp only
        split
        · exact h
        · exact Run.Sem.error1 _ _

theorem TypeChecker.visitSimpleRValue_sem (tc : TypeChecker) (value : Token) (h : tc.Ok) :
    (tc.visitSimpleRValue value).Sem TypeChecker.Ok := by
  unfold TypeChecker.visitSimpleRValue
  repeat' split
  all_goals first
    | exact h
    | exact Run.Sem.error1 _ _

theorem TypeChecker.visitNewRValue_sem (tc : TypeChecker) (type_id : Token) (h : tc.Ok) :
    (tc.visitNewRValue type_id).Sem TypeChecker.Ok := by
  unfold TypeChecker.visitNewRValue
  repeat' split
  all_goals first
    | exact h
    | exact Run.Sem.error _ _ _

theorem TypeChecker.checkOp_sem (tc : TypeChecker) (op : Token) (lhs : String) (ft : Token)
    (h : tc.Ok) : (tc.checkOp op lhs ft).Sem TypeChecker.Ok := by
  unfold TypeChecker.checkOp
  dsimp only
  repeat' split
  all_goals first
    | exact h
    | exact Run.Sem.error _ _ _

mutual
theorem TypeChecker.visitExpr_sem : ∀ (e : Expr) (tc : TypeChecker), tc.Ok →
    (TypeChecker.visitExpr tc e).Sem TypeChecker.Ok
  | .single negated first, tc, h => by
    unfold TypeChecker.visitExpr
    refine Run.Sem.bind (TypeChecker.visitExprTerm_sem first tc h) (fun a ha => ?_)
    refine Run.Sem.bind (TypeChecker.visitExprTerm_sem first a ha) (fun b hb => ?_)
    split
    · exact Run.Sem.error _ _ _
    · exact hb
  | .binary negated first op rest, tc, h => by
    unfold TypeChecker.visitExpr
    refine Run.Sem.bind (TypeChecker.visitExprTerm_sem first tc h) (fun a ha => ?_)
    refine Run.Sem.bind (TypeChecker.visitExpr_sem rest a ha) (fun b hb => ?_)
    exact TypeChecker.checkOp_sem b op _ _ hb
theorem TypeChecker.visitExprTerm_sem : ∀ (e : ExprTerm) (tc : TypeChecker), tc.Ok →
    (TypeChecker.visitExprTerm tc e).Sem TypeChecker.Ok
  | .SimpleTerm rvalue, tc, h => by
    unfold TypeChecker.visitExprTerm
    exact TypeChecker.visitRValue_sem rvalue tc h
  | .ComplexTerm expr, tc, h => by
    unfold TypeChecker.visitExprTerm
    exact TypeChecker.visitExpr_sem expr tc h
theorem TypeChecker.visitRValue_sem : ∀ (e : RValue) (tc : TypeChecker), tc.Ok →
    (TypeChecker.visitRValue tc e).Sem TypeChecker.Ok
  | .SimpleRValue value, tc, h => by
    unfold TypeChecker.visitRValue
    exact tc.visitSimpleRValue_sem value h
  | .NewRValue type_id, tc, h => by
    unfold TypeChecker.visitRValue
    exact tc.visitNewRValue_sem type_id h
  | .CallExpr function_id arg_list, tc, h => by
    unfold TypeChecker.visitRValue
    split
    · exact Run.Sem.error _ _ _
    · dsimp only
      generalize sizeMinusOne ((tc.sym_table.get_vec_info function_id.lexeme).getD []) = n
      refine Run.Sem.ite _ _ _ _ (Run.Sem.error _ _ _) ?_
      exact Run.Sem.bind (TypeChecker.visitArgs_sem arg_list tc _ function_id 0 h)
        (fun a ha => ha)
  | .IDRValue path, tc, h => by
    unfold TypeChecker.visitRValue
    exact TypeChecker.idrLoop_sem _ path tc 1 "" h
  | .NegatedRValue expr, tc, h => by
    unfold TypeChecker.visitRValue
    refine Run.Sem.bind (TypeChecker.visitExpr_sem expr tc h) (fun a ha => ?_)
    split
    · exact Run.Sem.error _ _ _
    · exact TypeChecker.visitExpr_sem expr a ha
theorem TypeChecker.visitArgs_sem : ∀ (l : List Expr) (tc : TypeChecker) (fun_type : List String)
    (function_id : Token) (i : Nat), tc.Ok →
    (TypeChecker.visitArgs tc fun_type function_id l i).Sem TypeChecker.Ok
  | [], tc, fun_type, function_id, i, h => by
    unfold TypeChecker.visitArgs
    exact h
  | x :: xs, tc, fun_type, function_id, i, h => by
    unfold TypeChecker.visitArgs
    refine Run.Sem.bind (TypeChecker.visitExpr_sem x tc h) (fun a ha => ?_)
    split
    · exact Run.Sem.error _ _ _
    · exact TypeChecker.visitArgs_sem xs a fun_type function_id (i + 1) ha
end

theorem TypeChecker.visitVarDeclStmt_sem (tc : TypeChecker) (node : VarDeclStmt) (h : tc.Ok) :
    (tc.visitVarDeclStmt node).Sem TypeChecker.Ok := by
  unfold TypeChecker.visitVarDeclStmt
  refine Run.Sem.bind (P := TypeChecker.Ok) ?_ (fun a ha => ?_)
  · repeat' split
    all_goals first
      | exact h
      | exact Run.Sem.error _ _ _
  refine Run.Sem.bind (TypeChecker.visitExpr_sem node.expr a ha) (fun b hb => ?_)
  dsimp only
  refine Run.Sem.bind (P := TypeChecker.Ok) ?_ (fun c hc => ?_)
  · repeat' split
    all_goals first
      | exact hb
      | exact Run.Sem.error _ _ _
  split
  · exact Run.Sem.error _ _ _
  · exact hc.declare_str _ _

theorem TypeChecker.visitAssignStmt_sem (tc : TypeChecker) (l : List Token) (expr : Expr)
    (h : tc.Ok) : (tc.visitAssignStmt l expr).Sem TypeChecker.Ok := by
  unfold TypeChecker.visitAssignStmt
  dsimp only
  refine Run.Sem.bind (TypeChecker.lvalueLoop_sem _ l tc 1 "" h) (fun a ha => ?_)
  refine Run.Sem.bind (TypeChecker.visitExpr_sem expr a ha) (fun b hb => ?_)
  exact Run.Sem.ite _ _ _ _ (Run.Sem.error _ _ _) hb

theorem TypeChecker.visitReturnStmt_sem (tc : TypeChecker) (expr : Expr) (h : tc.Ok) :
    (tc.visitReturnStmt expr).Sem TypeChecker.Ok := by
  unfold TypeChecker.visitReturnStmt
  exact Run.Sem.bind (TypeChecker.visitExpr_sem expr tc h) (fun a ha => ha.declare_str _ _)

theorem TypeChecker.visitCallExpr_sem (tc : TypeChecker) (function_id : Token)
    (arg_list : List Expr) (h : tc.Ok) :
    (tc.visitCallExpr function_id arg_list).Sem TypeChecker.Ok :=
  TypeChecker.visitRValue_sem _ tc h

mutual
theorem TypeChecker.visitStmt_sem : ∀ (s : Stmt) (tc : TypeChecker), tc.Ok →
    (TypeChecker.visitStmt tc s).Sem TypeChecker.Ok
  | .VarDecl v, tc, h => by
    unfold TypeChecker.visitStmt
    exact tc.visitVarDeclStmt_sem v h
  | .AssignStmt lvalue_list expr, tc, h => by
    unfold TypeChecker.visitStmt
    exact tc.visitAssignStmt_sem lvalue_list expr h
  | .ReturnStmt expr, tc, h => by
    unfold TypeChecker.visitStmt
    exact tc.visitReturnStmt_sem expr h
  | .CallExpr function_id arg_list, tc, h => by
    unfold TypeChecker.visitStmt
    exact tc.visitCallExpr_sem function_id arg_list h
  | .IfStmt if_part else_ifs body_stmts, tc, h => by
    unfold TypeChecker.visitStmt
    refine Run.Sem.bind (TypeChecker.visitBasicIf_sem if_part tc h) (fun a ha => ?_)
    refine Run.Sem.bind (TypeChecker.visitElseIfs_sem else_ifs a ha) (fun b hb => ?_)
    cases body_stmts with
    | nil => exact hb
    | cons s ss =>
      exact Run.Sem.bind (TypeChecker.visitStmts_sem (s :: ss) b.push hb.push)
        (fun c hc => hc.pop)
  | .WhileStmt expr stmts, tc, h => by
    unfold TypeChecker.visitStmt
    refine Run.Sem.bind (TypeChecker.visitExpr_sem expr tc h) (fun a ha => ?_)
    split
    · exact Run.Sem.error _ _ _
    · exact Run.Sem.bind (TypeChecker.visitStmts_sem stmts a.push ha.push) (fun c hc => hc.pop)
  | .ForStmt var_id start end_ stmts, tc, h => by
    unfold TypeChecker.visitStmt
    refine Run.Sem.bind (TypeChecker.visitExpr_sem start tc h) (fun a ha => ?_)
    split
    · exact Run.Sem.error _ _ _
    · refine Run.Sem.bind (TypeChecker.visitExpr_sem end_ a ha) (fun b hb => ?_)
      split
      · exact Run.Sem.error _ _ _
      · exact Run.Sem.bind (TypeChecker.visitStmts_sem stmts b.push hb.push) (fun c hc => hc.pop)
theorem TypeChecker.visitBasicIf_sem : ∀ (s : BasicIf) (tc : TypeChecker), tc.Ok →
    (TypeChecker.visitBasicIf tc s).Sem TypeChecker.Ok
  | .mk expr stmts, tc, h => by
    unfold TypeChecker.visitBasicIf
    refine Run.Sem.bind (TypeChecker.visitExpr_sem expr tc h) (fun a ha => ?_)
    split
    · exact Run.Sem.error _ _ _
    · exact Run.Sem.bind (TypeChecker.visitStmts_sem stmts a.push ha.push) (fun c hc => hc.pop)
theorem TypeChecker.visitElseIfs_sem : ∀ (l : List BasicIf) (tc : TypeChecker), tc.Ok →
    (TypeChecker.visitElseIfs tc l).Sem TypeChecker.Ok
  | [], tc, h => by
    unfold TypeChecker.visitElseIfs
    exact h
  | s :: rest, tc, h => by
    unfold TypeChecker.visitElseIfs
    exact Run.Sem.bind (TypeChecker.visitBasicIf_sem s tc h)
      (fun a ha => TypeChecker.visitElseIfs_sem rest a ha)
theorem TypeChecker.visitStmts_sem : ∀ (l : List Stmt) (tc : TypeChecker), tc.Ok →
    (TypeChecker.visitStmts tc l).Sem TypeChecker.Ok
  | [], tc, h => by
    unfold TypeChecker.visitStmts
    exact h
  | s :: rest, tc, h => by
    unfold TypeChecker.visitStmts
    exact Run.Sem.bind (TypeChecker.visitStmt_sem s tc h)
      (fun a ha => TypeChecker.visitStmts_sem rest a ha)
end

theorem TypeChecker.paramLoop_ok : ∀ (params : List FunParam) (tc : TypeChecker)
    (the_type : List String), tc.Ok → (TypeChecker.paramLoop tc the_type params).1.Ok
  | [], tc, the_type, h => h
  | v :: rest, tc, the_type, h => by
    unfold TypeChecker.paramLoop
    exact TypeChecker.paramLoop_ok rest _ _ (h.declare_str _ _)

theorem TypeChecker.visitFunDecl_sem (tc : TypeChecker) (return_type id : Token)
    (params : List FunParam) (stmts : List Stmt) (h : tc.Ok) :
    (tc.visitFunDecl return_type id params stmts).Sem TypeChecker.Ok := by
  unfold TypeChecker.visitFunDecl
  split
  · exact Run.Sem.error _ _ _
  · dsimp only
    refine Run.Sem.bind (P := TypeChecker.Ok) ?_ (fun a ha => ?_)
    · repeat' split
      all_goals first
        | exact h
        | exact Run.Sem.error _ _ _
    refine Run.Sem.bind (P := TypeChecker.Ok) ?_ (fun b hb => ?_)
    · repeat' split
      all_goals first
        | exact ha
        | exact Run.Sem.error _ _ _
        | exact Run.Sem.error1 _ _
    refine Run.Sem.bind (TypeChecker.visitStmts_sem stmts _ ?_) (fun c hc => hc.pop)
    refine TypeChecker.Ok.declare_str (TypeChecker.Ok.push ?_) _ _
    exact TypeChecker.Ok.declare_vec (TypeChecker.paramLoop_ok params b [] hb) _ _ (by simp)

theorem TypeChecker.vdeclLoop_sem : ∀ (l : List VarDeclStmt) (tc : TypeChecker)
    (type_info : List (String × String)), tc.Ok →
    (TypeChecker.vdeclLoop tc type_info l).Sem (fun r => r.1.Ok)
  | [], tc, type_info, h => h
  | v :: rest, tc, type_info, h => by
    unfold TypeChecker.vdeclLoop
    exact Run.Sem.bind (tc.visitVarDeclStmt_sem v h)
      (fun a ha => TypeChecker.vdeclLoop_sem rest a _ ha)

theorem TypeChecker.visitTypeDecl_sem (tc : TypeChecker) (id : Token) (vdecls : List VarDeclStmt)
    (h : tc.Ok) : (tc.visitTypeDecl id vdecls).Sem TypeChecker.Ok := by
  unfold TypeChecker.visitTypeDecl
  split
  · exact Run.Sem.error _ _ _
  · dsimp only
    refine Run.Sem.bind (TypeChecker.vdeclLoop_sem vdecls _ [] ?_) (fun r hr => ?_)
    · exact SymbolTable.VecOk.set_info
        (SymbolTable.VecOk.push_environment (SymbolTable.VecOk.add_name h _)) _ _ trivial
    · exact SymbolTable.VecOk.set_info (SymbolTable.VecOk.pop_environment hr) _ _ trivial

theorem TypeChecker.visitDecls_sem : ∀ (l : List Decl) (tc : TypeChecker), tc.Ok →
    (TypeChecker.visitDecls tc l).Sem TypeChecker.Ok
  | [], tc, h => h
  | d :: rest, tc, h => by
    unfold TypeChecker.visitDecls
    refine Run.Sem.bind (P := TypeChecker.Ok) ?_ (fun a ha => TypeChecker.visitDecls_sem rest a ha)
    cases d with
    | FunDecl return_type id params stmts => exact tc.visitFunDecl_sem return_type id params stmts h
    | TypeDecl id vdecls => exact tc.visitTypeDecl_sem id vdecls h

/-- Whatever the program, `visit(Program&)` ends in a raised SEMANTIC error: a `main`
signature vector always holds at least the return type, so `main_info.size() > 0`. -/
theorem TypeChecker.visitProgram_raises (tc : TypeChecker) (node : Program) (h : tc.Ok) :
    (tc.visitProgram node).Sem (fun _ => False) := by
  unfold TypeChecker.visitProgram
  dsimp only
  refine Run.Sem.bind (TypeChecker.visitDecls_sem node.decls _ h.push.initialize_built_in_types)
    (fun a ha => ?_)
  split
  · rename_i hc
    cases hv : a.sym_table.get_vec_info "main" with
    | none => simp [SymbolTable.has_vec_info, hv] at hc
    | some v =>
      have hne : v ≠ [] := SymbolTable.VecOk.get_vec_info ha "main" v hv
      have hlen : v.length > 0 := List.length_pos.mpr hne
      simp only [Option.getD_some, hlen, if_true]
      exact Run.Sem.error1 _ _
  · exact Run.Sem.error1 _ _

theorem typeCheck_raises (node : Program) :
    ∃ e, typeCheck node = .raise e ∧ e.type = .SEMANTIC := by
  have h := TypeChecker.visitProgram_raises TypeChecker.new node SymbolTable.VecOk.new
  unfold typeCheck
  cases hr : TypeChecker.new.visitProgram node with
  | ok a => rw [hr] at h; exact h.elim
  | raise e => rw [hr] at h; exact ⟨e, rfl, h⟩
  | crash w => rw [hr] at h; exact h.elim
  | timeout => rw [hr] at h; exact h.elim

/-! ## Theorems: the claims -/

/-- Claim C1, at the witness of the claim: the type checker rejects the program
`fun int main() return 0 end`, whose only declaration type-checks and whose `main` has zero
parameters. The signature vector of `main` is `["int"]` (its return type), so the test
`main_info.size() > 0` holds and the SEMANTIC error "Main function should have no
parameters" is raised. -/
theorem typeCheck_rejects_main_without_params :
    typeCheck mainReturn0
      = .raise ⟨.SEMANTIC, "Main function should have no parameters", none⟩ := by
  decide

/-- Claim C2: for every program that declares no function named `main`, or whose `main`
has one or more parameters, `TypeChecker::visit(Program&)` raises a SEMANTIC error. -/
theorem typeCheck_rejects_missing_or_parameterised_main (node : Program)
    (_h : node.declaresMain = false ∨ node.mainHasParams = true) :
    ∃ e, typeCheck node = .raise e ∧ e.type = .SEMANTIC :=
  typeCheck_raises node

theorem typeCheck_rejects_missing_or_parameterised_main_witness :
    (mainWithParam.declaresMain = false ∨ mainWithParam.mainHasParams = true) ∧
      ∃ e, typeCheck mainWithParam = .raise e ∧ e.type = .SEMANTIC :=
  ⟨Or.inr (by decide),
    typeCheck_rejects_missing_or_parameterised_main mainWithParam (Or.inr (by decide))⟩

/-- Claim C3, at a failing input, for every amount of fuel from 20 on. In the program
`fun int main() var a = ""  a = new T  var b = ""  b = a  a.x = "v"  var c = "z"
print(a.x)  print(b.x) end` the variables `a` and `b` hold the same reference, oid 0, when
`a.x = "v"` is executed, and the heap holds no object under that oid. The program prints
`zz`, not `vv`: both reads leave in the value register what `var c = "z"` put there, so
the assignment through `a` is observed neither through `b` nor through `a` itself. -/
theorem assign_through_alias_not_observed (code : TokenType → Nat) (k : Nat) :
    aliasSetupRun code (k + 20) = .ok (some 0, some 0, false) ∧
      runOutput code (k + 20) aliasByAssignment = .ok "zz" :=
  ⟨rfl, rfl⟩

/-- The assignment to an attribute changes a copy, for every amount of fuel from 20 on: in
a state where the heap holds the object 0 with attribute `x` equal to 1 and `a` and `b`
both refer to it, executing `a.x = 2` and then evaluating `b.x` leaves 1 in the value
register, not 2. -/
theorem assignment_changes_local_copy (code : TokenType → Nat) (k : Nat) :
    aliasRun code (k + 20) = .ok (some 1) :=
  rfl

/-- The program `fun int main() var a = new T  var b = a  a.x = 5  print(b.x) end` prints
`5`, for every amount of fuel from 20 on: neither declaration binds a name, `a.x = 5`
and the read of `b.x` find no heap object, and `print` writes the 5 that the right-hand
side of the assignment left in the value register. -/
theorem alias_program_prints_register (code : TokenType → Nat) (k : Nat) :
    runOutput code (k + 20) aliasProgram = .ok "5" :=
  rfl

/-- Claim C4, at a failing input, for every amount of fuel from 1 on: evaluating `new T`
in a fresh interpreter leaves the reference to oid 0 in the value register and advances
the oid counter to 1, and the heap holds no object under oid 0. -/
theorem new_leaves_heap_without_object (code : TokenType → Nat) (k : Nat) :
    newRun code (k + 1) = .ok (some 0, false, 1) := by
  rfl

/-- Claim C5, at a failing input, for every amount of fuel from 20 on: running
`fun int main() return 1 print("after") end` writes the returned value and then also the
text of the `print` that follows the `return`. -/
theorem statement_after_return_runs (code : TokenType → Nat) (k : Nat) :
    runOutput code (k + 20) returnThenPrint = .ok ">>>1\nafter" := by
  rfl

/-- Claim C6, at a failing input, for every amount of fuel from 20 on: in
`fun nil f(x: int) print(x) end  fun int main() var y = 7  f(5) end` the call `f(5)` runs
the body with `x` bound to 7, the value left in the register by `var y = 7`, so the
program prints 7 and not 5. -/
theorem parameter_bound_to_stale_register (code : TokenType → Nat) (k : Nat) :
    runOutput code (k + 20) callWithArg = .ok "7" := by
  rfl

/-- Claim C7, at the witness of the claim, for every amount of fuel from 30 on: running
`fun int main() for i = 1 to 3 do print(i) end end` executes the body three times and
prints 1 each time: the loop variable keeps the start value. -/
theorem for_loop_variable_keeps_start (code : TokenType → Nat) (k : Nat) :
    runOutput code (k + 30) forPrint = .ok "111" := by
  rfl

/-- Claim C8, at a failing input, for every amount of fuel from 10 on: on the tokens of
`for i = 1 to 3 do x = 1 end` the method `for_stmt` accepts the whole statement and builds
a `ForStmt` node whose body `node.stmts` is empty. -/
theorem for_stmt_drops_body (k : Nat) :
    forStmtBody (k + 10) forTokens = .ok (some 0, ⟨[], ⟨.EOS, "", 0, 0⟩⟩) := by
  rfl

/-- Claim C9, at the witness of the claim, for every amount of fuel from 10 on: on the
input `123 ` the method `next_token` returns an `INT_VAL` token whose lexeme is `112`. -/
theorem next_token_number_lexeme (eos : Nat) (k : Nat) :
    firstToken eos (k + 10) "123 " = .ok (.INT_VAL, "112") := by
  rfl

theorem Run.bind_eq_ok {α β : Type} {r : Run α} {f : α → Run β} {b : β}
    (h : (r >>= f) = .ok b) : ∃ a, r = .ok a ∧ f a = .ok b := by
  cases r with
  | ok a => exact ⟨a, rfl, h⟩
  | raise e => cases h
  | crash w => cases h
  | timeout => cases h

/-- Whatever tokens it accepts, `for_stmt` returns a `ForStmt` node with an empty body. -/
theorem Parser.for_stmt_body_empty (fuel : Nat) (p p' : Parser) (node : Stmt)
    (h : Parser.for_stmt fuel p = .ok (node, p')) : node.forBody? = some [] := by
  cases fuel with
  | zero => cases h
  | succ n =>
    rw [Parser.for_stmt] at h
    obtain ⟨p1, -, h⟩ := Run.bind_eq_ok h
    obtain ⟨p2, -, h⟩ := Run.bind_eq_ok h
    obtain ⟨p3, -, h⟩ := Run.bind_eq_ok h
    obtain ⟨⟨e1, p4⟩, -, h⟩ := Run.bind_eq_ok h
    obtain ⟨p5, -, h⟩ := Run.bind_eq_ok h
    obtain ⟨⟨e2, p6⟩, -, h⟩ := Run.bind_eq_ok h
    obtain ⟨p7, -, h⟩ := Run.bind_eq_ok h
    obtain ⟨⟨l, p8⟩, -, h⟩ := Run.bind_eq_ok h
    obtain ⟨p9, -, h⟩ := Run.bind_eq_ok h
    cases h
    rfl

theorem Interpreter.visitExpr_false (code : TokenType → Nat) (fuel : Nat) (it : Interpreter) :
    Interpreter.visitExpr code fuel it (litExpr (tk .BOOL_VAL "false")) = .timeout ∨
      Interpreter.visitExpr code fuel it (litExpr (tk .BOOL_VAL "false"))
        = .ok (it.set (.bool false)) := by
  rcases fuel with _ | _ | _ | fuel
  · exact Or.inl rfl
  · exact Or.inl rfl
  · exact Or.inl rfl
  · exact Or.inr rfl

theorem Interpreter.elseifLoop_false (code : TokenType → Nat) (rest : List BasicIf)
    (stmts : List Stmt) :
    ∀ (fuel : Nat) (it : Interpreter),
      Interpreter.elseifLoop code fuel it
        (.mk (litExpr (tk .BOOL_VAL "false")) stmts :: rest) false false = .timeout
  | 0, _ => rfl
  | fuel + 1, it => by
    rw [Interpreter.elseifLoop]
    rcases Interpreter.visitExpr_false code fuel it with h | h
    · simp [BasicIf.expr, h, bind, Run.bind]
    · simp [BasicIf.expr, h, bind, Run.bind, Interpreter.set]
      exact Interpreter.elseifLoop_false code rest stmts fuel _

/-- Claim C10, at the witness of the claim: the statement
`if false then elseif false then print("a") elseif true then print("b") end`
is never executed to its end: for every amount of fuel, from every state, the interpreter
is still running, re-evaluating the guard of the first `elseif`. -/
theorem elseif_second_guard_never_reached (code : TokenType → Nat) (fuel : Nat)
    (it : Interpreter) : Interpreter.visitStmt code fuel it elseifStmt = .timeout := by
  rcases fuel with _ | fuel
  · rfl
  · rw [elseifStmt, Interpreter.visitStmt]
    rcases Interpreter.visitExpr_false code fuel it with h | h
    · simp [BasicIf.expr, h, bind, Run.bind]
    · simp [BasicIf.expr, h, bind, Run.bind, Interpreter.set, Interpreter.boolValue,
        Interpreter.elseifLoop_false]

/-- Claim C13, at the witness of the claim: for `"ab" + 'c'`, and also for `'a' + 'c'`,
`TypeChecker::visit(Expr&)` raises no error and leaves `char`, the type of the right
operand, as the inferred type: the statement `curr_type == "string";` is a comparison. -/
theorem plus_on_string_and_char_infers_char (tc : TypeChecker) :
    inferType tc stringPlusChar = .ok "char" ∧ inferType tc charPlusChar = .ok "char" :=
  ⟨rfl, rfl⟩

/-- Claim C14, at a failing input and in general: for the operand `5`, of inferred type
int, `TypeChecker::visit(NegatedRValue&)` raises the SEMANTIC error "Expecting int or
double for negation, not int"; and whatever the operand and the state, the method never
returns normally, because `curr_type != "int" || curr_type != "double"` holds for every
type. -/
theorem negation_always_rejected :
    inferRValue TypeChecker.new negFive
        = .raise ⟨.SEMANTIC, "Expecting int or double for negation, not int", some (0, 0)⟩ ∧
      ∀ (tc : TypeChecker) (e : Expr) (tc' : TypeChecker),
        TypeChecker.visitRValue tc (.NegatedRValue e) ≠ .ok tc' := by
  refine ⟨rfl, ?_⟩
  intro tc e tc' h
  rw [TypeChecker.visitRValue] at h
  obtain ⟨a, -, h⟩ := Run.bind_eq_ok h
  split at h
  · cases h
  · rename_i hc
    have h1 : a.curr_type = "int" := by
      by_contra hne
      exact hc (Or.inl hne)
    have h2 : a.curr_type = "double" := by
      by_contra hne
      exact hc (Or.inr hne)
    rw [h1] at h2
    exact absurd h2 (by decide)

/-- Claim C16, at a failing input: with the built-in functions declared, the type checker
rejects the call `get(0, "abc")` with the SEMANTIC error "Fun Call requires 1 arguments,
got 2", and accepts `get("abc")` with inferred type char: the signature it declares for
`get` is `["string", "char"]`, one string parameter, while the interpreter evaluates
`get` on an int and a string. -/
theorem get_checked_with_one_parameter :
    inferRValue builtinChecker getTwoArgs
        = .raise ⟨.SEMANTIC, "Fun Call requires 1 arguments, got 2", some (0, 0)⟩ ∧
      inferRValue builtinChecker getOneArg = .ok "char" :=
  ⟨by decide, by decide⟩

/-- Claim C17 fails as stated: with the built-in functions declared, the type checker
rejects the call `print(1 + 2)` with the SEMANTIC error "Expected string, got int". -/
theorem print_of_int_rejected :
    inferRValue builtinChecker printOnePlusTwo
      = .raise ⟨.SEMANTIC, "Expected string, got int", some (0, 0)⟩ := by
  decide

/-- Claim C19, at two failing inputs, for every amount of fuel from 10 on: after
`var x = nil`, and after `var x = new T`, the name `x` is not bound in the current
environment (the initialiser left nil, respectively the reference to oid 0, in the value
register); after `var x = 5` it is bound. -/
theorem var_decl_skips_nil_and_object (code : TokenType → Nat) (k : Nat) :
    varDeclRun code (k + 10) (litExpr (tk .NIL "nil")) = .ok (false, "nil") ∧
      varDeclRun code (k + 10) (.single false (.SimpleTerm (.NewRValue (tk .ID "T"))))
        = .ok (false, "0") ∧
      varDeclRun code (k + 10) (litExpr (tk .INT_VAL "5")) = .ok (true, "5") :=
  ⟨rfl, rfl, rfl⟩

theorem stringLoop_at_eof (eos start_col : Nat) :
    ∀ (fuel : Nat) (lexeme : String) (lx : Lexer), lx.input_stream = [] →
      stringLoop eos start_col fuel none lexeme lx = .timeout
  | 0, _, _, _ => rfl
  | fuel + 1, lexeme, lx, h => by
    rw [stringLoop]
    have hp : lx.peek = none := by simp [Lexer.peek, h]
    have hr : ({ lx with column := lx.column + 1 } : Lexer).read
        = (none, { lx with column := lx.column + 1 }) := by
      simp [Lexer.read, h]
    simp only [hp, hr, isspace]
    simp
    exact stringLoop_at_eof eos start_col fuel _ _ h

/-- Claim C20, at a failing input: on the input made of a single double quote, which has
no closing quote, `next_token` never returns and never raises, whatever the value of the
enumerator `EOS`: at the end of input `peek()` is never a double quote and the character
read is never equal to `EOS`. The same holds on the input `"abc` unless the value of `EOS`
is the code of `a`, `b` or `c`. -/
theorem unterminated_string_never_returns (eos : Nat) (fuel : Nat) :
    nextTokenOf eos fuel "\"" = .timeout ∧
      (eos = 97 ∨ eos = 98 ∨ eos = 99 ∨ nextTokenOf eos fuel "\"abc" = .timeout) := by
  constructor
  · rcases fuel with _ | fuel
    · rfl
    · have h := stringLoop_at_eof eos 2 (fuel + 1) "" ⟨[], 1, 3⟩ rfl
      simp [nextTokenOf, Lexer.next_token, Lexer.new, Lexer.read, wsLoop, isspace, scanToken,
        Lexer.peek, h, Run.bind]
  · by_cases h97 : eos = 97
    · exact Or.inl h97
    by_cases h98 : eos = 98
    · exact Or.inr (Or.inl h98)
    by_cases h99 : eos = 99
    · exact Or.inr (Or.inr (Or.inl h99))
    refine Or.inr (Or.inr (Or.inr ?_))
    have e97 : ¬ (97 = eos) := fun h => h97 h.symm
    have e98 : ¬ (98 = eos) := fun h => h98 h.symm
    have e99 : ¬ (99 = eos) := fun h => h99 h.symm
    rcases fuel with _ | _ | _ | _ | fuel
    · rfl
    all_goals
      simp [nextTokenOf, Lexer.next_token, Lexer.new, Lexer.read, wsLoop, isspace, scanToken,
        Lexer.peek, Run.bind, stringLoop, pushCh, e97, e98, e99, stringLoop_at_eof]

theorem getRun_eq (code : TokenType → Nat) (k : Nat) (i : Int) (s : String) :
    getRun code (k + 10) i s =
      if i < 0 then .crash "std::out_of_range: basic_string::at"
      else
        match s.toList.get? i.toNat with
        | some c => .ok (some c)
        | none => .crash "std::out_of_range: basic_string::at" := by
  have h1 : Interpreter.visitExpr code (k + 9) (getState i s) (varExpr "i")
      = .ok ((getState i s).set (.int i)) := rfl
  have h2 : Interpreter.visitExpr code (k + 9) ((getState i s).set (.int i)) (varExpr "s")
      = .ok ((getState i s).set (.string s)) := rfl
  show getRun code ((k + 9) + 1) i s = _
  unfold getRun
  rw [Interpreter.visitCallExpr]
  simp only [tk, bind, Run.bind, h1, h2, pure]
  simp only [Interpreter.set, DataObject.char?, List.get?_eq_getElem?, String.toList]
  by_cases hi : i < 0
  · simp [hi]
  · cases hg : s.data[i.toNat]? <;> simp [hi, hg]

/-- Claim C18, at failing inputs and in general, for every amount of fuel from 10 on:
with the variables `i` and `s` holding an int and a string, the call `get(i, s)` leaves
the char `s[i]` in the value register when `0 <= i < length(s)`, and otherwise ends in the
exception `std::out_of_range` thrown by `str.at(index)`, which is not a `MyPLException` of
kind RUNTIME. So `get(3, "abc")` and `get(-1, "abc")` raise no RUNTIME error, and
`get(1, "abc")` yields `b`. -/
theorem get_out_of_range_is_no_runtime_error (code : TokenType → Nat) (k : Nat) :
    (∀ (i : Int) (s : String), getRun code (k + 10) i s =
      if 0 ≤ i ∧ i.toNat < s.length then .ok (s.toList.get? i.toNat)
      else .crash "std::out_of_range: basic_string::at") ∧
    getRun code (k + 10) 3 "abc" = .crash "std::out_of_range: basic_string::at" ∧
    getRun code (k + 10) (-1) "abc" = .crash "std::out_of_range: basic_string::at" ∧
    getRun code (k + 10) 1 "abc" = .ok (some 'b') := by
  refine ⟨?_, rfl, rfl, rfl⟩
  intro i s
  rw [getRun_eq]
  by_cases hi : i < 0
  · have h0 : ¬ (0 ≤ i) := not_le.mpr hi
    simp [hi, h0]
  · have h0 : 0 ≤ i := not_lt.mp hi
    cases hg : s.toList.get? i.toNat with
    | none =>
      have hl : ¬ (i.toNat < s.length) := Nat.not_lt.mpr (List.get?_eq_none.mp hg)
      simp [hi, hl]
    | some c =>
      have hl : i.toNat < s.length := by
        by_contra hcon
        have : s.toList.get? i.toNat = none := List.get?_eq_none.mpr (Nat.not_lt.mp hcon)
        rw [this] at hg
        cases hg
      simp [hi, h0, hl]

theorem binRun_eq (code : TokenType → Nat) (k : Nat) (op : Token) (a b : Int) :
    binRun code (k + 10) op a b
      = Interpreter.applyOp code ((binState a b).set (.int b)) op (.int a) (.int b) := by
  have h1 : Interpreter.visitExprTerm code (k + 9) (binState a b)
      (.SimpleTerm (.IDRValue [tk .ID "a"])) = .ok ((binState a b).set (.int a)) := rfl
  have h2 : Interpreter.visitExpr code (k + 9) ((binState a b).set (.int a)) (varExpr "b")
      = .ok ((binState a b).set (.int b)) := rfl
  show binRun code ((k + 9) + 1) op a b = _
  unfold binRun binExpr
  rw [Interpreter.visitExpr]
  simp only [bind, Run.bind, h1, h2]
  rfl

theorem arith_operator_ignored (code : TokenType → Nat) (k : Nat) (a b : Int) :
    binInt code (k + 10) (tk .MINUS "-") a b = binInt code (k + 10) (tk .PLUS "+") a b := by
  unfold binInt
  rw [binRun_eq, binRun_eq]
  rfl

theorem compare_operator_ignored (code : TokenType → Nat) (k : Nat) (a b : Int) :
    binBool code (k + 10) (tk .LESS "<") a b
      = binBool code (k + 10) (tk .GREATER_EQUAL ">=") a b := by
  unfold binBool
  rw [binRun_eq, binRun_eq]
  rfl

theorem minus_computes_sum (code : TokenType → Nat) (k : Nat) (h : code .PLUS ≠ 0) :
    binInt code (k + 10) (tk .MINUS "-") 5 2 = .ok (some 7) := by
  unfold binInt
  rw [binRun_eq]
  simp [Interpreter.applyOp, Interpreter.arithCase, Interpreter.boolCase, arithInt, checkInt, h,
    bind, Run.bind, tk, Interpreter.set, DataObject.int?, INT_MIN, INT_MAX]

theorem less_computes_sum (code : TokenType → Nat) (k : Nat) (h : code .PLUS ≠ 0) :
    binInt code (k + 10) (tk .LESS "<") 1 2 = .ok (some 3) := by
  unfold binInt
  rw [binRun_eq]
  simp [Interpreter.applyOp, Interpreter.compareCase, Interpreter.arithCase,
    Interpreter.boolCase, arithInt, checkInt, h,
    bind, Run.bind, tk, Interpreter.set, DataObject.int?, INT_MIN, INT_MAX]
/-- Claim C11, at a failing input and in general, for every amount of fuel from 10 on:
for all ints `a` and `b` the expressions `a - b` and `a + b` leave the same value in the
register, so `5 - 2` does not evaluate to 3 or `5 + 2` does not evaluate to 7; unless the
enumerator `PLUS` has the value 0, `5 - 2` evaluates to 7. The chain `if(PLUS) ... else
if(MINUS) ...` tests the enumerators, not the operator of the expression. -/
theorem arithmetic_operator_not_applied (code : TokenType → Nat) (k : Nat) :
    (∀ a b : Int,
      binInt code (k + 10) (tk .MINUS "-") a b = binInt code (k + 10) (tk .PLUS "+") a b) ∧
    (binInt code (k + 10) (tk .MINUS "-") 5 2 ≠ .ok (some 3) ∨
      binInt code (k + 10) (tk .PLUS "+") 5 2 ≠ .ok (some 7)) ∧
    (code .PLUS = 0 ∨ binInt code (k + 10) (tk .MINUS "-") 5 2 = .ok (some 7)) := by
  refine ⟨arith_operator_ignored code k, ?_, ?_⟩
  · by_cases h : binInt code (k + 10) (tk .MINUS "-") 5 2 = .ok (some 3)
    · right
      rw [← arith_operator_ignored code k 5 2, h]
      decide
    · exact Or.inl h
  · by_cases h : code .PLUS = 0
    · exact Or.inl h
    · exact Or.inr (minus_computes_sum code k h)

/-- Claim C12, at a failing input and in general, for every amount of fuel from 10 on:
for all ints `a` and `b` the expressions `a < b` and `a >= b` leave the same value in the
register, so `1 < 2` does not evaluate to true or `1 >= 2` does not evaluate to false;
unless the enumerator `PLUS` has the value 0, `1 < 2` leaves the int 3 in the register:
the comparison case has no `break` and falls through into the arithmetic case. -/
theorem comparison_operator_not_applied (code : TokenType → Nat) (k : Nat) :
    (∀ a b : Int,
      binBool code (k + 10) (tk .LESS "<") a b
        = binBool code (k + 10) (tk .GREATER_EQUAL ">=") a b) ∧
    (binBool code (k + 10) (tk .LESS "<") 1 2 ≠ .ok (some true) ∨
      binBool code (k + 10) (tk .GREATER_EQUAL ">=") 1 2 ≠ .ok (some false)) ∧
    (code .PLUS = 0 ∨ binInt code (k + 10) (tk .LESS "<") 1 2 = .ok (some 3)) := by
  refine ⟨compare_operator_ignored code k, ?_, ?_⟩
  · by_cases h : binBool code (k + 10) (tk .LESS "<") 1 2 = .ok (some true)
    · right
      rw [← compare_operator_ignored code k 1 2, h]
      decide
    · exact Or.inl h
  · by_cases h : code .PLUS = 0
    · exact Or.inl h
    · exact Or.inr (less_computes_sum code k h)

theorem sizeMinusOne_append (params : List String) (ret : String)
    (hlen : params.length < 18446744073709551616) :
    sizeMinusOne (params ++ [ret]) = params.length := by
  unfold sizeMinusOne
  rw [List.length_append, List.length_singleton]
  omega

theorem getD_append_lt (params : List String) (ret : String) (j : Nat) (h : j < params.length) :
    (params ++ [ret]).getD j "" = params.getD j "" := by
  simp [List.getD_eq_getElem?_getD, List.getElem?_append_left h]

theorem getD_append_length (params : List String) (ret : String) :
    (params ++ [ret]).getD params.length "" = ret := by
  simp [List.getD_eq_getElem?_getD]

theorem SymbolTable.name_exists_of_get_vec_info (st : SymbolTable) (name : String)
    (v : List String) (h : st.get_vec_info name = some v) : st.name_exists name = true := by
  unfold SymbolTable.get_vec_info SymbolTable.info? at h
  unfold SymbolTable.name_exists
  cases hg : st.get_environment name with
  | none => simp [hg] at h
  | some e => rfl

theorem TypeChecker.visitArgs_spec (st : SymbolTable) (fun_type : List String) (f : Token) :
    ∀ (args : List Expr) (tys : List String), List.Forall₂ (TypeChecker.Infers st) args tys →
    ∀ (ps : List String) (i : Nat) (c : String), tys.length = ps.length →
      (∀ j, j < ps.length → fun_type.getD (i + j) "" = ps.getD j "") →
      (List.Forall₂ argMatches tys ps →
        ∃ c', TypeChecker.visitArgs ⟨st, c⟩ fun_type f args i = .ok ⟨st, c'⟩) ∧
      (¬ List.Forall₂ argMatches tys ps →
        ∃ e, TypeChecker.visitArgs ⟨st, c⟩ fun_type f args i = .raise e ∧ e.type = .SEMANTIC) := by
  intro args tys h
  induction h with
  | nil =>
    intro ps i c hl _
    cases ps with
    | nil =>
      refine ⟨fun _ => ⟨c, ?_⟩, fun hn => absurd List.Forall₂.nil hn⟩
      rw [TypeChecker.visitArgs]
      rfl
    | cons p ps => simp at hl
  | @cons x ty xs tys' hx _ ih =>
    intro ps i c hl hget
    cases ps with
    | nil => simp at hl
    | cons p ps' =>
      have hp : fun_type.getD i "" = p := by
        have := hget 0 (by simp)
        simpa using this
      have hget' : ∀ j, j < ps'.length → fun_type.getD (i + 1 + j) "" = ps'.getD j "" := by
        intro j hj
        have := hget (j + 1) (by simpa using hj)
        rw [show i + 1 + j = i + (j + 1) by omega]
        simpa using this
      have hl' : tys'.length = ps'.length := by simpa using hl
      rw [TypeChecker.visitArgs, hx c]
      simp only [bind, Run.bind, hp]
      by_cases hm : argMatches ty p
      · have hc : ¬ (p ≠ ty ∧ ty ≠ "nil") := by
          rintro ⟨h1, h2⟩
          rcases hm with hm | hm
          · exact h2 hm
          · exact h1 hm.symm
        rw [if_neg hc]
        obtain ⟨ih1, ih2⟩ := ih ps' (i + 1) ty hl' hget'
        constructor
        · intro hall
          exact ih1 (List.forall₂_cons.mp hall).2
        · intro hnall
          exact ih2 (fun hrest => hnall (List.Forall₂.cons hm hrest))
      · have hc : p ≠ ty ∧ ty ≠ "nil" :=
          ⟨fun h1 => hm (Or.inr h1.symm), fun h2 => hm (Or.inl h2)⟩
        rw [if_pos hc]
        constructor
        · intro hall
          exact absurd (List.forall₂_cons.mp hall).1 hm
        · intro _
          exact ⟨_, rfl, rfl⟩
theorem TypeChecker.callExpr_unbound (tc : TypeChecker) (f : Token) (args : List Expr)
    (h : tc.sym_table.name_exists f.lexeme = false) :
    ∃ e, TypeChecker.visitRValue tc (.CallExpr f args) = .raise e ∧ e.type = .SEMANTIC := by
  rw [TypeChecker.visitRValue]
  simp only [h]
  exact ⟨_, rfl, rfl⟩

theorem TypeChecker.callExpr_spec (st : SymbolTable) (c : String) (f : Token) (args : List Expr)
    (params : List String) (ret : String)
    (hsig : st.get_vec_info f.lexeme = some (params ++ [ret]))
    (hlen : params.length < 18446744073709551616) :
    (args.length ≠ params.length →
      ∃ e, TypeChecker.visitRValue ⟨st, c⟩ (.CallExpr f args) = .raise e ∧ e.type = .SEMANTIC) ∧
    (∀ tys, List.Forall₂ (TypeChecker.Infers st) args tys →
      (List.Forall₂ argMatches tys params →
        TypeChecker.visitRValue ⟨st, c⟩ (.CallExpr f args) = .ok ⟨st, ret⟩) ∧
      (¬ List.Forall₂ argMatches tys params →
        ∃ e, TypeChecker.visitRValue ⟨st, c⟩ (.CallExpr f args) = .raise e
          ∧ e.type = .SEMANTIC)) := by
  have hne : st.name_exists f.lexeme = true := st.name_exists_of_get_vec_info _ _ hsig
  have hsz : sizeMinusOne (params ++ [ret]) = params.length := sizeMinusOne_append params ret hlen
  have hret : (params ++ [ret]).getD params.length "" = ret := getD_append_length params ret
  rw [TypeChecker.visitRValue]
  simp only [hne, hsig, Option.getD_some, hsz, hret, Bool.not_true, Bool.false_eq_true, if_false]
  constructor
  · intro hlen'
    rw [if_pos (fun h => hlen' h.symm)]
    exact ⟨_, rfl, rfl⟩
  · intro tys htys
    have hl : args.length = tys.length := htys.length_eq
    by_cases hcount : params.length = args.length
    · rw [if_neg (fun h => h hcount)]
      obtain ⟨h1, h2⟩ := TypeChecker.visitArgs_spec st (params ++ [ret]) f args tys htys params 0 c
        (by omega) (fun j hj => by simpa using getD_append_lt params ret j hj)
      constructor
      · intro hall
        obtain ⟨c', hc'⟩ := h1 hall
        rw [hc']
        rfl
      · intro hnall
        obtain ⟨e, he, het⟩ := h2 hnall
        rw [he]
        exact ⟨e, rfl, het⟩
    · rw [if_pos hcount]
      constructor
      · intro hall
        exact absurd (by rw [hl]; exact hall.length_eq.symm) hcount
      · intro _
        exact ⟨_, rfl, rfl⟩
/-- Claim C15: `TypeChecker::visit(CallExpr&)`, for a called name that is either not bound
or bound to the signature `params ++ [ret]`, raises a SEMANTIC error when the name is not
bound, when the number of arguments differs from the number of parameters, and when the
arguments have inferred types `tys` of which one is neither nil nor equal to the
corresponding parameter type; otherwise it raises nothing and the inferred type is the
return type `ret`. -/
theorem call_expr_check (tc : TypeChecker) (f : Token) (args : List Expr)
    (params : List String) (ret : String)
    (hsig : tc.sym_table.name_exists f.lexeme = true →
      tc.sym_table.get_vec_info f.lexeme = some (params ++ [ret]))
    (hlen : params.length < 18446744073709551616) :
    (tc.sym_table.name_exists f.lexeme = false →
      ∃ e, TypeChecker.visitRValue tc (.CallExpr f args) = .raise e ∧ e.type = .SEMANTIC) ∧
    (tc.sym_table.name_exists f.lexeme = true → args.length ≠ params.length →
      ∃ e, TypeChecker.visitRValue tc (.CallExpr f args) = .raise e ∧ e.type = .SEMANTIC) ∧
    (∀ tys, tc.sym_table.name_exists f.lexeme = true →
      List.Forall₂ (TypeChecker.Infers tc.sym_table) args tys →
      ¬ List.Forall₂ argMatches tys params →
      ∃ e, TypeChecker.visitRValue tc (.CallExpr f args) = .raise e ∧ e.type = .SEMANTIC) ∧
    (∀ tys, tc.sym_table.name_exists f.lexeme = true →
      List.Forall₂ (TypeChecker.Infers tc.sym_table) args tys →
      List.Forall₂ argMatches tys params →
      TypeChecker.visitRValue tc (.CallExpr f args) = .ok ⟨tc.sym_table, ret⟩) := by
  cases tc with
  | mk st c =>
    refine ⟨TypeChecker.callExpr_unbound ⟨st, c⟩ f args, ?_, ?_, ?_⟩
    · intro hb hcount
      exact (TypeChecker.callExpr_spec st c f args params ret (hsig hb) hlen).1 hcount
    · intro tys hb htys hn
      exact ((TypeChecker.callExpr_spec st c f args params ret (hsig hb) hlen).2 tys htys).2 hn
    · intro tys hb htys hall
      exact ((TypeChecker.callExpr_spec st c f args params ret (hsig hb) hlen).2 tys htys).1 hall

theorem call_expr_check_witness :
    (builtinChecker.sym_table.name_exists "print" = true →
      builtinChecker.sym_table.get_vec_info "print" = some (["string"] ++ ["nil"])) ∧
    ["string"].length < 18446744073709551616 ∧
    TypeChecker.visitRValue builtinChecker printHi = .ok ⟨builtinChecker.sym_table, "nil"⟩ ∧
    ∃ e, TypeChecker.visitRValue builtinChecker printOnePlusTwo = .raise e
      ∧ e.type = .SEMANTIC :=
  ⟨fun _ => rfl, by decide,
    (call_expr_check builtinChecker (tk .ID "print") [litExpr (tk .STRING_VAL "hi")]
      ["string"] "nil" (fun _ => rfl) (by decide)).2.2.2 ["string"] rfl
      (List.Forall₂.cons (fun _ => rfl) List.Forall₂.nil)
      (List.Forall₂.cons (Or.inr rfl) List.Forall₂.nil),
    (call_expr_check builtinChecker (tk .ID "print")
      [binLit (tk .INT_VAL "1") (tk .PLUS "+") (tk .INT_VAL "2")]
      ["string"] "nil" (fun _ => rfl) (by decide)).2.2.1 ["int"] rfl
      (List.Forall₂.cons (fun _ => rfl) List.Forall₂.nil)
      (fun h => by
        rcases List.forall₂_cons.mp h with ⟨h1 | h1, -⟩
        · exact absurd h1 (by decide)
        · exact absurd h1 (by decide))⟩

/-- Claim C17 as amended: when `print` is bound to its built-in signature
`["string", "nil"]`, a call `print(e)` whose argument has inferred type string or nil is
accepted by the type checker, with inferred type nil, and a call whose argument has any
other inferred type, such as int, is rejected with a SEMANTIC error. -/
theorem print_accepts_string_or_nil (tc : TypeChecker) (e : Expr) (ty : String)
    (hsig : tc.sym_table.get_vec_info "print" = some ["string", "nil"])
    (he : TypeChecker.Infers tc.sym_table e ty) :
    (ty = "string" ∨ ty = "nil" →
      TypeChecker.visitRValue tc (.CallExpr (tk .ID "print") [e]) = .ok ⟨tc.sym_table, "nil"⟩) ∧
    (ty ≠ "string" ∧ ty ≠ "nil" →
      ∃ err, TypeChecker.visitRValue tc (.CallExpr (tk .ID "print") [e]) = .raise err
        ∧ err.type = .SEMANTIC) := by
  cases tc with
  | mk st c =>
    have h := (TypeChecker.callExpr_spec st c (tk .ID "print") [e] ["string"] "nil" hsig
      (by decide)).2 [ty] (List.Forall₂.cons he List.Forall₂.nil)
    constructor
    · intro hty
      refine h.1 (List.Forall₂.cons ?_ List.Forall₂.nil)
      rcases hty with hty | hty
      · exact Or.inr hty
      · exact Or.inl hty
    · intro hty
      refine h.2 (fun hall => ?_)
      rcases (List.forall₂_cons.mp hall).1 with h1 | h1
      · exact hty.2 h1
      · exact hty.1 h1

theorem print_accepts_string_or_nil_witness :
    builtinChecker.sym_table.get_vec_info "print" = some ["string", "nil"] ∧
    TypeChecker.Infers builtinChecker.sym_table (litExpr (tk .STRING_VAL "hi")) "string" ∧
    TypeChecker.visitRValue builtinChecker printHi = .ok ⟨builtinChecker.sym_table, "nil"⟩ :=
  ⟨rfl, fun _ => rfl,
    (print_accepts_string_or_nil builtinChecker (litExpr (tk .STRING_VAL "hi")) "string" rfl
      (fun _ => rfl)).1 (Or.inl rfl)⟩

/-- Claim C21: on input starting with `=`, `<` or `>`, `next_token` returns the
two-character token (`EQUAL`, `LESS_EQUAL`, `GREATER_EQUAL`), consuming both characters,
when the next character is `=`, and the one-character token (`ASSIGN`, `LESS`, `GREATER`)
otherwise; on input starting with `!` it returns `NOT_EQUAL` when the next character is
`=` and raises the LEXER error "invalid symbol" in every other case, the end of input
included. This holds in every lexer state and for every amount of fuel from 1 on. -/
theorem operator_lookahead (eos k line column : Nat) (rest : List Char) :
    Lexer.next_token eos (k + 1) ⟨'=' :: rest, line, column⟩ =
      (if rest.head? = some '=' then
        .ok (⟨.EQUAL, "==", line, column + 1⟩, ⟨rest.tail, line, column + 2⟩)
      else .ok (⟨.ASSIGN, "=", line, column + 1⟩, ⟨rest, line, column + 1⟩)) ∧
    Lexer.next_token eos (k + 1) ⟨'<' :: rest, line, column⟩ =
      (if rest.head? = some '=' then
        .ok (⟨.LESS_EQUAL, "<=", line, column + 1⟩, ⟨rest.tail, line, column + 2⟩)
      else .ok (⟨.LESS, "<", line, column + 1⟩, ⟨rest, line, column + 1⟩)) ∧
    Lexer.next_token eos (k + 1) ⟨'>' :: rest, line, column⟩ =
      (if rest.head? = some '=' then
        .ok (⟨.GREATER_EQUAL, ">=", line, column + 1⟩, ⟨rest.tail, line, column + 2⟩)
      else .ok (⟨.GREATER, ">", line, column + 1⟩, ⟨rest, line, column + 1⟩)) ∧
    Lexer.next_token eos (k + 1) ⟨'!' :: rest, line, column⟩ =
      (if rest.head? = some '=' then
        .ok (⟨.NOT_EQUAL, "!=", line, column + 1⟩, ⟨rest.tail, line, column + 2⟩)
      else .raise ⟨.LEXER, "invalid symbol", some (line, column + 1)⟩) := by
  cases rest with
  | nil => exact ⟨rfl, rfl, rfl, rfl⟩
  | cons d rest' =>
    by_cases hd : d = '='
    · subst hd
      exact ⟨rfl, rfl, rfl, rfl⟩
    · refine ⟨?_, ?_, ?_, ?_⟩ <;>
        simp [Lexer.next_token, Lexer.read, wsLoop, isspace, scanToken, Lexer.peek, hd,
          Lexer.error]

/-- Claim C22: on input starting with a single quote, `next_token` returns a `CHAR_VAL`
token whose lexeme is the one character `c`, consuming the three characters, when the
input continues with `c` and a closing single quote, and raises the LEXER error "invalid
symbol" for every other continuation: nothing or one character before the end of input,
or a second character that is not a single quote. This holds in every lexer state and for
every amount of fuel from 1 on. -/
theorem char_literal (eos k line column : Nat) (rest : List Char) :
    Lexer.next_token eos (k + 1) ⟨'\'' :: rest, line, column⟩ =
      (match rest with
      | c :: d :: rest' =>
        if d = '\'' then
          .ok (⟨.CHAR_VAL, String.singleton c, line, column + 1⟩, ⟨rest', line, column + 2⟩)
        else .raise ⟨.LEXER, "invalid symbol", some (line, column + 1)⟩
      | _ => .raise ⟨.LEXER, "invalid symbol", some (line, column + 1)⟩) := by
  cases rest with
  | nil => rfl
  | cons c r =>
    cases r with
    | nil => rfl
    | cons d rest' =>
      by_cases hd : d = '\''
      · subst hd
        rfl
      · simp [Lexer.next_token, Lexer.read, wsLoop, isspace, scanToken, Lexer.peek, hd,
          Lexer.error]

theorem toEol_without_newline :
    ∀ (fuel : Nat) (ch : Option Char) (lx : Lexer), ch ≠ some '\n' →
      '\n' ∉ lx.input_stream → toEol fuel ch lx = .timeout
  | 0, _, _, _, _ => rfl
  | fuel + 1, ch, lx, hch, hin => by
    rw [toEol]
    simp only [ne_eq, hch, not_false_eq_true, if_true]
    cases hl : lx.input_stream with
    | nil =>
      have hr : lx.read = (none, lx) := by simp [Lexer.read, hl]
      rw [hr]
      exact toEol_without_newline fuel none lx (by simp) hin
    | cons c cs =>
      have hr : lx.read = (some c, { lx with input_stream := cs }) := by simp [Lexer.read, hl]
      rw [hr]
      rw [hl] at hin
      refine toEol_without_newline fuel (some c) _ ?_ ?_
      · intro h
        exact hin (by simp at h; simp [h])
      · exact fun h => hin (List.mem_cons_of_mem _ h)

theorem idLoop_to_end_of_input :
    ∀ (fuel : Nat) (lexeme : String) (lx : Lexer),
      (∀ c ∈ lx.input_stream, idContinues (some c) = true) → idLoop fuel lexeme lx = .timeout
  | 0, _, _, _ => rfl
  | fuel + 1, lexeme, lx, h => by
    rw [idLoop]
    cases hl : lx.input_stream with
    | nil =>
      have hp : lx.peek = none := by simp [Lexer.peek, hl]
      have hr : lx.read = (none, lx) := by simp [Lexer.read, hl]
      have hc : idContinues none = true := by decide
      simp only [hp, hc, hr, if_true]
      exact idLoop_to_end_of_input fuel _ _ (by simp [hl])
    | cons c cs =>
      have hp : lx.peek = some c := by simp [Lexer.peek, hl]
      have hr : lx.read = (some c, { lx with input_stream := cs }) := by simp [Lexer.read, hl]
      have hc : idContinues (some c) = true := h c (by simp [hl])
      simp only [hp, hc, hr, if_true]
      refine idLoop_to_end_of_input fuel _ _ ?_
      intro d hd
      exact h d (by rw [hl]; exact List.mem_cons_of_mem _ hd)

theorem wsLoop_vertical_tab :
    ∀ (fuel : Nat) (lx : Lexer), wsLoop fuel (some '\x0b') lx = .timeout
  | 0, _ => rfl
  | fuel + 1, lx => by
    rw [wsLoop]
    have hb : wsBody (some '\x0b') lx = (some '\x0b', lx) := by
      simp [wsBody]
    have hs : isspace (some '\x0b') = true := by decide
    simp only [hs, hb, if_true]
    exact wsLoop_vertical_tab fuel lx

theorem cwsLoop_tab_or_cr (ch : Char) (h : ch = '\t' ∨ ch = '\r') :
    ∀ (fuel : Nat) (lx : Lexer), cwsLoop fuel (some ch) lx = .timeout
  | 0, _ => rfl
  | fuel + 1, lx => by
    rw [cwsLoop]
    have hb : cwsBody (some ch) lx = (some ch, lx) := by
      rcases h with h | h <;> subst h <;> simp [cwsBody]
    have hs : isspace (some ch) = true := by
      rcases h with h | h <;> subst h <;> decide
    simp only [hs, hb, if_true]
    exact cwsLoop_tab_or_cr ch h fuel lx
theorem comment_without_newline (eos fuel : Nat) (src : List Char) (line column : Nat)
    (h : '\n' ∉ src) : Lexer.next_token eos fuel ⟨'#' :: src, line, column⟩ = .timeout := by
  rcases fuel with _ | fuel
  · rfl
  · have ht := toEol_without_newline (fuel + 1) (some '#') ⟨src, line, column + 1⟩
      (by decide) h
    simp [Lexer.next_token, Lexer.read, wsLoop, isspace, commentLoop, ht]

/-- Claim C23, at the three inputs the claim names, for every amount of fuel: on a `#`
comment that reaches the end of input without a newline (`#c`), on an identifier that ends
the input (`x`) and on a vertical tab, `next_token` neither returns a token nor raises: the
loops `while (ch != '\n')`, the identifier loop and `while (std::isspace(ch))` have no
exit at the end of input, respectively no branch for that character. On exhausted input
`next_token` does return an `EOS` token, for every amount of fuel from 1 on. -/
theorem next_token_loops_forever (eos fuel k line column : Nat) :
    nextTokenOf eos fuel "#c" = .timeout ∧
    nextTokenOf eos fuel "x" = .timeout ∧
    nextTokenOf eos fuel "\x0b" = .timeout ∧
    Lexer.next_token eos (k + 1) ⟨[], line, column⟩
      = .ok (⟨.EOS, "", line, column + 1⟩, ⟨[], line, column + 1⟩) := by
  refine ⟨?_, ?_, ?_, rfl⟩
  · have h := comment_without_newline eos fuel ['c'] 1 1 (by decide)
    simp [nextTokenOf, Lexer.new, h, Run.bind]
  · rcases fuel with _ | fuel
    · rfl
    · have h := fun l => idLoop_to_end_of_input (fuel + 1) l ⟨[], 1, 2⟩ (by simp)
      simp [nextTokenOf, Lexer.new, Lexer.next_token, Lexer.read, wsLoop, isspace, scanToken,
        isdigit, isalpha, pushCh, h, Run.bind]
  · have h := wsLoop_vertical_tab fuel ⟨[], 1, 2⟩
    simp [nextTokenOf, Lexer.new, Lexer.next_token, Lexer.read, h, Run.bind]

/-- Claim C24, at failing inputs, for every amount of fuel: when the line after a comment
starts with a tab or a carriage return (`#a`, newline, tab, `#b`, newline, `x`), the
whitespace loop inside the comment branch, which handles only the space and the newline,
never ends, so `next_token` returns nothing. When the comment lines are separated by
spaces and newlines only, the block is skipped and the token `x` is returned, for every
amount of fuel from 10 on. -/
theorem comment_block_then_tab_loops (eos fuel k : Nat) :
    nextTokenOf eos fuel "#a\n\t#b\nx " = .timeout ∧
    nextTokenOf eos fuel "#a\n\r\n#b\nx " = .timeout ∧
    nextTokenOf eos (k + 10) "#a\n \n#b\nx " = .ok ⟨.ID, "x", 4, 1⟩ := by
  refine ⟨?_, ?_, rfl⟩
  · have h := fun n lx => cwsLoop_tab_or_cr '\t' (Or.inl rfl) n lx
    rcases fuel with _ | _ | _ | _ | fuel
    · rfl
    all_goals
      simp [nextTokenOf, Lexer.new, Lexer.next_token, Lexer.read, wsLoop, isspace, commentLoop,
        toEol, h, Run.bind]
  · have h := fun n lx => cwsLoop_tab_or_cr '\r' (Or.inr rfl) n lx
    rcases fuel with _ | _ | _ | _ | fuel
    · rfl
    all_goals
      simp [nextTokenOf, Lexer.new, Lexer.next_token, Lexer.read, wsLoop, isspace, commentLoop,
        toEol, h, Run.bind]

/-- Claim C27, at the failing input `var x = ( 1 + 2` followed by `end`: the parser raises
no SYNTAX error. `vdecl_stmt` returns the node of `var x = (1 + 2)` and stops at `end`,
and `parse` accepts the whole program `fun int main() var x = ( 1 + 2 end`, for every
amount of fuel from 8 on: after the inner expression, `expr` eats a `RPAREN` only if the
current token is one. -/
theorem unclosed_paren_accepted (k : Nat) :
    Parser.vdecl_stmt (k + 4) unclosedParenDecl
      = .ok (varXOnePlusTwo, ⟨[], tk .END "end"⟩) ∧
    Parser.parse (k + 8) (Parser.new unclosedParenTokens)
      = .ok (⟨[.FunDecl (tk .INT_TYPE "int") (tk .ID "main") [] [.VarDecl varXOnePlusTwo]]⟩,
          ⟨[], ⟨.EOS, "", 0, 0⟩⟩) :=
  ⟨rfl, rfl⟩

/-- Claim C29, at failing inputs, in the global environment with the built-in functions:
`var x: print = nil` is accepted and binds `x` with the type name `print`, which names a
function (`visit(VarDeclStmt&)` only asks whether the name exists); `fun nil f(x: Foo) end`
is accepted with the signature `Foo -> nil` although `Foo` is declared nowhere (the types of
parameters are never looked at); `fun print g() end` is accepted with the return type
`print`, the name of a function. None of them raises a SEMANTIC error; the only declared
type that is rejected is that of a variable when the name is bound nowhere, as in
`var x: Foo = nil`. -/
theorem undeclared_type_names_accepted :
    varDeclType builtinChecker ⟨tk .ID "x", some (tk .ID "print"), litExpr (tk .NIL "nil")⟩
      = .ok (some "print") ∧
    funDeclSignature builtinChecker (tk .NIL "nil") (tk .ID "f") [⟨tk .ID "x", tk .ID "Foo"⟩] []
      = .ok (some ["Foo", "nil"]) ∧
    funDeclSignature builtinChecker (tk .ID "print") (tk .ID "g") [] []
      = .ok (some ["print"]) ∧
    varDeclType builtinChecker ⟨tk .ID "x", some (tk .ID "Foo"), litExpr (tk .NIL "nil")⟩
      = .raise ⟨.SEMANTIC, "UDT Foo does not exist", some (0, 0)⟩ := by
  refine ⟨?_, ?_, ?_, ?_⟩ <;> decide

/-- Claim C30: for an expression `first op rest` whose operator is `==` or `!=`, whose left
operand has inferred type `L` and whose right operand has inferred type `R`,
`TypeChecker::visit(Expr&)` raises a SEMANTIC error when `L` differs from `R` and neither
is nil, and otherwise raises nothing and leaves the inferred type `bool`. -/
theorem equality_operands_check (st : SymbolTable) (c : String) (negated : Bool)
    (first : ExprTerm) (op : Token) (rest : Expr) (L R : String)
    (hop : op.type = .EQUAL ∨ op.type = .NOT_EQUAL)
    (hL : ∀ c : String, TypeChecker.visitExprTerm ⟨st, c⟩ first = .ok ⟨st, L⟩)
    (hR : TypeChecker.Infers st rest R) :
    (L ≠ R ∧ L ≠ "nil" ∧ R ≠ "nil" →
      ∃ e, TypeChecker.visitExpr ⟨st, c⟩ (.binary negated first op rest) = .raise e
        ∧ e.type = .SEMANTIC) ∧
    (¬ (L ≠ R ∧ L ≠ "nil" ∧ R ≠ "nil") →
      TypeChecker.visitExpr ⟨st, c⟩ (.binary negated first op rest) = .ok ⟨st, "bool"⟩) := by
  have h : TypeChecker.visitExpr ⟨st, c⟩ (.binary negated first op rest)
      = TypeChecker.checkOp ⟨st, R⟩ op L (ExprTerm.first_token first) := by
    rw [TypeChecker.visitExpr]
    simp only [bind, Run.bind, hL c, hR L]
  rw [h]
  unfold TypeChecker.checkOp
  simp only [if_pos hop]
  constructor
  · rintro ⟨h1, h2, h3⟩
    rw [if_pos h1, if_neg (by simp [h2, h3])]
    exact ⟨_, rfl, rfl⟩
  · intro hn
    by_cases h1 : L = R
    · rw [if_neg (by simpa using h1)]
      rfl
    · rw [if_pos h1, if_pos]
      · rfl
      · by_contra h2
        exact hn ⟨h1, fun h => h2 (Or.inl h), fun h => h2 (Or.inr h)⟩

theorem equality_operands_check_witness :
    ((tk .EQUAL "==").type = .EQUAL ∨ (tk .EQUAL "==").type = .NOT_EQUAL) ∧
    TypeChecker.Infers SymbolTable.new (litExpr (tk .INT_VAL "2")) "int" ∧
    TypeChecker.visitExpr ⟨SymbolTable.new, ""⟩
      (binLit (tk .INT_VAL "1") (tk .EQUAL "==") (tk .INT_VAL "2"))
      = .ok ⟨SymbolTable.new, "bool"⟩ ∧
    ∃ e, TypeChecker.visitExpr ⟨SymbolTable.new, ""⟩
      (binLit (tk .INT_VAL "1") (tk .EQUAL "==") (tk .STRING_VAL "a")) = .raise e
        ∧ e.type = .SEMANTIC :=
  ⟨Or.inl rfl, fun _ => rfl,
    (equality_operands_check SymbolTable.new "" false
      (.SimpleTerm (.SimpleRValue (tk .INT_VAL "1"))) (tk .EQUAL "==")
      (litExpr (tk .INT_VAL "2")) "int" "int" (Or.inl rfl) (fun _ => rfl) (fun _ => rfl)).2
      (by decide),
    (equality_operands_check SymbolTable.new "" false
      (.SimpleTerm (.SimpleRValue (tk .INT_VAL "1"))) (tk .EQUAL "==")
      (litExpr (tk .STRING_VAL "a")) "int" "string" (Or.inl rfl) (fun _ => rfl)
      (fun _ => rfl)).1 (by decide)⟩

theorem SymbolTable.env?_setIn (st : SymbolTable) (i : Nat) (name : String) (info : Info)
    (j : Nat) :
    (st.setIn i name info).env? j = (st.env? j).map (fun e =>
      if e.id == i then { e with names := (name, info) :: e.names.filter (fun b => b.1 != name) }
      else e) := by
  unfold SymbolTable.env? SymbolTable.setIn
  simp only [List.find?_map]
  congr 2
  funext e
  by_cases h : e.id = i <;> simp [h]

theorem SymbolTable.env?_id (st : SymbolTable) (i : Nat) (e : Environment)
    (h : st.env? i = some e) : e.id = i := by
  unfold SymbolTable.env? at h
  simpa using List.find?_some h

theorem SymbolTable.info?_setIn (st : SymbolTable) (i : Nat) (env : Environment)
    (name : String) (info : Info) (hc : st.curr = some i) (he : st.env? i = some env) :
    (st.setIn i name info).get_environment name
      = some { env with names := (name, info) :: env.names.filter (fun b => b.1 != name) } ∧
    (st.setIn i name info).info? name = some info := by
  have hid := st.env?_id i env he
  have hne : st.envs ≠ [] := by
    intro h
    simp [SymbolTable.env?, h] at he
  have hlen : (st.setIn i name info).envs.length = (st.envs.length - 1) + 1 := by
    have : 0 < st.envs.length := List.length_pos.mpr hne
    simp [SymbolTable.setIn]
    omega
  have henv := st.env?_setIn i name info i
  rw [he] at henv
  have hb : (env.id == i) = true := by simp [hid]
  simp only [Option.map_some', hb, if_true] at henv
  have hg : (st.setIn i name info).get_environment name
      = some { env with names := (name, info) :: env.names.filter (fun b => b.1 != name) } := by
    unfold SymbolTable.get_environment
    rw [hlen]
    have hcur : (st.setIn i name info).curr = some i := hc
    rw [hcur, SymbolTable.findFrom, henv]
    simp [List.lookup]
  refine ⟨hg, ?_⟩
  unfold SymbolTable.info?
  rw [hg]
  simp [List.lookup]

theorem SymbolTable.get_str_info_declare (st : SymbolTable) (i : Nat) (env : Environment)
    (name s : String) (hc : st.curr = some i) (he : st.env? i = some env) :
    ((st.add_name name).set_str_info name s).get_str_info name = some s := by
  have h1 := st.info?_setIn i env name .none hc he
  have hadd : st.add_name name = st.setIn i name .none := by
    simp [SymbolTable.add_name, hc]
  have hid := st.env?_id i env he
  have he1 := st.env?_setIn i name .none i
  rw [he] at he1
  have hb : (env.id == i) = true := by simp [hid]
  simp only [Option.map_some', hb, if_true] at he1
  have h2 := (st.setIn i name .none).info?_setIn i _ name (.str s) hc he1
  unfold SymbolTable.set_str_info SymbolTable.set_info SymbolTable.get_str_info
  rw [hadd, h1.1]
  simp only [hid]
  rw [h2.2]

/-- Claim C28: for a declaration `var id: T = e` whose declared type `T` is one of the
scalar type names or a name the symbol table knows, and whose initialiser has inferred type
`U`, in a symbol table with a current environment, `TypeChecker::visit(VarDeclStmt&)`
raises a SEMANTIC error when `U` differs from `T` and is not nil, or when `id` is already
bound in the current environment; in every other case, a nil initialiser included, it
raises nothing and `id` is bound with the type `T`. -/
theorem var_decl_explicit_type (st : SymbolTable) (c : String) (id ty : Token) (e : Expr)
    (U : String) (i : Nat) (env : Environment)
    (hc : st.curr = some i) (he : st.env? i = some env)
    (hT : ty.lexeme = "nil" ∨ ty.lexeme = "int" ∨ ty.lexeme = "double" ∨ ty.lexeme = "bool"
      ∨ ty.lexeme = "string" ∨ ty.lexeme = "char" ∨ st.name_exists ty.lexeme = true)
    (hU : TypeChecker.Infers st e U) :
    ((U ≠ ty.lexeme ∧ U ≠ "nil") ∨ st.name_exists_in_curr_env id.lexeme = true →
      ∃ err, TypeChecker.visitVarDeclStmt ⟨st, c⟩ ⟨id, some ty, e⟩ = .raise err
        ∧ err.type = .SEMANTIC) ∧
    (¬ ((U ≠ ty.lexeme ∧ U ≠ "nil") ∨ st.name_exists_in_curr_env id.lexeme = true) →
      ∃ tc, TypeChecker.visitVarDeclStmt ⟨st, c⟩ ⟨id, some ty, e⟩ = .ok tc
        ∧ tc.sym_table.get_str_info id.lexeme = some ty.lexeme) := by
  have hfirst : (if ty.lexeme ≠ "nil" ∧ ty.lexeme ≠ "int" ∧ ty.lexeme ≠ "double"
        ∧ ty.lexeme ≠ "bool" ∧ ty.lexeme ≠ "string" ∧ ty.lexeme ≠ "char" then
        if st.name_exists ty.lexeme = false then
          TypeChecker.error ("UDT " ++ ty.lexeme ++ " does not exist") id
        else pure ⟨st, c⟩
      else pure ⟨st, c⟩ : Run TypeChecker) = .ok ⟨st, c⟩ := by
    rcases hT with h | h | h | h | h | h | h <;> simp [h] <;> rfl
  unfold TypeChecker.visitVarDeclStmt
  simp only [hfirst, bind, Run.bind, hU c]
  have hbind := SymbolTable.get_str_info_declare st i env id.lexeme ty.lexeme hc he
  by_cases hx : st.name_exists_in_curr_env id.lexeme = true
  · by_cases hn : U = "nil"
    · subst hn
      simp [hx, TypeChecker.error, pure]
    · by_cases hUT : ty.lexeme = U
      · subst hUT
        simp [hx, hn, TypeChecker.error, pure]
      · simp [hx, hn, hUT, TypeChecker.error, pure]
  · by_cases hn : U = "nil"
    · subst hn
      simp only [hx, if_true, ne_eq, not_true_eq_false, false_and, and_false, if_false, pure]
      refine ⟨fun h => absurd h (by simp), fun _ => ⟨_, rfl, hbind⟩⟩
    · by_cases hUT : ty.lexeme = U
      · subst hUT
        simp only [hx, hn, if_false, ne_eq, not_true_eq_false, false_and, pure]
        refine ⟨fun h => absurd h (by simp), fun _ => ⟨_, rfl, hbind⟩⟩
      · have hUT2 : ¬ U = ty.lexeme := fun h => hUT h.symm
        simp [hx, hn, hUT, hUT2, TypeChecker.error, pure]

theorem var_decl_explicit_type_witness :
    builtinChecker.sym_table.curr = some 0 ∧
    TypeChecker.Infers builtinChecker.sym_table (litExpr (tk .NIL "nil")) "nil" ∧
    (∃ tc, TypeChecker.visitVarDeclStmt ⟨builtinChecker.sym_table, ""⟩
        ⟨tk .ID "x", some (tk .INT_TYPE "int"), litExpr (tk .NIL "nil")⟩ = .ok tc
      ∧ tc.sym_table.get_str_info "x" = some "int") ∧
    ∃ err, TypeChecker.visitVarDeclStmt ⟨builtinChecker.sym_table, ""⟩
        ⟨tk .ID "x", some (tk .INT_TYPE "int"), litExpr (tk .STRING_VAL "a")⟩ = .raise err
      ∧ err.type = .SEMANTIC :=
  ⟨rfl, fun _ => rfl,
    (var_decl_explicit_type builtinChecker.sym_table "" (tk .ID "x") (tk .INT_TYPE "int")
      (litExpr (tk .NIL "nil")) "nil" 0 _ rfl rfl (Or.inr (Or.inl rfl)) (fun _ => rfl)).2
      (by decide),
    (var_decl_explicit_type builtinChecker.sym_table "" (tk .ID "x") (tk .INT_TYPE "int")
      (litExpr (tk .STRING_VAL "a")) "string" 0 _ rfl rfl (Or.inr (Or.inl rfl)) (fun _ => rfl)).1
      (Or.inl (by decide))⟩

theorem Parser.expr_of_term (fuel : Nat) (p p1 : Parser) (t1 : ExprTerm)
    (h0 : p.curr_token.type ≠ .NEG) (h1 : p.curr_token.type ≠ .NOT)
    (h2 : p.curr_token.type ≠ .LPAREN) (hs : Parser.simple_term fuel p = .ok (t1, p1)) :
    Parser.expr (fuel + 1) p =
      if Parser.is_operator p1.curr_token.type then
        (Parser.expr fuel p1.advance).bind fun r =>
          .ok (Expr.binary false t1 p1.curr_token r.1, r.2)
      else .ok (Expr.single false t1, p1) := by
  rw [Parser.expr]
  simp only [h0, h1, h2, if_false, bind, Run.bind, pure, hs]

theorem Parser.simple_term_operand (fuel : Nat) (lexer : List Token) (t : Token)
    (ht : isOperand t.type = true)
    (hdot : (Parser.advance ⟨lexer, t⟩).curr_token.type ≠ .DOT)
    (hpar : (Parser.advance ⟨lexer, t⟩).curr_token.type ≠ .LPAREN) :
    Parser.simple_term (fuel + 1) ⟨lexer, t⟩ = .ok (operandTerm t, Parser.advance ⟨lexer, t⟩) := by
  obtain ⟨ty, lexeme, line, column⟩ := t
  cases ty <;> simp [isOperand] at ht <;>
    simp [Parser.simple_term, operandTerm, Parser.eat, Parser.pathLoop, hdot, hpar, pure, bind,
      Run.bind]

theorem Parser.advance_new (rest : List Token) (t : Token) :
    Parser.advance ⟨rest, t⟩ = (Parser.new rest).advance := by
  cases rest <;> rfl

theorem Parser.operand_not_prefix (t : TokenType) (h : isOperand t = true) :
    t ≠ .NEG ∧ t ≠ .NOT ∧ t ≠ .LPAREN := by
  cases t <;> simp [isOperand] at h <;> simp

theorem Parser.operator_not_dot (t : TokenType) (h : Parser.is_operator t = true) :
    t ≠ .DOT ∧ t ≠ .LPAREN := by
  cases t <;> simp [Parser.is_operator] at h <;> simp

theorem Parser.expr_operand (k : Nat) (t : Token) (rest : List Token)
    (ht : isOperand t.type = true)
    (hstop : Parser.is_operator (Parser.new rest).advance.curr_token.type = false
      ∧ (Parser.new rest).advance.curr_token.type ≠ .DOT
      ∧ (Parser.new rest).advance.curr_token.type ≠ .LPAREN) :
    Parser.expr (k + 2) ⟨rest, t⟩
      = .ok (.single false (operandTerm t), (Parser.new rest).advance) := by
  have hp := Parser.operand_not_prefix t.type ht
  have hs := Parser.simple_term_operand k rest t ht
    (by rw [Parser.advance_new]; exact hstop.2.1) (by rw [Parser.advance_new]; exact hstop.2.2)
  have h := Parser.expr_of_term (k + 1) ⟨rest, t⟩ _ _ hp.1 hp.2.1 hp.2.2 hs
  simp only [Parser.advance_new, hstop.1] at h
  exact h

/-- Claim C25: for a chain `t op1 t2 op2 ... opn t(n+1)` of one-token operands (literals
and identifiers) and binary operators, followed by a token that is no operator, no `DOT`
and no `LPAREN` (or by the end of the tokens), `Parser::expr` returns, for every amount of
fuel from `n + 2` on, the right-nested tree `chainExpr`: first operand `t`, operator
`op1` and, as `rest`, the tree of `t2 op2 ... t(n+1)`, the innermost node having no
operator and no `rest`; it stops at the token after the chain. -/
theorem expr_associates_right (k : Nat) (t : Token) (ops : List (Token × Token))
    (rest : List Token)
    (ht : isOperand t.type = true)
    (hops : ∀ o ∈ ops, Parser.is_operator o.1.type = true ∧ isOperand o.2.type = true)
    (hstop : Parser.is_operator (Parser.new rest).advance.curr_token.type = false
      ∧ (Parser.new rest).advance.curr_token.type ≠ .DOT
      ∧ (Parser.new rest).advance.curr_token.type ≠ .LPAREN) :
    Parser.expr (k + ops.length + 2) ⟨chainTokens ops ++ rest, t⟩
      = .ok (chainExpr t ops, (Parser.new rest).advance) := by
  induction ops generalizing t with
  | nil => exact Parser.expr_operand k t rest ht hstop
  | cons o ops ih =>
    obtain ⟨op, t2⟩ := o
    have ho := hops (op, t2) (by simp)
    have hp := Parser.operand_not_prefix t.type ht
    have hnd := Parser.operator_not_dot op.type ho.1
    have hs := Parser.simple_term_operand (k + ops.length + 1)
      (op :: t2 :: chainTokens ops ++ rest) t ht hnd.1 hnd.2
    have h := Parser.expr_of_term (k + ops.length + 2) ⟨op :: t2 :: chainTokens ops ++ rest, t⟩
      _ _ hp.1 hp.2.1 hp.2.2 hs
    have ih2 := ih t2 ho.2 (fun o ho2 => hops o (List.mem_cons_of_mem _ ho2))
    have hadv : (Parser.advance ⟨op :: t2 :: chainTokens ops ++ rest, t⟩)
        = ⟨t2 :: chainTokens ops ++ rest, op⟩ := rfl
    have hadv2 : (Parser.advance ⟨t2 :: chainTokens ops ++ rest, op⟩)
        = ⟨chainTokens ops ++ rest, t2⟩ := rfl
    rw [hadv] at h
    simp only [ho.1, if_true, hadv2, ih2, Run.bind] at h
    exact h

theorem expr_associates_right_witness :
    isOperand (tk .ID "a").type = true ∧
    Parser.expr 4 ⟨[tk .PLUS "+", tk .ID "b", tk .PLUS "+", tk .ID "c", tk .END "end"],
        tk .ID "a"⟩
      = .ok (.binary false (.SimpleTerm (.IDRValue [tk .ID "a"])) (tk .PLUS "+")
          (.binary false (.SimpleTerm (.IDRValue [tk .ID "b"])) (tk .PLUS "+")
            (.single false (.SimpleTerm (.IDRValue [tk .ID "c"])))),
        ⟨[], tk .END "end"⟩) :=
  ⟨rfl, expr_associates_right 0 (tk .ID "a")
    [(tk .PLUS "+", tk .ID "b"), (tk .PLUS "+", tk .ID "c")] [tk .END "end"] rfl
    (by decide) (by decide)⟩

theorem Parser.operand_not_rparen (t : TokenType) (h : isOperand t = true) : t ≠ .RPAREN := by
  cases t <;> simp [isOperand] at h <;> simp

theorem Parser.argLoop_operands (k : Nat) (comma rp : Token) (rest : List Token)
    (hc : comma.type = .COMMA) (hr : rp.type = .RPAREN) :
    ∀ (args : List Token) (a : Token) (acc : List Expr), isOperand a.type = true →
      (∀ b ∈ args, isOperand b.type = true) →
      Parser.argLoop (k + args.length + 3) ⟨argTail comma args ++ rp :: rest, a⟩ acc
        = .ok (acc ++ (a :: args).map (fun t => Expr.single false (operandTerm t)),
            ⟨rest, rp⟩) := by
  intro args
  induction args with
  | nil =>
    intro a acc ha _
    have he := Parser.expr_operand k a (rp :: rest) ha
      (by
        show Parser.is_operator rp.type = false ∧ rp.type ≠ .DOT ∧ rp.type ≠ .LPAREN
        rw [hr]
        decide)
    have he2 : Parser.expr (k + 2) ⟨rp :: rest, a⟩
        = .ok (.single false (operandTerm a), ⟨rest, rp⟩) := he
    show Parser.argLoop ((k + 2) + 1) ⟨rp :: rest, a⟩ acc = _
    rw [Parser.argLoop]
    simp only [Parser.operand_not_rparen a.type ha, ne_eq, not_false_eq_true, if_true, bind,
      Run.bind, he2, hr]
    rw [Parser.argLoop]
    simp [hr, pure]
  | cons b bs ih =>
    intro a acc ha hargs
    have hb := hargs b (by simp)
    have he := Parser.expr_operand (k + bs.length + 1) a
      (comma :: b :: (argTail comma bs ++ rp :: rest)) ha
      (by
        show Parser.is_operator comma.type = false ∧ comma.type ≠ .DOT
          ∧ comma.type ≠ .LPAREN
        rw [hc]
        decide)
    have he2 : Parser.expr (k + bs.length + 3)
        ⟨comma :: b :: (argTail comma bs ++ rp :: rest), a⟩
        = .ok (.single false (operandTerm a),
            ⟨b :: (argTail comma bs ++ rp :: rest), comma⟩) := he
    have ih2 := ih b (acc ++ [.single false (operandTerm a)]) hb
      (fun x hx => hargs x (List.mem_cons_of_mem _ hx))
    show Parser.argLoop ((k + bs.length + 3) + 1)
      ⟨comma :: b :: (argTail comma bs ++ rp :: rest), a⟩ acc = _
    rw [Parser.argLoop]
    have e1 : (Parser.advance ⟨b :: (argTail comma bs ++ rp :: rest), comma⟩)
        = ⟨argTail comma bs ++ rp :: rest, b⟩ := rfl
    simp only [Parser.operand_not_rparen a.type ha, ne_eq, not_false_eq_true, if_true, bind,
      Run.bind, he2, hc, Parser.eat, e1, ih2]
    simp

theorem Parser.pathLoop_pairs (k : Nat) (rest : List Token)
    (hstop : (Parser.new rest).advance.curr_token.type ≠ .DOT) :
    ∀ (pairs : List (Token × Token)) (path : List Token) (t : Token),
      (∀ o ∈ pairs, o.1.type = .DOT ∧ o.2.type = .ID) →
      Parser.pathLoop (k + pairs.length + 1) (Parser.advance ⟨chainTokens pairs ++ rest, t⟩) path
        = .ok (path ++ pairs.map Prod.snd, (Parser.new rest).advance) := by
  intro pairs
  induction pairs with
  | nil =>
    intro path t _
    show Parser.pathLoop (k + 1) (Parser.advance ⟨rest, t⟩) path = _
    rw [Parser.advance_new, Parser.pathLoop]
    simp [hstop, pure]
  | cons o ps ih =>
    intro path t h
    obtain ⟨dot, i2⟩ := o
    have ho : dot.type = .DOT ∧ i2.type = .ID := h (dot, i2) (by simp)
    have ih2 := ih (path ++ [i2]) i2 (fun o ho2 => h o (List.mem_cons_of_mem _ ho2))
    show Parser.pathLoop ((k + ps.length + 1) + 1) ⟨i2 :: (chainTokens ps ++ rest), dot⟩ path = _
    rw [Parser.pathLoop]
    have e1 : (Parser.advance ⟨i2 :: (chainTokens ps ++ rest), dot⟩)
        = ⟨chainTokens ps ++ rest, i2⟩ := rfl
    simp only [Parser.eat, ho.1, ho.2, if_true, bind, Run.bind, e1, ih2]
    simp

/-- Claim C26: in `Parser::simple_term` with an identifier `id` as current token: when
the next token is `LPAREN`, the result is whatever the argument loop and the closing
`RPAREN` yield, wrapped as a `CallExpr` with `function_id = id` and the parsed argument
list, never an `IDRValue`; for one-token arguments `a1 , a2 , ...` closed by `RPAREN` this
is the `CallExpr` of `id` with one argument expression per token, in order; when the
identifier is followed by the `DOT ID` pairs `pairs` and then by a token that is not `DOT`
(and, for a bare identifier, not `LPAREN`), the result is the `IDRValue` whose path is
`id` followed by the identifiers of the pairs in order, so a bare identifier gives a path
of length one. -/
theorem simple_term_call_or_path (k : Nat) (id : Token) (hid : id.type = .ID) :
    (∀ lexer : List Token, (Parser.advance ⟨lexer, id⟩).curr_token.type = .LPAREN →
      Parser.simple_term (k + 1) ⟨lexer, id⟩
        = (Parser.argLoop k (Parser.advance ⟨lexer, id⟩).advance []).bind fun r =>
            (r.2.eat .RPAREN "Expected RPAREN ").bind fun p =>
              .ok (.SimpleTerm (.CallExpr id r.1), p)) ∧
    (∀ (lp comma rp : Token) (args rest : List Token),
      lp.type = .LPAREN → comma.type = .COMMA → rp.type = .RPAREN →
      (∀ a ∈ args, isOperand a.type = true) →
      Parser.simple_term (k + args.length + 3) ⟨lp :: (argTokens comma args ++ rp :: rest), id⟩
        = .ok (.SimpleTerm (.CallExpr id (args.map fun t => Expr.single false (operandTerm t))),
            (Parser.new rest).advance)) ∧
    (∀ (pairs : List (Token × Token)) (rest : List Token),
      (∀ o ∈ pairs, o.1.type = .DOT ∧ o.2.type = .ID) →
      (Parser.new rest).advance.curr_token.type ≠ .DOT →
      (pairs = [] → (Parser.new rest).advance.curr_token.type ≠ .LPAREN) →
      Parser.simple_term (k + pairs.length + 1) ⟨chainTokens pairs ++ rest, id⟩
        = .ok (.SimpleTerm (.IDRValue (id :: pairs.map Prod.snd)), (Parser.new rest).advance)) ∧
    (∀ rest : List Token,
      (Parser.new rest).advance.curr_token.type ≠ .DOT →
      (Parser.new rest).advance.curr_token.type ≠ .LPAREN →
      Parser.simple_term (k + 1) ⟨rest, id⟩
        = .ok (.SimpleTerm (.IDRValue [id]), (Parser.new rest).advance)) := by
  have hpath : ∀ (pairs : List (Token × Token)) (rest : List Token),
      (∀ o ∈ pairs, o.1.type = .DOT ∧ o.2.type = .ID) →
      (Parser.new rest).advance.curr_token.type ≠ .DOT →
      (pairs = [] → (Parser.new rest).advance.curr_token.type ≠ .LPAREN) →
      Parser.simple_term (k + pairs.length + 1) ⟨chainTokens pairs ++ rest, id⟩
        = .ok (.SimpleTerm (.IDRValue (id :: pairs.map Prod.snd)), (Parser.new rest).advance) := by
    intro pairs rest hp hstop hbare
    have hl := Parser.pathLoop_pairs k rest hstop pairs [id] id hp
    have hnl : (Parser.advance ⟨chainTokens pairs ++ rest, id⟩).curr_token.type ≠ .LPAREN := by
      cases pairs with
      | nil =>
        show (Parser.advance ⟨rest, id⟩).curr_token.type ≠ _
        rw [Parser.advance_new]
        exact hbare rfl
      | cons o ps =>
        obtain ⟨dot, i2⟩ := o
        have ho : dot.type = .DOT ∧ i2.type = .ID := hp (dot, i2) (by simp)
        show dot.type ≠ _
        rw [ho.1]
        decide
    rw [Parser.simple_term]
    simp only [hid, Parser.eat, if_true, bind, Run.bind, hnl, if_false, hl, pure]
    simp
  refine ⟨?_, ?_, hpath, ?_⟩
  · intro lexer hl
    rw [Parser.simple_term]
    simp only [hid, Parser.eat, if_true, bind, Run.bind, hl, pure]
    simp
  · intro lp comma rp args rest hlp hc hr hargs
    have hloop : Parser.argLoop (k + args.length + 2)
        (Parser.advance ⟨argTokens comma args ++ rp :: rest, lp⟩) []
        = .ok (args.map (fun t => Expr.single false (operandTerm t)), ⟨rest, rp⟩) := by
      cases args with
      | nil =>
        show Parser.argLoop ((k + 1) + 1) ⟨rest, rp⟩ [] = _
        rw [Parser.argLoop]
        simp [hr, pure]
      | cons a rest2 =>
        have h := Parser.argLoop_operands k comma rp rest hc hr rest2 a [] (hargs a (by simp))
          (fun x hx => hargs x (List.mem_cons_of_mem _ hx))
        exact h
    show Parser.simple_term ((k + args.length + 2) + 1) _ = _
    rw [Parser.simple_term]
    have e1 : (Parser.advance ⟨lp :: (argTokens comma args ++ rp :: rest), id⟩)
        = ⟨argTokens comma args ++ rp :: rest, lp⟩ := rfl
    simp only [hid, Parser.eat, if_true, bind, Run.bind, e1, hlp, hloop, hr, pure,
      Parser.advance_new rest rp]
    simp
  · intro rest hstop hpar
    exact hpath [] rest (by simp) hstop (fun _ => hpar)

theorem simple_term_call_or_path_witness :
    (tk .ID "f").type = .ID ∧
    Parser.simple_term 5
        ⟨[tk .LPAREN "(", tk .INT_VAL "1", tk .COMMA ",", tk .INT_VAL "2", tk .RPAREN ")"],
          tk .ID "f"⟩
      = .ok (.SimpleTerm (.CallExpr (tk .ID "f")
          [litExpr (tk .INT_VAL "1"), litExpr (tk .INT_VAL "2")]), ⟨[], ⟨.EOS, "", 0, 0⟩⟩) ∧
    Parser.simple_term 3
        ⟨[tk .DOT ".", tk .ID "b", tk .DOT ".", tk .ID "c", tk .PLUS "+"], tk .ID "a"⟩
      = .ok (.SimpleTerm (.IDRValue [tk .ID "a", tk .ID "b", tk .ID "c"]),
          ⟨[], tk .PLUS "+"⟩) ∧
    Parser.simple_term 1 ⟨[tk .PLUS "+"], tk .ID "a"⟩
      = .ok (.SimpleTerm (.IDRValue [tk .ID "a"]), ⟨[], tk .PLUS "+"⟩) :=
  ⟨rfl,
    (simple_term_call_or_path 0 (tk .ID "f") rfl).2.1 (tk .LPAREN "(") (tk .COMMA ",")
      (tk .RPAREN ")") [tk .INT_VAL "1", tk .INT_VAL "2"] [] rfl rfl rfl (by decide),
    (simple_term_call_or_path 0 (tk .ID "a") rfl).2.2.1
      [(tk .DOT ".", tk .ID "b"), (tk .DOT ".", tk .ID "c")] [tk .PLUS "+"] (by decide)
      (by decide) (by decide),
    (simple_term_call_or_path 0 (tk .ID "a") rfl).2.2.2 [tk .PLUS "+"] (by decide)
      (by decide)⟩

/-- Claim C40: for an expression `first op rest` whose operator is `and` or `or`, whose
left operand has inferred type `L` and whose right operand has inferred type `R`,
`TypeChecker::visit(Expr&)` checks nothing: whatever `L` and `R` are it raises no error, and
the inferred type of the whole expression is `R`, the type of the right operand. -/
theorem and_or_unchecked (st : SymbolTable) (c : String) (negated : Bool)
    (first : ExprTerm) (op : Token) (rest : Expr) (L R : String)
    (hop : op.type = .AND ∨ op.type = .OR)
    (hL : ∀ c : String, TypeChecker.visitExprTerm ⟨st, c⟩ first = .ok ⟨st, L⟩)
    (hR : TypeChecker.Infers st rest R) :
    TypeChecker.visitExpr ⟨st, c⟩ (.binary negated first op rest) = .ok ⟨st, R⟩ := by
  rw [TypeChecker.visitExpr]
  simp only [bind, Run.bind, hL c, hR L]
  unfold TypeChecker.checkOp
  rcases hop with h | h <;> simp [h, pure]

theorem and_or_unchecked_witness :
    ((tk .AND "and").type = .AND ∨ (tk .AND "and").type = .OR) ∧
    TypeChecker.Infers SymbolTable.new (litExpr (tk .INT_VAL "2")) "int" ∧
    TypeChecker.visitExpr ⟨SymbolTable.new, ""⟩
      (binLit (tk .INT_VAL "1") (tk .AND "and") (tk .INT_VAL "2"))
      = .ok ⟨SymbolTable.new, "int"⟩ ∧
    TypeChecker.visitExpr ⟨SymbolTable.new, ""⟩
      (binLit (tk .STRING_VAL "a") (tk .OR "or") (tk .BOOL_VAL "true"))
      = .ok ⟨SymbolTable.new, "bool"⟩ :=
  ⟨Or.inl rfl, fun _ => rfl,
    and_or_unchecked SymbolTable.new "" false
      (.SimpleTerm (.SimpleRValue (tk .INT_VAL "1"))) (tk .AND "and")
      (litExpr (tk .INT_VAL "2")) "int" "int" (Or.inl rfl) (fun _ => rfl) (fun _ => rfl),
    and_or_unchecked SymbolTable.new "" false
      (.SimpleTerm (.SimpleRValue (tk .STRING_VAL "a"))) (tk .OR "or")
      (litExpr (tk .BOOL_VAL "true")) "string" "bool" (Or.inr rfl) (fun _ => rfl)
      (fun _ => rfl)⟩

/-- Claim C34, for every character `c`: the lexer turns the source literal `'c'` into the
`CHAR_VAL` token whose lexeme is the single character `c`, and
`Interpreter::visit(SimpleRValue&)` evaluates that token with `lexeme().at(3)`, which is
out of range for a lexeme of length one: the evaluation ends in `std::out_of_range`
instead of the char value `c`, and so does the evaluation of `"ab" + 'c'`. -/
theorem char_literal_not_evaluated (eos k : Nat) (code : TokenType → Nat) (c : Char)
    (it : Interpreter) :
    Lexer.next_token eos (k + 1) (Lexer.new ['\'', c, '\''])
      = .ok (⟨.CHAR_VAL, String.singleton c, 1, 2⟩, ⟨[], 1, 3⟩) ∧
    it.visitSimpleRValue ⟨.CHAR_VAL, String.singleton c, 1, 2⟩
      = .crash "std::out_of_range: basic_string::at" ∧
    Interpreter.visitExpr code (k + 4) it
        (binLit (tk .STRING_VAL "ab") (tk .PLUS "+") ⟨.CHAR_VAL, String.singleton c, 1, 2⟩)
      = .crash "std::out_of_range: basic_string::at" :=
  ⟨rfl, rfl, rfl⟩

/-- Claim C35, at failing inputs, for every state `it`, all statements `s`, `s1` ... `s9`
and every amount of fuel from the stated one on: the loop over the `else` body runs while
`stmts.size() != 9`. With an `else` body of one statement `s` the interpreter executes `s`
and then calls `front()` on the empty list instead of stopping: whatever `s` does, the
`if` statement does not complete. With an `else` body of nine statements none of them is
executed: the state after the `if` statement is the state after the condition, pushed and
popped. With the ten statements `print("0") ... print("9")` only the first one is
executed: the output is `0`. -/
theorem else_body_not_drained (code : TokenType → Nat) (k : Nat) (it : Interpreter)
    (s s1 s2 s3 s4 s5 s6 s7 s8 s9 : Stmt) :
    Interpreter.visitStmt code (k + 5) it (ifFalseElse [s])
      = (Interpreter.visitStmt code (k + 3) (it.set (.bool false)).push s).bind
          (fun _ => .crash "front() of an empty list") ∧
    Interpreter.visitStmt code (k + 5) it (ifFalseElse [s1, s2, s3, s4, s5, s6, s7, s8, s9])
      = .ok (it.set (.bool false)).push.pop ∧
    stmtOutput code (k + 7) (ifFalseElse tenPrints) = .ok "0" := by
  refine ⟨?_, rfl, rfl⟩
  have h : Interpreter.visitStmt code (k + 5) it (ifFalseElse [s])
      = (Interpreter.elseLoop code (k + 4) (it.set (.bool false)).push [s]).bind
          (fun it => .ok it.pop) := rfl
  rw [h]
  have h2 : Interpreter.elseLoop code (k + 4) (it.set (.bool false)).push [s]
      = (Interpreter.visitStmt code (k + 3) (it.set (.bool false)).push s).bind
          (fun it => Interpreter.elseLoop code (k + 3) it []) := rfl
  rw [h2]
  cases Interpreter.visitStmt code (k + 3) (it.set (.bool false)).push s <;> rfl

/-- Claim C31, at a failing input, in the global environment with the built-in functions:
the path `print`, whose first segment is the name of a function and no variable, raises no
SEMANTIC error in `TypeChecker::visit(IDRValue&)`; the inferred type is whatever type
`c` was inferred last, so after `var x = 1` the declaration `var y: int = print` is
accepted and binds `y` with type `int`. Only a first segment that is bound to nothing,
such as `z`, is rejected. -/
theorem path_of_function_name_accepted (c : String) :
    TypeChecker.visitRValue ⟨builtinChecker.sym_table, c⟩ (.IDRValue [tk .ID "print"])
      = .ok ⟨builtinChecker.sym_table, c⟩ ∧
    typeAfter builtinChecker varFromFunctionName "y" = .ok (some "int") ∧
    inferRValue ⟨builtinChecker.sym_table, c⟩ (.IDRValue [tk .ID "z"])
      = .raise ⟨.SEMANTIC, "Variable does not exist in scope ", some (0, 0)⟩ := by
  refine ⟨rfl, by decide, rfl⟩

/-- Counterexample to claim C39, in the global environment with the built-in functions.
(1) The parser accepts `fun int f(return: string) end fun int g() end` (a parameter may be
any token), checking `f` binds the name `return` with type `string` in the global
environment, and the return-type comparison of `visit(FunDecl&)` then raises for `g`, a
function without any return statement that is checked in the global environment.
(2) Whether a declaration is accepted can depend on the type of a returned expression:
`fun int f() return 1  var y: int = print end` is accepted and
`fun int f() return "s"  var y: int = print end` is rejected, because the path `print`
leaves the type inferred for the returned expression in place. -/
theorem return_comparison_raises :
    Parser.parse 31 (Parser.new paramNamedReturnTokens)
      = .ok (⟨paramNamedReturn⟩, ⟨[], ⟨.EOS, "", 0, 0⟩⟩) ∧
    checkDecls builtinChecker paramNamedReturn
      = .raise ⟨.SEMANTIC, "Return type and returned value do not match: int and string",
          some (0, 0)⟩ ∧
    checkDecls builtinChecker (returnThenTypedVar (litExpr (tk .INT_VAL "1"))) = .ok () ∧
    checkDecls builtinChecker (returnThenTypedVar (litExpr (tk .STRING_VAL "s")))
      = .raise ⟨.SEMANTIC, "Types do not match: int and string", some (0, 0)⟩ :=
  ⟨rfl, by decide, by decide, by decide⟩

theorem Run.bind_assoc {α β γ : Type} (r : Run α) (f : α → Run β) (g : β → Run γ) :
    (r.bind f).bind g = r.bind (fun a => (f a).bind g) := by
  cases r <;> rfl

theorem TypeChecker.visitStmts_append :
    ∀ (pre post : List Stmt) (tc : TypeChecker),
      TypeChecker.visitStmts tc (pre ++ post)
        = (TypeChecker.visitStmts tc pre).bind (fun c => TypeChecker.visitStmts c post)
  | [], _, _ => rfl
  | s :: rest, post, tc => by
    show TypeChecker.visitStmts tc (s :: (rest ++ post)) = _
    rw [TypeChecker.visitStmts, TypeChecker.visitStmts]
    show (TypeChecker.visitStmt tc s).bind (fun c => TypeChecker.visitStmts c (rest ++ post))
      = ((TypeChecker.visitStmt tc s).bind (fun c => TypeChecker.visitStmts c rest)).bind
          (fun c => TypeChecker.visitStmts c post)
    rw [Run.bind_assoc]
    congr 1
    funext c
    exact TypeChecker.visitStmts_append rest post c

/-- When the name `return` is bound to a type name `T` in the environment current on
entry, `visit(FunDecl&)` compares the declared return type with `T` before it has visited
the body: a function declared with `nil` is rejected, and a function declared with another
type is rejected when that type differs from `T` and `T` is not `nil`. -/
theorem TypeChecker.visitFunDecl_return_bound (tc : TypeChecker) (return_type id : Token)
    (params : List FunParam) (stmts : List Stmt) (T : String)
    (hret : tc.sym_table.name_exists_in_curr_env "return" = true)
    (hT : tc.sym_table.get_str_info "return" = some T)
    (hid : tc.sym_table.name_exists_in_curr_env id.lexeme = false)
    (hty : return_type.lexeme = "int" ∨ return_type.lexeme = "double"
      ∨ return_type.lexeme = "char" ∨ return_type.lexeme = "string"
      ∨ return_type.lexeme = "bool" ∨ return_type.lexeme = "nil") :
    (return_type.lexeme = "nil" →
      tc.visitFunDecl return_type id params stmts
        = .raise ⟨.SEMANTIC, "Cannot return a value when return type is nil", none⟩) ∧
    (return_type.lexeme ≠ "nil" → return_type.lexeme ≠ T → T ≠ "nil" →
      tc.visitFunDecl return_type id params stmts
        = .raise ⟨.SEMANTIC,
            "Return type and returned value do not match: " ++ return_type.lexeme ++ " and " ++ T,
            some (return_type.line, return_type.column)⟩) := by
  have hhas : tc.sym_table.has_str_info "return" = true := by
    unfold SymbolTable.has_str_info
    rw [hT]
    rfl
  have h1 : (if ¬return_type.lexeme = "int" ∧ ¬return_type.lexeme = "double"
        ∧ ¬return_type.lexeme = "char" ∧ ¬return_type.lexeme = "string"
        ∧ ¬return_type.lexeme = "bool" ∧ ¬return_type.lexeme = "nil" then
        if tc.sym_table.name_exists_in_curr_env return_type.lexeme = false then
          TypeChecker.error "Invalid return type: " return_type
        else Run.ok tc
      else Run.ok tc : Run TypeChecker) = .ok tc := by
    rcases hty with h | h | h | h | h | h <;> simp [h]
  refine ⟨fun hnil => ?_, fun hnn hne hTn => ?_⟩
  · unfold TypeChecker.visitFunDecl
    simp only [hid, Bool.false_eq_true, if_false, bind, Run.bind, pure, ne_eq, Bool.not_eq_true',
      h1]
    have hd : decide (return_type.lexeme = "nil") = true := by simp [hnil]
    rw [if_pos hd, if_pos ⟨hret, hhas⟩]
    rfl
  · unfold TypeChecker.visitFunDecl
    simp only [hid, Bool.false_eq_true, if_false, bind, Run.bind, pure, ne_eq, Bool.not_eq_true',
      h1]
    have hd : ¬decide (return_type.lexeme = "nil") = true := by simp [hnn]
    rw [if_neg hd, if_pos ⟨hret, hhas⟩, hT]
    simp only [Option.getD_some]
    rw [if_pos ⟨hne, hTn⟩]
    rfl

/-- Claim C39 as amended: when the name `return` is not bound in the environment current
on entry, the function name is not bound there either and the return type is a scalar type
name, `nil` or a name bound there, the return-type comparison of `visit(FunDecl&)` raises
nothing: the outcome of the declaration is the outcome of visiting its statements in the
body environment, followed by the pop. A statement `return e` of the body, wherever it
stands among the statements `pre` before it and `post` after it, contributes the visit of
its expression `e` and the storing of the type of `e` under `return`, and no comparison
with the declared return type. So a body `pre` followed by `return e` is accepted as soon
as `pre` and `e` are, whatever the type of `e` and the declared return type are. -/
theorem return_type_not_compared (tc : TypeChecker) (return_type id : Token)
    (params : List FunParam)
    (hret : tc.sym_table.name_exists_in_curr_env "return" = false)
    (hid : tc.sym_table.name_exists_in_curr_env id.lexeme = false)
    (hty : return_type.lexeme = "int" ∨ return_type.lexeme = "double"
      ∨ return_type.lexeme = "char" ∨ return_type.lexeme = "string"
      ∨ return_type.lexeme = "bool" ∨ return_type.lexeme = "nil"
      ∨ tc.sym_table.name_exists_in_curr_env return_type.lexeme = true) :
    (∀ stmts : List Stmt, tc.visitFunDecl return_type id params stmts
      = (TypeChecker.visitStmts (tc.bodyChecker return_type id params) stmts).bind
          fun tc => .ok tc.pop) ∧
    (∀ (pre post : List Stmt) (e : Expr),
      tc.visitFunDecl return_type id params (pre ++ .ReturnStmt e :: post)
        = (((TypeChecker.visitStmts (tc.bodyChecker return_type id params) pre).bind
              fun c => c.visitExpr e).bind
            fun c => TypeChecker.visitStmts (c.declare_str "return" c.curr_type) post).bind
          fun c => .ok c.pop) ∧
    (∀ (pre : List Stmt) (e : Expr) (c1 c2 : TypeChecker),
      TypeChecker.visitStmts (tc.bodyChecker return_type id params) pre = .ok c1 →
      c1.visitExpr e = .ok c2 →
      tc.visitFunDecl return_type id params (pre ++ [.ReturnStmt e])
        = .ok (c2.declare_str "return" c2.curr_type).pop) := by
  have hmain : ∀ stmts : List Stmt, tc.visitFunDecl return_type id params stmts
      = (TypeChecker.visitStmts (tc.bodyChecker return_type id params) stmts).bind
          fun tc => .ok tc.pop := by
    intro stmts
    unfold TypeChecker.visitFunDecl TypeChecker.bodyChecker
    have h1 : (if ¬return_type.lexeme = "int" ∧ ¬return_type.lexeme = "double"
          ∧ ¬return_type.lexeme = "char" ∧ ¬return_type.lexeme = "string"
          ∧ ¬return_type.lexeme = "bool" ∧ ¬return_type.lexeme = "nil" then
          if tc.sym_table.name_exists_in_curr_env return_type.lexeme = false then
            TypeChecker.error "Invalid return type: " return_type
          else Run.ok tc
        else Run.ok tc : Run TypeChecker) = .ok tc := by
      rcases hty with h | h | h | h | h | h | h <;> simp [h]
    simp only [hid, Bool.false_eq_true, if_false, bind, Run.bind, pure, ne_eq, Bool.not_eq_true',
      h1, hret, false_and]
    simp
  have hmid : ∀ (pre post : List Stmt) (e : Expr),
      tc.visitFunDecl return_type id params (pre ++ .ReturnStmt e :: post)
        = (((TypeChecker.visitStmts (tc.bodyChecker return_type id params) pre).bind
              fun c => c.visitExpr e).bind
            fun c => TypeChecker.visitStmts (c.declare_str "return" c.curr_type) post).bind
          fun c => .ok c.pop := by
    intro pre post e
    rw [hmain, TypeChecker.visitStmts_append]
    congr 1
    rw [Run.bind_assoc]
    congr 1
    funext c
    rw [TypeChecker.visitStmts]
    show ((c.visitExpr e).bind fun c2 => Run.ok (c2.declare_str "return" c2.curr_type)).bind _ = _
    rw [Run.bind_assoc]
    rfl
  refine ⟨hmain, hmid, fun pre e c1 c2 h1 h2 => ?_⟩
  rw [hmid, h1]
  show ((c1.visitExpr e).bind _).bind _ = _
  rw [h2]
  rfl

theorem return_type_not_compared_witness :
    builtinChecker.sym_table.name_exists_in_curr_env "return" = false ∧
    (∃ tc2, builtinChecker.visitFunDecl (tk .INT_TYPE "int") (tk .ID "f") []
      ([.VarDecl ⟨tk .ID "x", none, litExpr (tk .STRING_VAL "s")⟩]
        ++ [.ReturnStmt (varExpr "x")]) = .ok tc2) ∧
    ∃ tc2, builtinChecker.visitFunDecl (tk .NIL "nil") (tk .ID "h") []
      ([] ++ [.ReturnStmt (litExpr (tk .INT_VAL "1"))]) = .ok tc2 :=
  ⟨rfl,
    ⟨_, (return_type_not_compared builtinChecker (tk .INT_TYPE "int") (tk .ID "f") [] rfl rfl
      (Or.inl rfl)).2.2 [.VarDecl ⟨tk .ID "x", none, litExpr (tk .STRING_VAL "s")⟩]
      (varExpr "x") _ _ rfl rfl⟩,
    ⟨_, (return_type_not_compared builtinChecker (tk .NIL "nil") (tk .ID "h") [] rfl rfl
      (Or.inr (Or.inr (Or.inr (Or.inr (Or.inr (Or.inl rfl))))))).2.2 []
      (litExpr (tk .INT_VAL "1")) _ _ rfl rfl⟩⟩

/-! ## Theorems: the type checker's expression visitors leave the symbol table alone -/

theorem TypeChecker.idrLoop_keeps (st : SymbolTable) (first : Token) :
    ∀ (path : List Token) (tc : TypeChecker) (i : Nat) (prev : String), tc.sym_table = st →
      (TypeChecker.idrLoop first tc path i prev).Sem (fun r => r.sym_table = st)
  | [], tc, i, prev, h => h
  | t :: ts, tc, i, prev, h => by
    unfold TypeChecker.idrLoop
    refine Run.Sem.bind (P := fun r => r.sym_table = st) ?_
      (fun a ha => TypeChecker.idrLoop_keeps st first ts a _ _ ha)
    split
    · split
      · exact Run.Sem.error _ _ _
      · exact h
    · split
      · exact Run.Sem.error _ _ _
      · dsimp only
        split
        · exact h
        · exact Run.Sem.error1 _ _

theorem TypeChecker.visitSimpleRValue_keeps (st : SymbolTable) (tc : TypeChecker) (value : Token)
    (h : tc.sym_table = st) : (tc.visitSimpleRValue value).Sem (fun r => r.sym_table = st) := by
  unfold TypeChecker.visitSimpleRValue
  repeat' split
  all_goals first
    | exact h
    | exact Run.Sem.error1 _ _

theorem TypeChecker.visitNewRValue_keeps (st : SymbolTable) (tc : TypeChecker) (type_id : Token)
    (h : tc.sym_table = st) : (tc.visitNewRValue type_id).Sem (fun r => r.sym_table = st) := by
  unfold TypeChecker.visitNewRValue
  repeat' split
  all_goals first
    | exact h
    | exact Run.Sem.error _ _ _

theorem TypeChecker.checkOp_keeps (st : SymbolTable) (tc : TypeChecker) (op : Token)
    (lhs : String) (ft : Token) (h : tc.sym_table = st) :
    (tc.checkOp op lhs ft).Sem (fun r => r.sym_table = st) := by
  unfold TypeChecker.checkOp
  dsimp only
  repeat' split
  all_goals first
    | exact h
    | exact Run.Sem.error _ _ _

mutual
theorem TypeChecker.visitExpr_keeps (st : SymbolTable) : ∀ (e : Expr) (tc : TypeChecker),
    tc.sym_table = st → (TypeChecker.visitExpr tc e).Sem (fun r => r.sym_table = st)
  | .single negated first, tc, h => by
    unfold TypeChecker.visitExpr
    refine Run.Sem.bind (TypeChecker.visitExprTerm_keeps st first tc h) (fun a ha => ?_)
    refine Run.Sem.bind (TypeChecker.visitExprTerm_keeps st first a ha) (fun b hb => ?_)
    split
    · exact Run.Sem.error _ _ _
    · exact hb
  | .binary negated first op rest, tc, h => by
    unfold TypeChecker.visitExpr
    refine Run.Sem.bind (TypeChecker.visitExprTerm_keeps st first tc h) (fun a ha => ?_)
    refine Run.Sem.bind (TypeChecker.visitExpr_keeps st rest a ha) (fun b hb => ?_)
    exact TypeChecker.checkOp_keeps st b op _ _ hb
theorem TypeChecker.visitExprTerm_keeps (st : SymbolTable) : ∀ (e : ExprTerm)
    (tc : TypeChecker), tc.sym_table = st →
    (TypeChecker.visitExprTerm tc e).Sem (fun r => r.sym_table = st)
  | .SimpleTerm rvalue, tc, h => by
    unfold TypeChecker.visitExprTerm
    exact TypeChecker.visitRValue_keeps st rvalue tc h
  | .ComplexTerm expr, tc, h => by
    unfold TypeChecker.visitExprTerm
    exact TypeChecker.visitExpr_keeps st expr tc h
theorem TypeChecker.visitRValue_keeps (st : SymbolTable) : ∀ (e : RValue) (tc : TypeChecker),
    tc.sym_table = st → (TypeChecker.visitRValue tc e).Sem (fun r => r.sym_table = st)
  | .SimpleRValue value, tc, h => by
    unfold TypeChecker.visitRValue
    exact tc.visitSimpleRValue_keeps st value h
  | .NewRValue type_id, tc, h => by
    unfold TypeChecker.visitRValue
    exact tc.visitNewRValue_keeps st type_id h
  | .CallExpr function_id arg_list, tc, h => by
    unfold TypeChecker.visitRValue
    split
    · exact Run.Sem.error _ _ _
    · dsimp only
      generalize sizeMinusOne ((tc.sym_table.get_vec_info function_id.lexeme).getD []) = n
      refine Run.Sem.ite _ _ _ _ (Run.Sem.error _ _ _) ?_
      exact Run.Sem.bind (TypeChecker.visitArgs_keeps st arg_list tc _ function_id 0 h)
        (fun a ha => ha)
  | .IDRValue path, tc, h => by
    unfold TypeChecker.visitRValue
    exact TypeChecker.idrLoop_keeps st _ path tc 1 "" h
  | .NegatedRValue expr, tc, h => by
    unfold TypeChecker.visitRValue
    refine Run.Sem.bind (TypeChecker.visitExpr_keeps st expr tc h) (fun a ha => ?_)
    split
    · exact Run.Sem.error _ _ _
    · exact TypeChecker.visitExpr_keeps st expr a ha
theorem TypeChecker.visitArgs_keeps (st : SymbolTable) : ∀ (l : List Expr) (tc : TypeChecker)
    (fun_type : List String) (function_id : Token) (i : Nat), tc.sym_table = st →
    (TypeChecker.visitArgs tc fun_type function_id l i).Sem (fun r => r.sym_table = st)
  | [], tc, fun_type, function_id, i, h => by
    unfold TypeChecker.visitArgs
    exact h
  | x :: xs, tc, fun_type, function_id, i, h => by
    unfold TypeChecker.visitArgs
    refine Run.Sem.bind (TypeChecker.visitExpr_keeps st x tc h) (fun a ha => ?_)
    split
    · exact Run.Sem.error _ _ _
    · exact TypeChecker.visitArgs_keeps st xs a fun_type function_id (i + 1) ha
end

theorem TypeChecker.lvalueLoop_keeps (st : SymbolTable) (front : Token) :
    ∀ (l : List Token) (tc : TypeChecker) (i : Nat) (prev : String), tc.sym_table = st →
      (TypeChecker.lvalueLoop front tc l i prev).Sem (fun r => r.sym_table = st)
  | [], tc, i, prev, h => h
  | t :: ts, tc, i, prev, h => by
    unfold TypeChecker.lvalueLoop
    refine Run.Sem.bind (P := fun r => r.sym_table = st) ?_
      (fun a ha => TypeChecker.lvalueLoop_keeps st front ts a _ _ ha)
    split
    · split
      · exact h
      · exact Run.Sem.error _ _ _
    · split
      · exact Run.Sem.error _ _ _
      · dsimp only
        split
        · exact h
        · exact Run.Sem.error1 _ _

theorem Run.Sem.sem_mono {α : Type} {P Q : α → Prop} {r : Run α} (h : r.Sem P)
    (hpq : ∀ a, P a → Q a) : r.Sem Q := by
  cases r with
  | ok a => exact hpq a h
  | raise e => exact h
  | crash w => exact h
  | timeout => exact h

theorem Run.Sem.raises {α : Type} {r : Run α} (h : r.Sem (fun _ => False)) :
    ∃ e, r = .raise e ∧ e.type = .SEMANTIC := by
  cases r with
  | ok a => exact h.elim
  | raise e => exact ⟨e, rfl, h⟩
  | crash w => exact h.elim
  | timeout => exact h.elim

theorem TypeChecker.visitVarDeclStmt_redeclared (tc : TypeChecker) (node : VarDeclStmt)
    (h : tc.sym_table.name_exists_in_curr_env node.id.lexeme = true) :
    (tc.visitVarDeclStmt node).Sem (fun _ => False) := by
  unfold TypeChecker.visitVarDeclStmt
  refine Run.Sem.bind (P := fun r => r.sym_table = tc.sym_table) ?_ (fun a ha => ?_)
  · repeat' split
    all_goals rfl
  refine Run.Sem.bind (TypeChecker.visitExpr_keeps tc.sym_table node.expr a ha) (fun b hb => ?_)
  dsimp only
  refine Run.Sem.bind (P := fun r => r.sym_table = tc.sym_table) ?_ (fun c hc => ?_)
  · repeat' split
    all_goals first
      | exact hb
      | exact Run.Sem.error _ _ _
  rw [hc, h]
  exact Run.Sem.error _ _ _

/-! ## Theorems: bindings of the symbol table -/

theorem lookup_cons_filter_other {α : Type} (name other : String) (a : α) (h : other ≠ name) :
    ∀ l : List (String × α),
      List.lookup other ((name, a) :: l.filter (fun b => b.1 != name)) = l.lookup other := by
  have hb : (other == name) = false := by simpa using h
  intro l
  simp only [List.lookup, hb]
  induction l with
  | nil => rfl
  | cons b rest ih =>
    obtain ⟨k, v⟩ := b
    by_cases hk : k = name
    · subst hk
      have hf : List.filter (fun b : String × α => b.1 != k) ((k, v) :: rest)
          = List.filter (fun b => b.1 != k) rest := by
        simp [List.filter]
      rw [hf, ih]
      simp [List.lookup, hb]
    · have hf : List.filter (fun b : String × α => b.1 != name) ((k, v) :: rest)
          = (k, v) :: List.filter (fun b => b.1 != name) rest := by
        have hkb : (k != name) = true := by simpa using hk
        simp [List.filter, hkb]
      rw [hf]
      simp only [List.lookup]
      rw [ih]

theorem SymbolTable.findFrom_setIn_other (st : SymbolTable) (i : Nat) (name other : String)
    (info : Info) (h : other ≠ name) :
    ∀ (depth : Nat) (from_ : Option Nat),
      (st.setIn i name info).findFrom other depth from_ = (st.findFrom other depth from_).map
        (fun e => if e.id == i then
          { e with names := (name, info) :: e.names.filter (fun b => b.1 != name) } else e)
  | 0, _ => by simp [SymbolTable.findFrom]
  | _ + 1, none => by simp [SymbolTable.findFrom]
  | depth + 1, some j => by
    simp only [SymbolTable.findFrom]
    rw [SymbolTable.env?_setIn]
    cases he : st.env? j with
    | none => simp
    | some e =>
      simp only [Option.map_some']
      by_cases hid : e.id = i
      · have hb : (e.id == i) = true := by simp [hid]
        simp only [hb, if_true, lookup_cons_filter_other name other info h]
        by_cases hl : (e.names.lookup other).isSome
        · simp [hl, hb, hid]
        · simp only [hl, Bool.false_eq_true, if_false]
          exact SymbolTable.findFrom_setIn_other st i name other info h depth e.parent
      · have hb : (e.id == i) = false := by simp [hid]
        simp only [hb, Bool.false_eq_true, if_false]
        by_cases hl : (e.names.lookup other).isSome
        · simp [hl, hb, hid]
        · simp only [hl, Bool.false_eq_true, if_false]
          exact SymbolTable.findFrom_setIn_other st i name other info h depth e.parent

theorem SymbolTable.info?_setIn_other (st : SymbolTable) (i : Nat) (name other : String)
    (info : Info) (h : other ≠ name) :
    (st.setIn i name info).info? other = st.info? other := by
  unfold SymbolTable.info? SymbolTable.get_environment
  have hlen : (st.setIn i name info).envs.length = st.envs.length := by
    simp [SymbolTable.setIn]
  have hcur : (st.setIn i name info).curr = st.curr := rfl
  rw [hlen, hcur, SymbolTable.findFrom_setIn_other st i name other info h]
  cases st.findFrom other st.envs.length st.curr with
  | none => rfl
  | some e =>
    simp only [Option.map_some', Option.bind]
    by_cases hid : (e.id == i) = true
    · simp only [hid, if_true, lookup_cons_filter_other name other info h]
    · simp only [hid, Bool.false_eq_true, if_false]

theorem SymbolTable.in_curr_env_setIn_other (st : SymbolTable) (i : Nat) (name other : String)
    (info : Info) (h : other ≠ name) :
    (st.setIn i name info).name_exists_in_curr_env other = st.name_exists_in_curr_env other := by
  unfold SymbolTable.name_exists_in_curr_env
  have hcur : (st.setIn i name info).curr = st.curr := rfl
  rw [hcur]
  cases hc : st.curr with
  | none => rfl
  | some j =>
    simp only [Option.bind, SymbolTable.env?_setIn]
    cases he : st.env? j with
    | none => rfl
    | some e =>
      simp only [Option.map_some']
      by_cases hid : (e.id == i) = true
      · simp only [hid, if_true, lookup_cons_filter_other name other info h]
      · simp only [hid, Bool.false_eq_true, if_false]

theorem SymbolTable.in_curr_env_setIn (st : SymbolTable) (i : Nat) (env : Environment)
    (name : String) (info : Info) (hc : st.curr = some i) (he : st.env? i = some env) :
    (st.setIn i name info).name_exists_in_curr_env name = true := by
  unfold SymbolTable.name_exists_in_curr_env
  have hcur : (st.setIn i name info).curr = some i := hc
  have hid := st.env?_id i env he
  have hb : (env.id == i) = true := by simp [hid]
  rw [hcur]
  simp only [Option.bind, SymbolTable.env?_setIn, he, Option.map_some', hb, if_true]
  simp [List.lookup]

/-- The statements `add_name(name); set_..._info(name, info);` in a symbol table whose
current environment is `env`, with id `i`: both change the environment with id `i`. -/
theorem SymbolTable.declare_eq (st : SymbolTable) (i : Nat) (env : Environment)
    (name : String) (info : Info) (hc : st.curr = some i) (he : st.env? i = some env) :
    (st.add_name name).set_info name info = (st.setIn i name .none).setIn i name info := by
  have hadd : st.add_name name = st.setIn i name .none := by
    simp [SymbolTable.add_name, hc]
  have h1 := st.info?_setIn i env name .none hc he
  have hid := st.env?_id i env he
  unfold SymbolTable.set_info
  rw [hadd, h1.1]
  simp only [hid]

theorem SymbolTable.env?_declare (st : SymbolTable) (i : Nat) (env : Environment)
    (name : String) (info : Info) (hc : st.curr = some i) (he : st.env? i = some env) :
    ((st.add_name name).set_info name info).curr = some i ∧
    ∃ env2, ((st.add_name name).set_info name info).env? i = some env2 := by
  rw [st.declare_eq i env name info hc he]
  refine ⟨hc, ?_⟩
  rw [SymbolTable.env?_setIn, SymbolTable.env?_setIn, he]
  exact ⟨_, rfl⟩

theorem SymbolTable.in_curr_env_declare (st : SymbolTable) (i : Nat) (env : Environment)
    (name : String) (info : Info) (hc : st.curr = some i) (he : st.env? i = some env) :
    ((st.add_name name).set_info name info).name_exists_in_curr_env name = true := by
  rw [st.declare_eq i env name info hc he]
  have he1 := st.env?_setIn i name .none i
  rw [he] at he1
  exact (st.setIn i name .none).in_curr_env_setIn i _ name info hc he1

theorem SymbolTable.info?_declare_other (st : SymbolTable) (name other : String) (info : Info)
    (h : other ≠ name) :
    ((st.add_name name).set_info name info).info? other = st.info? other := by
  have hadd : (st.add_name name).info? other = st.info? other := by
    unfold SymbolTable.add_name
    cases st.curr with
    | none => rfl
    | some i => exact st.info?_setIn_other i name other .none h
  unfold SymbolTable.set_info
  cases (st.add_name name).get_environment name with
  | none => exact hadd
  | some e =>
    simp only
    rw [SymbolTable.info?_setIn_other _ _ _ _ _ h, hadd]

theorem SymbolTable.in_curr_env_declare_other (st : SymbolTable) (name other : String)
    (info : Info) (h : other ≠ name) :
    ((st.add_name name).set_info name info).name_exists_in_curr_env other
      = st.name_exists_in_curr_env other := by
  have hadd : (st.add_name name).name_exists_in_curr_env other
      = st.name_exists_in_curr_env other := by
    unfold SymbolTable.add_name
    cases st.curr with
    | none => rfl
    | some i => exact st.in_curr_env_setIn_other i name other .none h
  unfold SymbolTable.set_info
  cases (st.add_name name).get_environment name with
  | none => exact hadd
  | some e =>
    simp only
    rw [SymbolTable.in_curr_env_setIn_other _ _ _ _ _ h, hadd]

/-- Claim C32: when the name `id` is already bound in the current environment (the global
one while declarations are visited, the innermost one inside a block),
`visit(FunDecl&)` and `visit(TypeDecl&)` raise the SEMANTIC errors "Redeclaration of
function" and "User Defined Type is already in scope", and `visit(VarDeclStmt&)` raises a
SEMANTIC error; when `id` is not bound in the current environment, bound in an enclosing
one or not, a declaration `var id = e` whose initialiser has an inferred type `U` is
accepted and binds `id` with type `U` in the current environment. -/
theorem redeclaration_check (tc : TypeChecker) (id : Token) :
    (tc.sym_table.name_exists_in_curr_env id.lexeme = true →
      (∀ (return_type : Token) (params : List FunParam) (stmts : List Stmt),
        tc.visitFunDecl return_type id params stmts
          = .raise ⟨.SEMANTIC, "Redeclaration of function ", some (id.line, id.column)⟩) ∧
      (∀ vdecls : List VarDeclStmt, tc.visitTypeDecl id vdecls
          = .raise ⟨.SEMANTIC, "User Defined Type is already in scope ",
              some (id.line, id.column)⟩) ∧
      (∀ (type : Option Token) (e : Expr),
        ∃ err, tc.visitVarDeclStmt ⟨id, type, e⟩ = .raise err ∧ err.type = .SEMANTIC)) ∧
    (tc.sym_table.name_exists_in_curr_env id.lexeme = false →
      ∀ (e : Expr) (U : String) (i : Nat) (env : Environment),
        tc.sym_table.curr = some i → tc.sym_table.env? i = some env →
        TypeChecker.Infers tc.sym_table e U →
        ∃ tc2, tc.visitVarDeclStmt ⟨id, none, e⟩ = .ok tc2
          ∧ tc2.sym_table.get_str_info id.lexeme = some U
          ∧ tc2.sym_table.name_exists_in_curr_env id.lexeme = true) := by
  constructor
  · intro h
    refine ⟨?_, ?_, ?_⟩
    · intro return_type params stmts
      unfold TypeChecker.visitFunDecl
      simp only [h, if_true]
      rfl
    · intro vdecls
      unfold TypeChecker.visitTypeDecl
      simp only [h, if_true]
      rfl
    · intro type e
      exact Run.Sem.raises (TypeChecker.visitVarDeclStmt_redeclared tc ⟨id, type, e⟩ h)
  · intro h e U i env hc he hU
    obtain ⟨st, c⟩ := tc
    refine ⟨TypeChecker.declare_str ⟨st, U⟩ id.lexeme U, ?_,
      SymbolTable.get_str_info_declare st i env id.lexeme U hc he,
      SymbolTable.in_curr_env_declare st i env id.lexeme (.str U) hc he⟩
    unfold TypeChecker.visitVarDeclStmt
    simp only [bind, Run.bind, pure, hU c]
    have h2 : st.name_exists_in_curr_env id.lexeme = false := h
    simp [h2]

theorem redeclaration_check_witness :
    builtinChecker.sym_table.name_exists_in_curr_env "print" = true ∧
    (blockChecker.sym_table.name_exists_in_curr_env "x" = false ∧
      blockChecker.sym_table.name_exists "x" = true) ∧
    builtinChecker.visitFunDecl (tk .INT_TYPE "int") (tk .ID "print") [] []
      = .raise ⟨.SEMANTIC, "Redeclaration of function ", some (0, 0)⟩ ∧
    builtinChecker.visitTypeDecl (tk .ID "print") []
      = .raise ⟨.SEMANTIC, "User Defined Type is already in scope ", some (0, 0)⟩ ∧
    (∃ err, builtinChecker.visitVarDeclStmt ⟨tk .ID "print", none, litExpr (tk .INT_VAL "1")⟩
      = .raise err ∧ err.type = .SEMANTIC) ∧
    ∃ tc2, blockChecker.visitVarDeclStmt ⟨tk .ID "x", none, litExpr (tk .STRING_VAL "s")⟩
        = .ok tc2
      ∧ tc2.sym_table.get_str_info "x" = some "string"
      ∧ tc2.sym_table.name_exists_in_curr_env "x" = true :=
  ⟨rfl, ⟨rfl, rfl⟩,
    ((redeclaration_check builtinChecker (tk .ID "print")).1 rfl).1 (tk .INT_TYPE "int") [] [],
    ((redeclaration_check builtinChecker (tk .ID "print")).1 rfl).2.1 [],
    ((redeclaration_check builtinChecker (tk .ID "print")).1 rfl).2.2 none
      (litExpr (tk .INT_VAL "1")),
    (redeclaration_check blockChecker (tk .ID "x")).2 rfl (litExpr (tk .STRING_VAL "s"))
      "string" 1 ⟨1, some 0, []⟩ rfl rfl (fun _ => rfl)⟩

/-! ## Theorems: the shape of the symbol table -/

theorem SymbolTable.SameShape.shape_refl (a : SymbolTable) : a.SameShape a :=
  ⟨rfl, Nat.le_refl _, List.forall₂_same.mpr (fun _ _ => ⟨rfl, rfl⟩)⟩

theorem SymbolTable.SameOutside.outside_refl (a : SymbolTable) : a.SameOutside a :=
  ⟨rfl, Nat.le_refl _, List.forall₂_same.mpr (fun _ _ => ⟨rfl, rfl, fun _ => rfl⟩)⟩

theorem forall₂_comp {α : Type} {r s t : α → α → Prop}
    (h : ∀ x y z, r x y → s y z → t x z) :
    ∀ {a b c : List α}, List.Forall₂ r a b → List.Forall₂ s b c → List.Forall₂ t a c
  | [], _, _, h1, h2 => by
    cases h1
    cases h2
    exact List.Forall₂.nil
  | x :: xs, _, _, h1, h2 => by
    cases h1 with
    | cons hxy hrest =>
      cases h2 with
      | cons hyz hrest2 =>
        exact List.Forall₂.cons (h _ _ _ hxy hyz) (forall₂_comp h hrest hrest2)

theorem SymbolTable.SameShape.shape_trans {a b c : SymbolTable} (h1 : a.SameShape b)
    (h2 : b.SameShape c) : a.SameShape c := by
  refine ⟨h2.1.trans h1.1, Nat.le_trans h1.2.1 h2.2.1, ?_⟩
  refine forall₂_comp ?_ h1.2.2 h2.2.2
  intro x y z hxy hyz
  exact ⟨hyz.1.trans hxy.1, hyz.2.trans hxy.2⟩

theorem SymbolTable.SameOutside.outside_trans {a b c : SymbolTable} (h1 : a.SameOutside b)
    (h2 : b.SameOutside c) : a.SameOutside c := by
  refine ⟨h2.1.trans h1.1, Nat.le_trans h1.2.1 h2.2.1, ?_⟩
  refine forall₂_comp ?_ h1.2.2 h2.2.2
  intro x y z hxy hyz
  refine ⟨hyz.1.trans hxy.1, hyz.2.1.trans hxy.2.1, fun hne => ?_⟩
  rw [hyz.2.2 (by rw [hxy.1, h1.1]; exact hne), hxy.2.2 hne]

theorem SymbolTable.SameOutside.shape {a b : SymbolTable} (h : a.SameOutside b) :
    a.SameShape b :=
  ⟨h.1, h.2.1, h.2.2.imp (fun _ _ hab => ⟨hab.1, hab.2.1⟩)⟩

theorem forall₂_ids_lt {a b : List Environment} {n : Nat}
    (h : List.Forall₂ (fun e e2 : Environment => e2.id = e.id ∧ e2.parent = e.parent) a b)
    (ha : ∀ e ∈ a, e.id < n) : ∀ e ∈ b, e.id < n := by
  induction h with
  | nil => intro e he; simp at he
  | cons hab _ ih =>
    intro e he
    rcases List.mem_cons.mp he with he | he
    · subst he
      rw [hab.1]
      exact ha _ (List.mem_cons_self _ _)
    · exact ih (fun e he2 => ha e (List.mem_cons_of_mem _ he2)) e he

theorem SymbolTable.Fresh.of_shape {a b : SymbolTable} (ha : a.Fresh) (h : a.SameShape b) :
    b.Fresh :=
  fun e he => Nat.lt_of_lt_of_le (forall₂_ids_lt h.2.2 ha e he) h.2.1

theorem SymbolTable.Fresh.fresh_new : SymbolTable.new.Fresh := by
  intro e he
  simp [SymbolTable.new] at he

theorem SymbolTable.Fresh.fresh_push (a : SymbolTable) (c : Option Nat) (ha : a.Fresh) :
    (a.set_environment_id c).push_environment.Fresh := by
  intro e he
  simp only [SymbolTable.push_environment, SymbolTable.set_environment_id, List.mem_cons] at he
  show e.id < a.next_id + 1
  rcases he with he | he
  · subst he
    exact Nat.lt_succ_self _
  · exact Nat.lt_succ_of_lt (ha e he)

theorem SymbolTable.sameShape_setIn (st : SymbolTable) (i : Nat) (name : String) (info : Info) :
    st.SameShape (st.setIn i name info) := by
  refine ⟨rfl, Nat.le_refl _, ?_⟩
  unfold SymbolTable.setIn
  simp only
  rw [List.forall₂_map_right_iff]
  refine List.forall₂_same.mpr (fun e _ => ?_)
  by_cases h : (e.id == i) = true <;> simp [h]

theorem SymbolTable.sameOutside_setIn (st : SymbolTable) (i : Nat) (name : String) (info : Info)
    (hc : st.curr = some i) : st.SameOutside (st.setIn i name info) := by
  refine ⟨rfl, Nat.le_refl _, ?_⟩
  unfold SymbolTable.setIn
  simp only
  rw [List.forall₂_map_right_iff]
  refine List.forall₂_same.mpr (fun e _ => ?_)
  by_cases h : e.id = i
  · have hb : (e.id == i) = true := by simp [h]
    simp only [hb, if_true, true_and]
    intro hne
    exact absurd (by rw [hc, h]) hne
  · have hb : (e.id == i) = false := by simp [h]
    simp [hb]

theorem SymbolTable.findFrom_none (st : SymbolTable) (name : String) (depth : Nat) :
    st.findFrom name depth none = none := by
  cases depth <;> rfl

theorem SymbolTable.get_environment_curr (st : SymbolTable) (i : Nat) (name : String)
    (info : Info) (hc : st.curr = some i) (e : Environment)
    (h : (st.setIn i name info).get_environment name = some e) : e.id = i := by
  unfold SymbolTable.get_environment at h
  have hcur : (st.setIn i name info).curr = some i := hc
  rw [hcur] at h
  cases hl : (st.setIn i name info).envs.length with
  | zero => simp [hl, SymbolTable.findFrom] at h
  | succ n =>
    rw [hl, SymbolTable.findFrom, SymbolTable.env?_setIn] at h
    cases he : st.env? i with
    | none => simp [he] at h
    | some e0 =>
      have hid := st.env?_id i e0 he
      have hb : (e0.id == i) = true := by simp [hid]
      simp only [he, Option.map_some', hb, if_true] at h
      simp [List.lookup] at h
      rw [← h]
      exact hid

theorem SymbolTable.sameOutside_declare (st : SymbolTable) (name : String) (info : Info) :
    st.SameOutside ((st.add_name name).set_info name info) := by
  cases hc : st.curr with
  | none =>
    have hadd : st.add_name name = st := by simp [SymbolTable.add_name, hc]
    have hset : st.set_info name info = st := by
      simp [SymbolTable.set_info, SymbolTable.get_environment, hc, SymbolTable.findFrom_none]
    rw [hadd, hset]
    exact SymbolTable.SameOutside.outside_refl st
  | some i =>
    have hadd : st.add_name name = st.setIn i name .none := by
      simp [SymbolTable.add_name, hc]
    rw [hadd]
    have h1 := st.sameOutside_setIn i name .none hc
    unfold SymbolTable.set_info
    cases hg : (st.setIn i name .none).get_environment name with
    | none => exact h1
    | some e =>
      simp only
      have hid := st.get_environment_curr i name .none hc e hg
      rw [hid]
      exact h1.outside_trans ((st.setIn i name .none).sameOutside_setIn i name info hc)

theorem SymbolTable.sameShape_set_info (st : SymbolTable) (name : String) (info : Info) :
    st.SameShape (st.set_info name info) := by
  unfold SymbolTable.set_info
  cases st.get_environment name with
  | none => exact SymbolTable.SameShape.shape_refl st
  | some e => exact st.sameShape_setIn e.id name info

theorem filter_ids_ne (n : Nat) : ∀ l : List Environment, (∀ e ∈ l, e.id < n) →
    l.filter (fun e => e.id != n) = l := by
  intro l h
  refine List.filter_eq_self.mpr (fun e he => ?_)
  have := h e he
  simp
  omega

/-- A pop after a push: when the table `b` has the shape of the table `a` with one
environment pushed on the environment `c`, popping `b` gives the shape of `a` with `c` as
the current environment. -/
theorem SymbolTable.SameShape.shape_pop {a b : SymbolTable} (c : Option Nat) (ha : a.Fresh)
    (h : (a.set_environment_id c).push_environment.SameShape b) :
    b.pop_environment.curr = c ∧ a.next_id ≤ b.pop_environment.next_id ∧
      List.Forall₂ (fun e e2 : Environment => e2.id = e.id ∧ e2.parent = e.parent)
        a.envs b.pop_environment.envs := by
  obtain ⟨hcur, hnext, hall⟩ := h
  have hcur2 : b.curr = some a.next_id := hcur
  have hnext2 : a.next_id + 1 ≤ b.next_id := hnext
  have hall2 : List.Forall₂ (fun e e2 : Environment => e2.id = e.id ∧ e2.parent = e.parent)
      (⟨a.next_id, c, []⟩ :: a.envs) b.envs := hall
  cases hb : b.envs with
  | nil => rw [hb] at hall2; cases hall2
  | cons e0 rest =>
    rw [hb] at hall2
    obtain ⟨h0, hrest⟩ := List.forall₂_cons.mp hall2
    have hid0 : e0.id = a.next_id := h0.1
    have hpar0 : e0.parent = c := h0.2
    have hlt : ∀ e ∈ rest, e.id < a.next_id := forall₂_ids_lt hrest ha
    have hpop : b.pop_environment = ⟨rest, c, b.next_id⟩ := by
      unfold SymbolTable.pop_environment
      rw [hcur2]
      simp only [SymbolTable.env?, hb, List.find?, hid0, beq_self_eq_true, Option.bind, hpar0]
      have hf : List.filter (fun e : Environment => e.id != a.next_id) (e0 :: rest) = rest := by
        simp only [List.filter, hid0, bne_self_eq_false]
        exact filter_ids_ne a.next_id rest hlt
      rw [hf]
    rw [hpop]
    exact ⟨rfl, Nat.le_of_succ_le hnext2, hrest⟩

theorem forall₂_eq_of_outside {n : Nat} {cur : Option Nat} {a b : List Environment}
    (h : List.Forall₂ (fun e e2 : Environment =>
      e2.id = e.id ∧ e2.parent = e.parent ∧ (some e.id ≠ cur → e2.names = e.names)) a b)
    (hc : cur = some n) (ha : ∀ e ∈ a, e.id < n) : b = a := by
  induction h with
  | nil => rfl
  | @cons x y xs ys hxy _ ih =>
    have hx : x.id < n := ha x (List.mem_cons_self _ _)
    have hnames : y.names = x.names := hxy.2.2 (by
      rw [hc]
      intro he
      have : x.id = n := Option.some.inj he
      omega)
    have hy : y = x := by
      cases x
      cases y
      simp only at hxy hnames
      simp [hxy.1, hxy.2.1, hnames]
    rw [hy, ih (fun e he => ha e (List.mem_cons_of_mem _ he))]

/-- A pop after a push: when the table `b` differs from `a` with one environment pushed
only in the bindings of that environment, popping `b` gives back `a`, but for `next_id`. -/
theorem SymbolTable.SameOutside.outside_pop {a b : SymbolTable} (ha : a.Fresh)
    (h : a.push_environment.SameOutside b) :
    b.pop_environment = { a with next_id := b.next_id } := by
  obtain ⟨hcur, _, hall⟩ := h
  have hcur2 : b.curr = some a.next_id := hcur
  have hall2 : List.Forall₂ (fun e e2 : Environment =>
      e2.id = e.id ∧ e2.parent = e.parent ∧ (some e.id ≠ some a.next_id → e2.names = e.names))
      (⟨a.next_id, a.curr, []⟩ :: a.envs) b.envs := hall
  cases hb : b.envs with
  | nil => rw [hb] at hall2; cases hall2
  | cons e0 rest =>
    rw [hb] at hall2
    obtain ⟨h0, hrest⟩ := List.forall₂_cons.mp hall2
    have hid0 : e0.id = a.next_id := h0.1
    have hpar0 : e0.parent = a.curr := h0.2.1
    have hrest2 : rest = a.envs := forall₂_eq_of_outside hrest rfl ha
    have hlt : ∀ e ∈ rest, e.id < a.next_id := by rw [hrest2]; exact ha
    unfold SymbolTable.pop_environment
    rw [hcur2]
    simp only [SymbolTable.env?, hb, List.find?, hid0, beq_self_eq_true, Option.bind, hpar0]
    have hf : List.filter (fun e : Environment => e.id != a.next_id) (e0 :: rest) = rest := by
      simp only [List.filter, hid0, bne_self_eq_false]
      exact filter_ids_ne a.next_id rest hlt
    rw [hf, hrest2]

/-! ## Theorems: the statements of the type checker change the current environment only -/

theorem SymbolTable.sameOutside_next_id (a : SymbolTable) (m : Nat) (h : a.next_id ≤ m) :
    a.SameOutside { a with next_id := m } :=
  ⟨rfl, h, List.forall₂_same.mpr (fun _ _ => ⟨rfl, rfl, fun _ => rfl⟩)⟩

theorem TypeChecker.pop_sameOutside (tc c : TypeChecker) (hf : tc.sym_table.Fresh)
    (h : tc.push.sym_table.SameOutside c.sym_table) :
    tc.sym_table.SameOutside c.pop.sym_table := by
  have hp : c.pop.sym_table = { tc.sym_table with next_id := c.sym_table.next_id } :=
    SymbolTable.SameOutside.outside_pop hf h
  rw [hp]
  exact tc.sym_table.sameOutside_next_id _ (Nat.le_trans (Nat.le_succ _) h.2.1)

theorem TypeChecker.visitVarDeclStmt_outside (tc : TypeChecker) (node : VarDeclStmt) :
    (tc.visitVarDeclStmt node).Sem (fun r => tc.sym_table.SameOutside r.sym_table) := by
  unfold TypeChecker.visitVarDeclStmt
  refine Run.Sem.bind (P := fun r => r.sym_table = tc.sym_table) ?_ (fun a ha => ?_)
  · repeat' split
    all_goals rfl
  refine Run.Sem.bind (TypeChecker.visitExpr_keeps tc.sym_table node.expr a ha) (fun b hb => ?_)
  dsimp only
  refine Run.Sem.bind (P := fun r => r.sym_table = tc.sym_table) ?_ (fun c hc => ?_)
  · repeat' split
    all_goals first
      | exact hb
      | exact Run.Sem.error _ _ _
  split
  · exact Run.Sem.error _ _ _
  · show tc.sym_table.SameOutside ((c.sym_table.add_name _).set_info _ _)
    rw [hc]
    exact tc.sym_table.sameOutside_declare _ _

theorem TypeChecker.visitAssignStmt_keeps (tc : TypeChecker) (l : List Token) (expr : Expr) :
    (tc.visitAssignStmt l expr).Sem (fun r => r.sym_table = tc.sym_table) := by
  unfold TypeChecker.visitAssignStmt
  dsimp only
  refine Run.Sem.bind (TypeChecker.lvalueLoop_keeps tc.sym_table _ l tc 1 "" rfl) (fun a ha => ?_)
  refine Run.Sem.bind (TypeChecker.visitExpr_keeps tc.sym_table expr a ha) (fun b hb => ?_)
  exact Run.Sem.ite _ _ _ _ (Run.Sem.error _ _ _) hb

theorem TypeChecker.visitReturnStmt_outside (tc : TypeChecker) (expr : Expr) :
    (tc.visitReturnStmt expr).Sem (fun r => tc.sym_table.SameOutside r.sym_table) := by
  unfold TypeChecker.visitReturnStmt
  refine Run.Sem.bind (TypeChecker.visitExpr_keeps tc.sym_table expr tc rfl) (fun a ha => ?_)
  show tc.sym_table.SameOutside ((a.sym_table.add_name _).set_info _ _)
  rw [ha]
  exact tc.sym_table.sameOutside_declare _ _

theorem TypeChecker.block_outside (st0 : SymbolTable) (a : TypeChecker) (r : Run TypeChecker)
    (h0 : st0.Fresh) (ha : st0.SameOutside a.sym_table)
    (hr : r.Sem (fun c => a.push.sym_table.SameOutside c.sym_table)) :
    (r >>= fun c => pure c.pop).Sem (fun c => st0.SameOutside c.sym_table) :=
  Run.Sem.bind hr (fun c hc =>
    ha.outside_trans (a.pop_sameOutside c (h0.of_shape ha.shape) hc))

mutual
theorem TypeChecker.visitStmt_outside : ∀ (s : Stmt) (tc : TypeChecker) (st0 : SymbolTable),
    st0.Fresh → st0.SameOutside tc.sym_table →
    (TypeChecker.visitStmt tc s).Sem (fun r => st0.SameOutside r.sym_table)
  | .VarDecl v, tc, st0, h0, h => by
    unfold TypeChecker.visitStmt
    exact Run.Sem.sem_mono (tc.visitVarDeclStmt_outside v) (fun a ha => h.outside_trans ha)
  | .AssignStmt lvalue_list expr, tc, st0, h0, h => by
    unfold TypeChecker.visitStmt
    exact Run.Sem.sem_mono (tc.visitAssignStmt_keeps lvalue_list expr)
      (fun a ha => by rw [ha]; exact h)
  | .ReturnStmt expr, tc, st0, h0, h => by
    unfold TypeChecker.visitStmt
    exact Run.Sem.sem_mono (tc.visitReturnStmt_outside expr) (fun a ha => h.outside_trans ha)
  | .CallExpr function_id arg_list, tc, st0, h0, h => by
    unfold TypeChecker.visitStmt TypeChecker.visitCallExpr
    exact Run.Sem.sem_mono (TypeChecker.visitRValue_keeps tc.sym_table _ tc rfl)
      (fun a ha => by rw [ha]; exact h)
  | .IfStmt if_part else_ifs body_stmts, tc, st0, h0, h => by
    unfold TypeChecker.visitStmt
    refine Run.Sem.bind (TypeChecker.visitBasicIf_outside if_part tc st0 h0 h) (fun a ha => ?_)
    refine Run.Sem.bind (TypeChecker.visitElseIfs_outside else_ifs a st0 h0 ha) (fun b hb => ?_)
    cases body_stmts with
    | nil => exact hb
    | cons s ss =>
      exact TypeChecker.block_outside st0 b _ h0 hb
        (TypeChecker.visitStmts_outside (s :: ss) b.push _
          (SymbolTable.Fresh.fresh_push _ b.sym_table.curr (h0.of_shape hb.shape))
          (SymbolTable.SameOutside.outside_refl _))
  | .WhileStmt expr stmts, tc, st0, h0, h => by
    unfold TypeChecker.visitStmt
    refine Run.Sem.bind (TypeChecker.visitExpr_keeps tc.sym_table expr tc rfl) (fun a ha => ?_)
    have ha2 : st0.SameOutside a.sym_table := by rw [ha]; exact h
    split
    · exact Run.Sem.error _ _ _
    · exact TypeChecker.block_outside st0 a _ h0 ha2
        (TypeChecker.visitStmts_outside stmts a.push _
          (SymbolTable.Fresh.fresh_push _ a.sym_table.curr (h0.of_shape ha2.shape))
          (SymbolTable.SameOutside.outside_refl _))
  | .ForStmt var_id start end_ stmts, tc, st0, h0, h => by
    unfold TypeChecker.visitStmt
    refine Run.Sem.bind (TypeChecker.visitExpr_keeps tc.sym_table start tc rfl) (fun a ha => ?_)
    split
    · exact Run.Sem.error _ _ _
    · refine Run.Sem.bind (TypeChecker.visitExpr_keeps tc.sym_table end_ a ha) (fun b hb => ?_)
      have hb2 : st0.SameOutside b.sym_table := by rw [hb]; exact h
      split
      · exact Run.Sem.error _ _ _
      · exact TypeChecker.block_outside st0 b _ h0 hb2
          (TypeChecker.visitStmts_outside stmts b.push _
            (SymbolTable.Fresh.fresh_push _ b.sym_table.curr (h0.of_shape hb2.shape))
            (SymbolTable.SameOutside.outside_refl _))
theorem TypeChecker.visitBasicIf_outside : ∀ (s : BasicIf) (tc : TypeChecker)
    (st0 : SymbolTable), st0.Fresh → st0.SameOutside tc.sym_table →
    (TypeChecker.visitBasicIf tc s).Sem (fun r => st0.SameOutside r.sym_table)
  | .mk expr stmts, tc, st0, h0, h => by
    unfold TypeChecker.visitBasicIf
    refine Run.Sem.bind (TypeChecker.visitExpr_keeps tc.sym_table expr tc rfl) (fun a ha => ?_)
    have ha2 : st0.SameOutside a.sym_table := by rw [ha]; exact h
    split
    · exact Run.Sem.error _ _ _
    · exact TypeChecker.block_outside st0 a _ h0 ha2
        (TypeChecker.visitStmts_outside stmts a.push _
          (SymbolTable.Fresh.fresh_push _ a.sym_table.curr (h0.of_shape ha2.shape))
          (SymbolTable.SameOutside.outside_refl _))
theorem TypeChecker.visitElseIfs_outside : ∀ (l : List BasicIf) (tc : TypeChecker)
    (st0 : SymbolTable), st0.Fresh → st0.SameOutside tc.sym_table →
    (TypeChecker.visitElseIfs tc l).Sem (fun r => st0.SameOutside r.sym_table)
  | [], tc, st0, h0, h => by
    unfold TypeChecker.visitElseIfs
    exact h
  | s :: rest, tc, st0, h0, h => by
    unfold TypeChecker.visitElseIfs
    exact Run.Sem.bind (TypeChecker.visitBasicIf_outside s tc st0 h0 h)
      (fun a ha => TypeChecker.visitElseIfs_outside rest a st0 h0 ha)
theorem TypeChecker.visitStmts_outside : ∀ (l : List Stmt) (tc : TypeChecker)
    (st0 : SymbolTable), st0.Fresh → st0.SameOutside tc.sym_table →
    (TypeChecker.visitStmts tc l).Sem (fun r => st0.SameOutside r.sym_table)
  | [], tc, st0, h0, h => by
    unfold TypeChecker.visitStmts
    exact h
  | s :: rest, tc, st0, h0, h => by
    unfold TypeChecker.visitStmts
    exact Run.Sem.bind (TypeChecker.visitStmt_outside s tc st0 h0 h)
      (fun a ha => TypeChecker.visitStmts_outside rest a st0 h0 ha)
end

/-! ## Theorems: what `visit(FunDecl&)` leaves in the environment it is entered in -/

theorem SymbolTable.info?_declare (st : SymbolTable) (i : Nat) (env : Environment)
    (name : String) (info : Info) (hc : st.curr = some i) (he : st.env? i = some env) :
    ((st.add_name name).set_info name info).info? name = some info := by
  rw [st.declare_eq i env name info hc he]
  have he1 := st.env?_setIn i name .none i
  rw [he] at he1
  exact ((st.setIn i name .none).info?_setIn i _ name info hc he1).2

theorem TypeChecker.paramLoop_other (name : String) :
    ∀ (params : List FunParam) (tc : TypeChecker) (the_type : List String),
      name ∉ params.map (fun p => p.id.lexeme) →
      (TypeChecker.paramLoop tc the_type params).1.sym_table.info? name
          = tc.sym_table.info? name ∧
        (TypeChecker.paramLoop tc the_type params).1.sym_table.name_exists_in_curr_env name
          = tc.sym_table.name_exists_in_curr_env name
  | [], tc, the_type, _ => ⟨rfl, rfl⟩
  | p :: rest, tc, the_type, h => by
    unfold TypeChecker.paramLoop
    have hne : name ≠ p.id.lexeme := fun e => h (by simp [e])
    have hrest : name ∉ rest.map (fun p => p.id.lexeme) := fun e => h (by simp [e])
    have ih := TypeChecker.paramLoop_other name rest
      (tc.declare_str p.id.lexeme p.type.lexeme) (the_type ++ [p.type.lexeme]) hrest
    refine ⟨ih.1.trans ?_, ih.2.trans ?_⟩
    · exact tc.sym_table.info?_declare_other p.id.lexeme name _ hne
    · exact tc.sym_table.in_curr_env_declare_other p.id.lexeme name _ hne

theorem TypeChecker.paramLoop_curr :
    ∀ (params : List FunParam) (tc : TypeChecker) (the_type : List String) (i : Nat)
      (env : Environment), tc.sym_table.curr = some i → tc.sym_table.env? i = some env →
      (TypeChecker.paramLoop tc the_type params).1.sym_table.curr = some i ∧
        ∃ env2, (TypeChecker.paramLoop tc the_type params).1.sym_table.env? i = some env2
  | [], tc, the_type, i, env, hc, he => ⟨hc, env, he⟩
  | p :: rest, tc, the_type, i, env, hc, he => by
    unfold TypeChecker.paramLoop
    obtain ⟨hc2, env2, he2⟩ := tc.sym_table.env?_declare i env p.id.lexeme
      (.str p.type.lexeme) hc he
    exact TypeChecker.paramLoop_curr rest _ _ i env2 hc2 he2

theorem TypeChecker.paramLoop_bound :
    ∀ (params : List FunParam) (tc : TypeChecker) (the_type : List String) (i : Nat)
      (env : Environment), tc.sym_table.curr = some i → tc.sym_table.env? i = some env →
      (params.map (fun p => p.id.lexeme)).Nodup →
      ∀ p ∈ params,
        (TypeChecker.paramLoop tc the_type params).1.sym_table.info? p.id.lexeme
            = some (.str p.type.lexeme) ∧
          (TypeChecker.paramLoop tc the_type params).1.sym_table.name_exists_in_curr_env
            p.id.lexeme = true
  | [], _, _, _, _, _, _, _ => by
    intro p hp
    simp at hp
  | q :: rest, tc, the_type, i, env, hc, he, hnd => by
    intro p hp
    unfold TypeChecker.paramLoop
    have hnd2 := List.nodup_cons.mp hnd
    obtain ⟨hc2, env2, he2⟩ := tc.sym_table.env?_declare i env q.id.lexeme
      (.str q.type.lexeme) hc he
    rcases List.mem_cons.mp hp with hpq | hpr
    · subst hpq
      have ho := TypeChecker.paramLoop_other p.id.lexeme rest
        (tc.declare_str p.id.lexeme p.type.lexeme) (the_type ++ [p.type.lexeme]) hnd2.1
      refine ⟨ho.1.trans ?_, ho.2.trans ?_⟩
      · exact tc.sym_table.info?_declare i env _ _ hc he
      · exact tc.sym_table.in_curr_env_declare i env _ _ hc he
    · exact TypeChecker.paramLoop_bound rest _ _ i env2 hc2 he2 hnd2.2 p hpr

theorem TypeChecker.paramLoop_outside :
    ∀ (params : List FunParam) (tc : TypeChecker) (the_type : List String),
      tc.sym_table.SameOutside (TypeChecker.paramLoop tc the_type params).1.sym_table
  | [], tc, _ => SymbolTable.SameOutside.outside_refl _
  | p :: rest, tc, the_type => by
    unfold TypeChecker.paramLoop
    exact (tc.sym_table.sameOutside_declare _ _).outside_trans
      (TypeChecker.paramLoop_outside rest _ _)

theorem TypeChecker.visitFunDecl_redeclared (tc : TypeChecker) (return_type id : Token)
    (params : List FunParam) (stmts : List Stmt)
    (h : tc.sym_table.name_exists_in_curr_env id.lexeme = true) :
    tc.visitFunDecl return_type id params stmts
      = .raise ⟨.SEMANTIC, "Redeclaration of function ", some (id.line, id.column)⟩ := by
  unfold TypeChecker.visitFunDecl
  simp only [h, if_true]
  rfl

theorem TypeChecker.visitTypeDecl_redeclared (tc : TypeChecker) (id : Token)
    (vdecls : List VarDeclStmt) (h : tc.sym_table.name_exists_in_curr_env id.lexeme = true) :
    tc.visitTypeDecl id vdecls
      = .raise ⟨.SEMANTIC, "User Defined Type is already in scope ",
          some (id.line, id.column)⟩ := by
  unfold TypeChecker.visitTypeDecl
  simp only [h, if_true]
  rfl

theorem SymbolTable.findFrom_congr (a b : SymbolTable) (name : String)
    (he : a.envs = b.envs) :
    ∀ (depth : Nat) (from_ : Option Nat),
      a.findFrom name depth from_ = b.findFrom name depth from_
  | 0, _ => by simp [SymbolTable.findFrom]
  | _ + 1, none => by simp [SymbolTable.findFrom]
  | depth + 1, some i => by
    have henv : a.env? i = b.env? i := by
      unfold SymbolTable.env?
      rw [he]
    simp only [SymbolTable.findFrom, henv]
    cases b.env? i with
    | none => rfl
    | some e =>
      simp only
      rw [SymbolTable.findFrom_congr a b name he depth e.parent]

theorem SymbolTable.info?_congr (a b : SymbolTable) (name : String) (he : a.envs = b.envs)
    (hc : a.curr = b.curr) : a.info? name = b.info? name := by
  unfold SymbolTable.info? SymbolTable.get_environment
  rw [SymbolTable.findFrom_congr a b name he, he, hc]

theorem SymbolTable.in_curr_env_congr (a b : SymbolTable) (name : String) (he : a.envs = b.envs)
    (hc : a.curr = b.curr) : a.name_exists_in_curr_env name = b.name_exists_in_curr_env name := by
  cases a
  cases b
  simp only at he hc
  subst he
  subst hc
  rfl

/-- When `visit(FunDecl&)` accepts a declaration, the environments and the current
environment it ends with are those of the state with the parameters and the function name
declared in the environment current on entry: the body environment has been popped and
nothing else has changed. -/
theorem TypeChecker.visitFunDecl_result (tc tc2 : TypeChecker) (return_type id : Token)
    (params : List FunParam) (stmts : List Stmt) (hf : tc.sym_table.Fresh)
    (hok : tc.visitFunDecl return_type id params stmts = .ok tc2) :
    tc2.sym_table.envs =
        ((TypeChecker.paramLoop tc [] params).1.declare_vec id.lexeme
          ((TypeChecker.paramLoop tc [] params).2 ++ [return_type.lexeme])).sym_table.envs ∧
      tc2.sym_table.curr =
        ((TypeChecker.paramLoop tc [] params).1.declare_vec id.lexeme
          ((TypeChecker.paramLoop tc [] params).2 ++ [return_type.lexeme])).sym_table.curr := by
  unfold TypeChecker.visitFunDecl at hok
  split at hok
  · cases hok
  · dsimp only at hok
    obtain ⟨a, ha, hok1⟩ := Run.bind_eq_ok hok
    have ha2 : a = tc := by
      revert ha
      repeat' split
      all_goals first
        | (intro ha; exact (Run.ok.inj ha).symm)
        | (intro ha; cases ha)
    rw [ha2] at hok1
    obtain ⟨b, hb, hok2⟩ := Run.bind_eq_ok hok1
    have hb2 : b = tc := by
      revert hb
      repeat' split
      all_goals first
        | (intro hb; exact (Run.ok.inj hb).symm)
        | (intro hb; cases hb)
    rw [hb2] at hok2
    obtain ⟨c, hc, hok3⟩ := Run.bind_eq_ok hok2
    have hpre : tc.sym_table.SameOutside
        ((TypeChecker.paramLoop tc [] params).1.declare_vec id.lexeme
          ((TypeChecker.paramLoop tc [] params).2 ++ [return_type.lexeme])).sym_table :=
      (TypeChecker.paramLoop_outside params tc []).outside_trans
        (SymbolTable.sameOutside_declare _ _ _)
    have hfpre := hf.of_shape hpre.shape
    have hsem := TypeChecker.visitStmts_outside stmts
      ((((TypeChecker.paramLoop tc [] params).1.declare_vec id.lexeme
          ((TypeChecker.paramLoop tc [] params).2 ++ [return_type.lexeme])).push).declare_str
            "return" return_type.lexeme)
      ((TypeChecker.paramLoop tc [] params).1.declare_vec id.lexeme
          ((TypeChecker.paramLoop tc [] params).2 ++ [return_type.lexeme])).push.sym_table
      (SymbolTable.Fresh.fresh_push _ _ hfpre) (SymbolTable.sameOutside_declare _ _ _)
    rw [hc] at hsem
    have hpop := SymbolTable.SameOutside.outside_pop hfpre hsem
    have htc2 : tc2 = c.pop := (Run.ok.inj hok3).symm
    rw [htc2]
    have hpop2 : c.pop.sym_table = _ := hpop
    rw [hpop2]
    exact ⟨rfl, rfl⟩

theorem builtinChecker_fresh : builtinChecker.sym_table.Fresh := by
  unfold SymbolTable.Fresh
  decide

theorem SymbolTable.in_curr_env_declare_keeps (st : SymbolTable) (i : Nat) (env : Environment)
    (name other : String) (info : Info) (hc : st.curr = some i) (he : st.env? i = some env)
    (h : st.name_exists_in_curr_env other = true) :
    ((st.add_name name).set_info name info).name_exists_in_curr_env other = true := by
  by_cases hn : other = name
  · rw [hn]
    exact st.in_curr_env_declare i env name info hc he
  · rw [st.in_curr_env_declare_other name other info hn]
    exact h

theorem TypeChecker.paramLoop_keeps_in_curr (name : String) :
    ∀ (params : List FunParam) (tc : TypeChecker) (the_type : List String) (i : Nat)
      (env : Environment), tc.sym_table.curr = some i → tc.sym_table.env? i = some env →
      tc.sym_table.name_exists_in_curr_env name = true →
      (TypeChecker.paramLoop tc the_type params).1.sym_table.name_exists_in_curr_env name = true
  | [], _, _, _, _, _, _, h => h
  | q :: rest, tc, the_type, i, env, hc, he, h => by
    unfold TypeChecker.paramLoop
    obtain ⟨hc2, env2, he2⟩ := tc.sym_table.env?_declare i env q.id.lexeme
      (.str q.type.lexeme) hc he
    exact TypeChecker.paramLoop_keeps_in_curr name rest _ _ i env2 hc2 he2
      (tc.sym_table.in_curr_env_declare_keeps i env _ _ _ hc he h)

theorem TypeChecker.paramLoop_in_curr :
    ∀ (params : List FunParam) (tc : TypeChecker) (the_type : List String) (i : Nat)
      (env : Environment), tc.sym_table.curr = some i → tc.sym_table.env? i = some env →
      ∀ p ∈ params,
        (TypeChecker.paramLoop tc the_type params).1.sym_table.name_exists_in_curr_env
          p.id.lexeme = true
  | [], _, _, _, _, _, _ => by
    intro p hp
    simp at hp
  | q :: rest, tc, the_type, i, env, hc, he => by
    intro p hp
    unfold TypeChecker.paramLoop
    obtain ⟨hc2, env2, he2⟩ := tc.sym_table.env?_declare i env q.id.lexeme
      (.str q.type.lexeme) hc he
    rcases List.mem_cons.mp hp with hpq | hpr
    · subst hpq
      exact TypeChecker.paramLoop_keeps_in_curr p.id.lexeme rest _ _ i env2 hc2 he2
        (tc.sym_table.in_curr_env_declare i env _ _ hc he)
    · exact TypeChecker.paramLoop_in_curr rest _ _ i env2 hc2 he2 p hpr

theorem TypeChecker.paramLoop_append :
    ∀ (a b : List FunParam) (tc : TypeChecker) (the_type : List String),
      TypeChecker.paramLoop tc the_type (a ++ b)
        = TypeChecker.paramLoop (TypeChecker.paramLoop tc the_type a).1
            (TypeChecker.paramLoop tc the_type a).2 b
  | [], _, _, _ => rfl
  | q :: rest, b, tc, the_type => by
    exact TypeChecker.paramLoop_append rest b (tc.declare_str q.id.lexeme q.type.lexeme)
      (the_type ++ [q.type.lexeme])

theorem TypeChecker.paramLoop_types :
    ∀ (params : List FunParam) (tc : TypeChecker) (the_type : List String),
      (TypeChecker.paramLoop tc the_type params).2
        = the_type ++ params.map (fun p => p.type.lexeme)
  | [], _, the_type => by simp [TypeChecker.paramLoop]
  | q :: rest, tc, the_type => by
    unfold TypeChecker.paramLoop
    rw [TypeChecker.paramLoop_types rest]
    simp

/-- The type stored under the name of a parameter after the parameter loop is the declared
type of the last parameter of that name. -/
theorem TypeChecker.paramLoop_last (tc : TypeChecker) (the_type : List String) (i : Nat)
    (env : Environment) (hc : tc.sym_table.curr = some i) (he : tc.sym_table.env? i = some env)
    (pre : List FunParam) (p : FunParam) (post : List FunParam)
    (hlast : p.id.lexeme ∉ post.map (fun q => q.id.lexeme)) :
    (TypeChecker.paramLoop tc the_type (pre ++ p :: post)).1.sym_table.info? p.id.lexeme
      = some (.str p.type.lexeme) := by
  rw [TypeChecker.paramLoop_append]
  obtain ⟨hc1, env1, he1⟩ := TypeChecker.paramLoop_curr pre tc the_type i env hc he
  unfold TypeChecker.paramLoop
  have ho := TypeChecker.paramLoop_other p.id.lexeme post
    ((TypeChecker.paramLoop tc the_type pre).1.declare_str p.id.lexeme p.type.lexeme)
    ((TypeChecker.paramLoop tc the_type pre).2 ++ [p.type.lexeme]) hlast
  rw [ho.1]
  exact SymbolTable.info?_declare _ i env1 _ _ hc1 he1

/-- Counterexample to claim C38, in the global environment with the built-in functions:
`fun nil f(x: int, x: string) end` is accepted and leaves `x` bound to the type `string`,
not to the declared type `int` of the first parameter; `fun nil f(f: int) end` is accepted
and leaves `f` bound to no type name at all, because the signature of the function is
stored under the same name after the parameters. -/
theorem parameter_type_overwritten :
    ((builtinChecker.visitFunDecl (tk .NIL "nil") (tk .ID "f")
        [⟨tk .ID "x", tk .INT_TYPE "int"⟩, ⟨tk .ID "x", tk .STRING_TYPE "string"⟩] []).bind
      fun tc2 => .ok (tc2.sym_table.get_str_info "x")) = .ok (some "string") ∧
    ((builtinChecker.visitFunDecl (tk .NIL "nil") (tk .ID "f")
        [⟨tk .ID "f", tk .INT_TYPE "int"⟩] []).bind
      fun tc2 => .ok (tc2.sym_table.get_str_info "f", tc2.sym_table.get_vec_info "f"))
      = .ok (none, some ["int", "nil"]) := by
  decide

/-- Claim C38 as amended: when `visit(FunDecl&)` accepts a declaration entered in a symbol
table with a current environment, that environment is again the current one afterwards and
every parameter name is bound in it, so that a later function or UDT declaration with the
name of one of the parameters is rejected as a redeclaration. The type stored under the
name of a parameter is the declared type of the last parameter of that name, unless the
name is the name of the function: that name holds no type name but the signature of the
function, the parameter types followed by the return type. -/
theorem params_bound_in_entry_environment (tc tc2 : TypeChecker) (return_type id : Token)
    (params : List FunParam) (stmts : List Stmt) (i : Nat) (env : Environment)
    (hf : tc.sym_table.Fresh) (hc : tc.sym_table.curr = some i)
    (he : tc.sym_table.env? i = some env)
    (hok : tc.visitFunDecl return_type id params stmts = .ok tc2) :
    tc2.sym_table.curr = some i ∧
    (∀ p ∈ params,
      tc2.sym_table.name_exists_in_curr_env p.id.lexeme = true ∧
      (∀ (return_type2 : Token) (params2 : List FunParam) (stmts2 : List Stmt),
        tc2.visitFunDecl return_type2 p.id params2 stmts2
          = .raise ⟨.SEMANTIC, "Redeclaration of function ", some (p.id.line, p.id.column)⟩) ∧
      (∀ vdecls : List VarDeclStmt, tc2.visitTypeDecl p.id vdecls
          = .raise ⟨.SEMANTIC, "User Defined Type is already in scope ",
              some (p.id.line, p.id.column)⟩)) ∧
    (∀ (pre : List FunParam) (p : FunParam) (post : List FunParam),
      params = pre ++ p :: post → p.id.lexeme ∉ post.map (fun q => q.id.lexeme) →
      p.id.lexeme ≠ id.lexeme →
      tc2.sym_table.get_str_info p.id.lexeme = some p.type.lexeme) ∧
    tc2.sym_table.get_str_info id.lexeme = none ∧
    tc2.sym_table.get_vec_info id.lexeme
      = some (params.map (fun p => p.type.lexeme) ++ [return_type.lexeme]) := by
  have hm := TypeChecker.visitFunDecl_result tc tc2 return_type id params stmts hf hok
  have hpre : tc.sym_table.SameOutside
      ((TypeChecker.paramLoop tc [] params).1.declare_vec id.lexeme
        ((TypeChecker.paramLoop tc [] params).2 ++ [return_type.lexeme])).sym_table :=
    (TypeChecker.paramLoop_outside params tc []).outside_trans (SymbolTable.sameOutside_declare _ _ _)
  have hcur : tc2.sym_table.curr = some i := hm.2.trans (hpre.1.trans hc)
  obtain ⟨hc1, env1, he1⟩ := TypeChecker.paramLoop_curr params tc [] i env hc he
  have hidinfo : tc2.sym_table.info? id.lexeme
      = some (.vec (params.map (fun p => p.type.lexeme) ++ [return_type.lexeme])) := by
    have hty := TypeChecker.paramLoop_types params tc []
    simp only [List.nil_append] at hty
    rw [SymbolTable.info?_congr _ _ _ hm.1 hm.2, ← hty]
    exact SymbolTable.info?_declare (TypeChecker.paramLoop tc [] params).1.sym_table i env1
      id.lexeme (.vec ((TypeChecker.paramLoop tc [] params).2 ++ [return_type.lexeme])) hc1 he1
  refine ⟨hcur, fun p hp => ?_, fun pre p post hpar hlast hne => ?_, ?_, ?_⟩
  · have hin : tc2.sym_table.name_exists_in_curr_env p.id.lexeme = true :=
      (SymbolTable.in_curr_env_congr _ _ _ hm.1 hm.2).trans
        (SymbolTable.in_curr_env_declare_keeps _ i env1 _ _ _ hc1 he1
          (TypeChecker.paramLoop_in_curr params tc [] i env hc he p hp))
    exact ⟨hin, fun r2 p2 s2 => tc2.visitFunDecl_redeclared r2 p.id p2 s2 hin,
      fun vdecls => tc2.visitTypeDecl_redeclared p.id vdecls hin⟩
  · have hinfo : tc2.sym_table.info? p.id.lexeme = some (.str p.type.lexeme) := by
      rw [SymbolTable.info?_congr _ _ _ hm.1 hm.2, hpar]
      exact (SymbolTable.info?_declare_other _ id.lexeme p.id.lexeme _ hne).trans
        (TypeChecker.paramLoop_last tc [] i env hc he pre p post hlast)
    unfold SymbolTable.get_str_info
    rw [hinfo]
  · unfold SymbolTable.get_str_info
    rw [hidinfo]
  · unfold SymbolTable.get_vec_info
    rw [hidinfo]

theorem params_bound_in_entry_environment_witness :
    builtinChecker.sym_table.curr = some 0 ∧
    ∃ tc2, builtinChecker.visitFunDecl (tk .NIL "nil") (tk .ID "f")
        [⟨tk .ID "x", tk .INT_TYPE "int"⟩, ⟨tk .ID "y", tk .STRING_TYPE "string"⟩,
          ⟨tk .ID "x", tk .BOOL_TYPE "bool"⟩] [] = .ok tc2
      ∧ tc2.sym_table.curr = some 0
      ∧ tc2.sym_table.name_exists_in_curr_env "y" = true
      ∧ tc2.visitTypeDecl (tk .ID "y") []
          = .raise ⟨.SEMANTIC, "User Defined Type is already in scope ", some (0, 0)⟩
      ∧ tc2.sym_table.get_str_info "y" = some "string"
      ∧ tc2.sym_table.get_str_info "x" = some "bool"
      ∧ tc2.sym_table.get_vec_info "f" = some ["int", "string", "bool", "nil"] :=
  have hw := params_bound_in_entry_environment builtinChecker _ (tk .NIL "nil") (tk .ID "f")
    [⟨tk .ID "x", tk .INT_TYPE "int"⟩, ⟨tk .ID "y", tk .STRING_TYPE "string"⟩,
      ⟨tk .ID "x", tk .BOOL_TYPE "bool"⟩] [] 0 _ builtinChecker_fresh rfl rfl rfl
  ⟨rfl, _, rfl, hw.1,
    (hw.2.1 ⟨tk .ID "y", tk .STRING_TYPE "string"⟩ (by simp)).1,
    (hw.2.1 ⟨tk .ID "y", tk .STRING_TYPE "string"⟩ (by simp)).2.2 [],
    hw.2.2.1 [⟨tk .ID "x", tk .INT_TYPE "int"⟩] ⟨tk .ID "y", tk .STRING_TYPE "string"⟩
      [⟨tk .ID "x", tk .BOOL_TYPE "bool"⟩] rfl (by decide) (by decide),
    hw.2.2.1 [⟨tk .ID "x", tk .INT_TYPE "int"⟩, ⟨tk .ID "y", tk .STRING_TYPE "string"⟩]
      ⟨tk .ID "x", tk .BOOL_TYPE "bool"⟩ [] rfl (by decide) (by decide),
    hw.2.2.2.2⟩

/-! ## Theorems: the interpreter keeps the shape of its symbol table -/

theorem Run.Holds.holds_bind {α β : Type} {P : α → Prop} {Q : β → Prop} {r : Run α} {f : α → Run β}
    (hr : r.Holds P) (hf : ∀ a, P a → (f a).Holds Q) : (r >>= f).Holds Q := by
  cases r with
  | ok a => exact hf a hr
  | raise e => trivial
  | crash w => trivial
  | timeout => trivial

theorem Run.Holds.holds_mono {α : Type} {P Q : α → Prop} {r : Run α} (h : r.Holds P)
    (hpq : ∀ a, P a → Q a) : r.Holds Q := by
  cases r with
  | ok a => exact hpq a h
  | raise e => trivial
  | crash w => trivial
  | timeout => trivial

theorem Run.Holds.of_eq {α : Type} {P : α → Prop} {r : Run α} {a : α} (h : r.Holds P)
    (hr : r = .ok a) : P a := by
  rw [hr] at h
  exact h

theorem Run.Holds.holds_ite {α : Type} (P : α → Prop) (c : Prop) {d : Decidable c} (a b : Run α)
    (ha : a.Holds P) (hb : b.Holds P) : (@ite (Run α) c d a b).Holds P := by
  cases d with
  | isTrue hc => exact ha
  | isFalse hc => exact hb

theorem Interpreter.setCmp_sym_table (it : Interpreter) (r : Option Bool) :
    (it.setCmp r).sym_table = it.sym_table := by
  cases r <;> rfl

theorem Interpreter.compareCase_keeps (code : TokenType → Nat) (it : Interpreter)
    (l r : DataObject) :
    (it.compareCase code l r).Holds (fun x => x.sym_table = it.sym_table) := by
  unfold Interpreter.compareCase
  cases l <;> cases r <;> first
    | trivial
    | exact Interpreter.setCmp_sym_table _ _

theorem Interpreter.arithCase_keeps (code : TokenType → Nat) (it : Interpreter)
    (l r : DataObject) :
    (it.arithCase code l r).Holds (fun x => x.sym_table = it.sym_table) := by
  unfold Interpreter.arithCase
  cases l <;> cases r <;> try first
    | trivial
    | rfl
  · rename_i a b
    simp only
    cases arithInt code a b with
    | ok v => cases v <;> rfl
    | raise e => trivial
    | crash w => trivial
    | timeout => trivial
  · rename_i a b
    simp only
    cases arithDouble code a b <;> rfl

theorem Interpreter.boolCase_keeps (code : TokenType → Nat) (it : Interpreter) (op : Token)
    (l r : DataObject) :
    (it.boolCase code op l r).Holds (fun x => x.sym_table = it.sym_table) := by
  unfold Interpreter.boolCase
  split
  · cases l <;> cases r <;> try trivial
    simp only
    repeat' split
    all_goals rfl
  · rfl

theorem Interpreter.applyOp_keeps (code : TokenType → Nat) (it : Interpreter) (op : Token)
    (l r : DataObject) :
    (it.applyOp code op l r).Holds (fun x => x.sym_table = it.sym_table) := by
  unfold Interpreter.applyOp
  dsimp only
  split
  · refine Run.Holds.holds_bind (it.compareCase_keeps code l r) (fun a ha => ?_)
    refine Run.Holds.holds_bind (a.arithCase_keeps code l r) (fun b hb => ?_)
    exact Run.Holds.holds_mono (b.boolCase_keeps code op l r) (fun c hc => hc.trans (hb.trans ha))
  · split
    · refine Run.Holds.holds_bind (it.arithCase_keeps code l r) (fun b hb => ?_)
      exact Run.Holds.holds_mono (b.boolCase_keeps code op l r) (fun c hc => hc.trans hb)
    · split
      · exact it.boolCase_keeps code op l r
      · rfl

theorem Interpreter.simpleRValue_keeps (it : Interpreter) (value : Token) :
    (it.visitSimpleRValue value).Holds (fun x => x.sym_table = it.sym_table) := by
  unfold Interpreter.visitSimpleRValue
  repeat' split
  all_goals first
    | rfl
    | trivial
    | (cases stoi value.lexeme <;> first | rfl | trivial)
    | (cases stod value.lexeme <;> first | rfl | trivial)

theorem Interpreter.visitIDRValue_keeps (it : Interpreter) (path : List Token) :
    (it.visitIDRValue path).Holds (fun x => x.sym_table = it.sym_table) := by
  unfold Interpreter.visitIDRValue
  split
  · trivial
  · split <;> rfl
  · refine Run.Holds.holds_bind (P := fun _ => True) ?_ (fun a _ => ?_)
    · cases it.walkPath _ _ <;> trivial
    · refine Run.Holds.holds_bind (P := fun _ => True) ?_ (fun b _ => ?_)
      · cases it.objectOf _ <;> trivial
      · dsimp only
        repeat' split
        all_goals first
          | rfl
          | trivial

theorem Interpreter.assignTo_shape (it : Interpreter) (l : List Token) :
    (it.assignTo l).Holds (fun x => it.sym_table.SameShape x.sym_table) := by
  unfold Interpreter.assignTo
  split
  · trivial
  · exact it.sym_table.sameShape_set_info _ _
  · refine Run.Holds.holds_bind (P := fun _ => True) ?_ (fun a _ => ?_)
    · cases it.walkPath _ _ <;> trivial
    · refine Run.Holds.holds_bind (P := fun _ => True) ?_ (fun b _ => ?_)
      · cases it.objectOf _ <;> trivial
      · dsimp only
        repeat' split
        all_goals first
          | exact SymbolTable.SameShape.shape_refl _
          | trivial

theorem Interpreter.declare_outside (it : Interpreter) (name : String) (obj : DataObject) :
    it.sym_table.SameOutside (it.declare name obj).sym_table :=
  it.sym_table.sameOutside_declare name (.val obj)

theorem Interpreter.bindVar_outside (it : Interpreter) (id : Token) :
    it.sym_table.SameOutside (it.bindVar id).sym_table := by
  unfold Interpreter.bindVar
  split
  all_goals first
    | exact it.declare_outside _ _
    | exact SymbolTable.SameOutside.outside_refl _

theorem Interpreter.bindParams_outside :
    ∀ (params : List FunParam) (args : List DataObject) (it : Interpreter),
      (it.bindParams params args).Holds (fun x => it.sym_table.SameOutside x.sym_table)
  | [], _, it => by
    unfold Interpreter.bindParams
    exact SymbolTable.SameOutside.outside_refl _
  | _ :: _, [], it => by
    unfold Interpreter.bindParams
    trivial
  | p :: ps, a :: as, it => by
    unfold Interpreter.bindParams
    exact Run.Holds.holds_mono (Interpreter.bindParams_outside ps as (it.declare p.id.lexeme a))
      (fun x hx => (it.declare_outside _ _).outside_trans hx)

theorem Interpreter.builtinResult_keeps (it : Interpreter) (fun_name : String) :
    (it.builtinResult fun_name).Holds (fun x => x.sym_table = it.sym_table) := by
  unfold Interpreter.builtinResult
  dsimp only
  repeat' split
  all_goals first
    | rfl
    | trivial
    | (cases stoi _ <;> first | rfl | trivial)
    | (cases stod _ <;> first | rfl | trivial)

theorem Interpreter.pop_shape (a c : Interpreter) (hf : a.sym_table.Fresh)
    (h : a.push.sym_table.SameShape c.sym_table) :
    a.sym_table.SameShape c.pop.sym_table := by
  have h2 : (a.sym_table.set_environment_id a.sym_table.curr).push_environment.SameShape
      c.sym_table := h
  exact SymbolTable.SameShape.shape_pop a.sym_table.curr hf h2

theorem Interpreter.push_fresh (a : Interpreter) (hf : a.sym_table.Fresh) :
    a.push.sym_table.Fresh :=
  SymbolTable.Fresh.fresh_push a.sym_table a.sym_table.curr hf

/-- A block: statements run in a pushed environment, followed by the pop. -/
theorem Interpreter.block_shape (st0 : SymbolTable) (a : Interpreter) (r : Run Interpreter)
    (h0 : st0.Fresh) (ha : st0.SameShape a.sym_table)
    (hr : r.Holds (fun c => a.push.sym_table.SameShape c.sym_table)) :
    (r >>= fun c => pure c.pop).Holds (fun c => st0.SameShape c.sym_table) :=
  Run.Holds.holds_bind hr (fun c hc => ha.shape_trans (a.pop_shape c (h0.of_shape ha) hc))

theorem Interpreter.boolValue_holds (it : Interpreter) : it.boolValue.Holds (fun _ => True) := by
  cases it.boolValue <;> trivial

theorem Interpreter.shape_all (code : TokenType → Nat) : ∀ fuel : Nat,
    (∀ (it : Interpreter) (e : Expr) (st0 : SymbolTable), st0.Fresh →
      st0.SameShape it.sym_table →
      (Interpreter.visitExpr code fuel it e).Holds (fun x => st0.SameShape x.sym_table)) ∧
    (∀ (it : Interpreter) (e : ExprTerm) (st0 : SymbolTable), st0.Fresh →
      st0.SameShape it.sym_table →
      (Interpreter.visitExprTerm code fuel it e).Holds (fun x => st0.SameShape x.sym_table)) ∧
    (∀ (it : Interpreter) (e : RValue) (st0 : SymbolTable), st0.Fresh →
      st0.SameShape it.sym_table →
      (Interpreter.visitRValue code fuel it e).Holds (fun x => st0.SameShape x.sym_table)) ∧
    (∀ (it : Interpreter) (f : Token) (args : List Expr) (st0 : SymbolTable), st0.Fresh →
      st0.SameShape it.sym_table →
      (Interpreter.visitCallExpr code fuel it f args).Holds
        (fun x => st0.SameShape x.sym_table)) ∧
    (∀ (it : Interpreter) (s : Stmt) (st0 : SymbolTable), st0.Fresh →
      st0.SameShape it.sym_table →
      (Interpreter.visitStmt code fuel it s).Holds (fun x => st0.SameShape x.sym_table)) ∧
    (∀ (it : Interpreter) (l : List Stmt) (st0 : SymbolTable), st0.Fresh →
      st0.SameShape it.sym_table →
      (Interpreter.visitStmts code fuel it l).Holds (fun x => st0.SameShape x.sym_table)) ∧
    (∀ (it : Interpreter) (l : List BasicIf) (entered v : Bool) (st0 : SymbolTable),
      st0.Fresh → st0.SameShape it.sym_table →
      (Interpreter.elseifLoop code fuel it l entered v).Holds
        (fun x => st0.SameShape x.1.sym_table)) ∧
    (∀ (it : Interpreter) (l : List Stmt) (st0 : SymbolTable), st0.Fresh →
      st0.SameShape it.sym_table →
      (Interpreter.elseLoop code fuel it l).Holds (fun x => st0.SameShape x.sym_table)) ∧
    (∀ (it : Interpreter) (e : Expr) (l : List Stmt) (v : Bool) (st0 : SymbolTable),
      st0.Fresh → st0.SameShape it.sym_table →
      (Interpreter.whileLoop code fuel it e l v).Holds (fun x => st0.SameShape x.sym_table)) ∧
    (∀ (it : Interpreter) (l : List Stmt) (i n : Int) (st0 : SymbolTable), st0.Fresh →
      st0.SameShape it.sym_table →
      (Interpreter.forLoop code fuel it l i n).Holds (fun x => st0.SameShape x.sym_table)) := by
  intro fuel
  induction fuel with
  | zero =>
    refine ⟨?_, ?_, ?_, ?_, ?_, ?_, ?_, ?_, ?_, ?_⟩
    · intro it e st0 _ _; rw [Interpreter.visitExpr]; trivial
    · intro it e st0 _ _; rw [Interpreter.visitExprTerm]; trivial
    · intro it e st0 _ _; rw [Interpreter.visitRValue]; trivial
    · intro it f args st0 _ _; rw [Interpreter.visitCallExpr]; trivial
    · intro it s st0 _ _; rw [Interpreter.visitStmt]; trivial
    · intro it l st0 _ _; rw [Interpreter.visitStmts]; trivial
    · intro it l entered v st0 _ _; rw [Interpreter.elseifLoop]; trivial
    · intro it l st0 _ _; rw [Interpreter.elseLoop]; trivial
    · intro it e l v st0 _ _; rw [Interpreter.whileLoop]; trivial
    · intro it l i n st0 _ _; rw [Interpreter.forLoop]; trivial
  | succ fuel ih =>
    obtain ⟨ihE, ihT, ihR, ihC, ihS, ihSs, ihEi, ihEl, ihW, ihF⟩ := ih
    refine ⟨?_, ?_, ?_, ?_, ?_, ?_, ?_, ?_, ?_, ?_⟩
    · -- visitExpr
      intro it e st0 h0 h
      cases e with
      | single negated first =>
        rw [Interpreter.visitExpr]
        split
        · refine Run.Holds.holds_bind (ihT it first st0 h0 h) (fun a ha => ?_)
          refine Run.Holds.holds_bind a.boolValue_holds (fun v _ => ?_)
          exact ha
        · exact ihT it first st0 h0 h
      | binary negated first op rest =>
        rw [Interpreter.visitExpr]
        split
        · refine Run.Holds.holds_bind (ihT it first st0 h0 h) (fun a ha => ?_)
          refine Run.Holds.holds_bind a.boolValue_holds (fun v _ => ?_)
          exact ha
        · refine Run.Holds.holds_bind (ihT it first st0 h0 h) (fun a ha => ?_)
          refine Run.Holds.holds_bind (ihE a rest st0 h0 ha) (fun b hb => ?_)
          exact Run.Holds.holds_mono (b.applyOp_keeps code op _ _) (fun c hc => by rw [hc]; exact hb)
    · -- visitExprTerm
      intro it e st0 h0 h
      cases e with
      | SimpleTerm rvalue => rw [Interpreter.visitExprTerm]; exact ihR it rvalue st0 h0 h
      | ComplexTerm expr => rw [Interpreter.visitExprTerm]; exact ihE it expr st0 h0 h
    · -- visitRValue
      intro it e st0 h0 h
      cases e with
      | SimpleRValue value =>
        rw [Interpreter.visitRValue]
        exact Run.Holds.holds_mono (it.simpleRValue_keeps value) (fun c hc => by rw [hc]; exact h)
      | NewRValue type_id =>
        rw [Interpreter.visitRValue]
        exact h
      | CallExpr function_id arg_list =>
        rw [Interpreter.visitRValue]
        exact ihC it function_id arg_list st0 h0 h
      | IDRValue path =>
        rw [Interpreter.visitRValue]
        exact Run.Holds.holds_mono (it.visitIDRValue_keeps path) (fun c hc => by rw [hc]; exact h)
      | NegatedRValue expr =>
        rw [Interpreter.visitRValue]
        refine Run.Holds.holds_bind (ihE it expr st0 h0 h) (fun a ha => ?_)
        split
        · exact ha
        · refine Run.Holds.holds_bind (P := fun _ => True) ?_ (fun v _ => ha)
          cases checkInt _ <;> trivial
        · trivial
    · -- visitCallExpr
      intro it f args st0 h0 h
      unfold Interpreter.visitCallExpr
      dsimp only
      split
      · split
        · trivial
        · refine Run.Holds.holds_bind (ihE it _ st0 h0 h) (fun a ha => ?_)
          exact ha
      · split
        · split
          · trivial
          · refine Run.Holds.holds_bind (ihE it _ st0 h0 h) (fun a ha => ?_)
            exact Run.Holds.holds_mono (a.builtinResult_keeps _) (fun c hc => by rw [hc]; exact ha)
        · split
          · split
            · trivial
            · refine Run.Holds.holds_bind (ihE it _ st0 h0 h) (fun a ha => ?_)
              refine Run.Holds.holds_bind (P := fun _ => True) ?_ (fun idx _ => ?_)
              · split <;> trivial
              · split
                · trivial
                · refine Run.Holds.holds_bind (ihE a _ st0 h0 ha) (fun b hb => ?_)
                  dsimp only
                  split
                  · trivial
                  · split
                    · exact hb
                    · trivial
          · split
            · split
              · trivial
              · refine Run.Holds.holds_bind (ihE it _ st0 h0 h) (fun a ha => ?_)
                exact Run.Holds.holds_mono (a.builtinResult_keeps _)
                  (fun c hc => by rw [hc]; exact ha)
            · split
              · split
                · exact h
                · exact h
              · split
                · trivial
                · rename_i fun_node _
                  have hfi : it.sym_table.Fresh := h0.of_shape h
                  refine Run.Holds.holds_bind
                    (P := fun x => ((it.sym_table.set_environment_id
                      it.global_env_id).push_environment).SameShape x.sym_table) ?_
                    (fun a ha => ?_)
                  · exact Run.Holds.holds_mono (Interpreter.bindParams_outside _ _ _)
                      (fun x hx => hx.shape)
                  · refine Run.Holds.holds_bind
                      (ihSs a fun_node.stmts _ (SymbolTable.Fresh.fresh_push _ _ hfi) ha)
                      (fun b hb => ?_)
                    have hp := SymbolTable.SameShape.shape_pop it.global_env_id hfi hb
                    exact h.shape_trans ⟨rfl, hp.2.1, hp.2.2⟩
    · -- visitStmt
      intro it s st0 h0 h
      cases s with
      | VarDecl v =>
        rw [Interpreter.visitStmt]
        refine Run.Holds.holds_bind (ihE it v.expr st0 h0 h) (fun a ha => ?_)
        exact ha.shape_trans (a.bindVar_outside v.id).shape
      | AssignStmt lvalue_list expr =>
        rw [Interpreter.visitStmt]
        refine Run.Holds.holds_bind (ihE it expr st0 h0 h) (fun a ha => ?_)
        exact Run.Holds.holds_mono (a.assignTo_shape lvalue_list) (fun c hc => ha.shape_trans hc)
      | ReturnStmt expr =>
        rw [Interpreter.visitStmt]
        refine Run.Holds.holds_bind (ihE it expr st0 h0 h) (fun a ha => ?_)
        exact ha
      | CallExpr function_id arg_list =>
        rw [Interpreter.visitStmt]
        exact ihC it function_id arg_list st0 h0 h
      | IfStmt if_part else_ifs body_stmts =>
        rw [Interpreter.visitStmt]
        refine Run.Holds.holds_bind (ihE it _ st0 h0 h) (fun a ha => ?_)
        refine Run.Holds.holds_bind a.boolValue_holds (fun v _ => ?_)
        refine Run.Holds.holds_bind (P := fun x => st0.SameShape x.1.sym_table) ?_ (fun p hp => ?_)
        · split
          · refine Run.Holds.holds_bind
              (ihSs a.push if_part.stmts _ (a.push_fresh (h0.of_shape ha))
                (SymbolTable.SameShape.shape_refl _)) (fun b hb => ?_)
            exact ha.shape_trans (a.pop_shape b (h0.of_shape ha) hb)
          · split
            · exact ihEi a else_ifs false v st0 h0 ha
            · exact ha
        · obtain ⟨it2, entered⟩ := p
          dsimp only
          split
          · exact Interpreter.block_shape st0 it2 _ h0 hp
              (ihEl it2.push body_stmts _ (it2.push_fresh (h0.of_shape hp))
                (SymbolTable.SameShape.shape_refl _))
          · exact hp
      | WhileStmt expr stmts =>
        rw [Interpreter.visitStmt]
        refine Run.Holds.holds_bind (ihE it expr st0 h0 h) (fun a ha => ?_)
        refine Run.Holds.holds_bind a.boolValue_holds (fun v _ => ?_)
        exact Interpreter.block_shape st0 a _ h0 ha
          (ihW a.push expr stmts v _ (a.push_fresh (h0.of_shape ha))
            (SymbolTable.SameShape.shape_refl _))
      | ForStmt var_id start end_ stmts =>
        rw [Interpreter.visitStmt]
        dsimp only
        have hfi : it.sym_table.Fresh := h0.of_shape h
        refine Run.Holds.holds_bind
          (ihE it.push start it.push.sym_table (it.push_fresh hfi)
            (SymbolTable.SameShape.shape_refl _)) (fun a ha => ?_)
        refine Run.Holds.holds_bind (P := fun _ => True) ?_ (fun num _ => ?_)
        · split <;> trivial
        have ha2 : it.push.sym_table.SameShape (a.declare var_id.lexeme a.curr_val).sym_table :=
          ha.shape_trans (a.declare_outside _ _).shape
        refine Run.Holds.holds_bind
          (ihE _ end_ it.push.sym_table (it.push_fresh hfi) ha2) (fun b hb => ?_)
        have hfb : b.sym_table.Fresh := (it.push_fresh hfi).of_shape hb
        refine Run.Holds.holds_bind
          (ihF b.push stmts _ _ b.push.sym_table (b.push_fresh hfb)
            (SymbolTable.SameShape.shape_refl _)) (fun c hc => ?_)
        have h1 : it.push.sym_table.SameShape c.pop.sym_table :=
          hb.shape_trans (b.pop_shape c hfb hc)
        exact h.shape_trans (it.pop_shape c.pop hfi h1)
    · -- visitStmts
      intro it l st0 h0 h
      cases l with
      | nil => rw [Interpreter.visitStmts]; exact h
      | cons s rest =>
        rw [Interpreter.visitStmts]
        exact Run.Holds.holds_bind (ihS it s st0 h0 h) (fun a ha => ihSs a rest st0 h0 ha)
    · -- elseifLoop
      intro it l entered v st0 h0 h
      unfold Interpreter.elseifLoop
      split
      · split
        · trivial
        · refine Run.Holds.holds_bind (ihE it _ st0 h0 h) (fun a ha => ?_)
          dsimp only
          split
          · refine Run.Holds.holds_bind
              (ihSs a.push _ _ (a.push_fresh (h0.of_shape ha))
                (SymbolTable.SameShape.shape_refl _)) (fun b hb => ?_)
            exact ihEi b.pop _ true _ st0 h0 (ha.shape_trans (a.pop_shape b (h0.of_shape ha) hb))
          · exact ihEi a _ entered _ st0 h0 ha
      · exact h
    · -- elseLoop
      intro it l st0 h0 h
      unfold Interpreter.elseLoop
      split
      · split
        · trivial
        · exact Run.Holds.holds_bind (ihS it _ st0 h0 h) (fun a ha => ihEl a _ st0 h0 ha)
      · exact h
    · -- whileLoop
      intro it e l v st0 h0 h
      rw [Interpreter.whileLoop]
      split
      · refine Run.Holds.holds_bind (ihSs it l st0 h0 h) (fun a ha => ?_)
        refine Run.Holds.holds_bind (ihE a e st0 h0 ha) (fun b hb => ?_)
        exact ihW b e l _ st0 h0 hb
      · exact h
    · -- forLoop
      intro it l i n st0 h0 h
      rw [Interpreter.forLoop]
      split
      · refine Run.Holds.holds_bind (ihSs it l st0 h0 h) (fun a ha => ?_)
        refine Run.Holds.holds_bind (P := fun _ => True) ?_ (fun j _ => ihF a l j n st0 h0 ha)
        cases checkInt _ <;> trivial
      · exact h

theorem forall₂_map_id {a b : List Environment}
    (h : List.Forall₂ (fun e e2 : Environment => e2.id = e.id ∧ e2.parent = e.parent) a b) :
    b.map (fun e => e.id) = a.map (fun e => e.id) := by
  induction h with
  | nil => rfl
  | cons hab _ ih => simp [hab.1, ih]

theorem callState_fresh : callState.sym_table.Fresh := by
  unfold SymbolTable.Fresh
  decide

/-- Claim C36: when `Interpreter::visit(CallExpr&)` returns, on a symbol table whose
environment ids are below `next_id`, the active environment is the one that was active
before the call, the environments are the same ones as before the call, with the same ids
and in the same order, and none of them has the id `next_id` that the frame pushed for the
call got: the frame has been popped. -/
theorem call_restores_environment (code : TokenType → Nat) (fuel : Nat) (it it2 : Interpreter)
    (f : Token) (args : List Expr) (hf : it.sym_table.Fresh)
    (hok : Interpreter.visitCallExpr code fuel it f args = .ok it2) :
    it2.sym_table.get_environment_id = it.sym_table.get_environment_id ∧
    it2.sym_table.envs.map (fun e => e.id) = it.sym_table.envs.map (fun e => e.id) ∧
    ∀ e ∈ it2.sym_table.envs, e.id ≠ it.sym_table.next_id := by
  have h := ((Interpreter.shape_all code fuel).2.2.2.1 it f args it.sym_table hf
    (SymbolTable.SameShape.shape_refl _)).of_eq hok
  refine ⟨h.1, forall₂_map_id h.2.2, fun e he => ?_⟩
  exact Nat.ne_of_lt (forall₂_ids_lt h.2.2 hf e he)

theorem call_restores_environment_witness :
    callState.sym_table.get_environment_id = some 0 ∧
    ∃ it2, Interpreter.visitCallExpr declOrder 7 callState (tk .ID "f")
        [litExpr (tk .INT_VAL "5")] = .ok it2
      ∧ it2.cout = ">>>2\n"
      ∧ it2.sym_table.get_environment_id = some 0
      ∧ it2.sym_table.envs.map (fun e => e.id) = [0] :=
  ⟨rfl, _, rfl, rfl,
    (call_restores_environment declOrder 7 callState _ (tk .ID "f")
      [litExpr (tk .INT_VAL "5")] callState_fresh rfl).1,
    (call_restores_environment declOrder 7 callState _ (tk .ID "f")
      [litExpr (tk .INT_VAL "5")] callState_fresh rfl).2.1⟩

theorem SymbolTable.get_val_info_congr (a b : SymbolTable) (name : String)
    (he : a.envs = b.envs) (hc : a.curr = b.curr) :
    a.get_val_info name = b.get_val_info name := by
  unfold SymbolTable.get_val_info
  rw [SymbolTable.info?_congr a b name he hc]

/-- The block scope of an `if` body that is one declaration. Let `it` be a state whose
environment ids are below `next_id`. Every statement that the interpreter finishes, an
`IfStmt` in particular, leaves the same current environment and the same number of
environments. When the condition `cond` evaluates to true and the initialiser `e`
evaluates, both without touching the symbol table, the statement `if cond then var x = e ...`
whose body is that declaration alone is executed to the end, and afterwards the
environments and the current environment are exactly those of `it`: every lookup, that of
`x` included, yields what it yielded before the statement. -/
theorem if_body_declaration_scoped (code : TokenType → Nat) (n : Nat)
    (it itc ite : Interpreter) (cond e : Expr) (x : Token) (type : Option Token)
    (else_ifs : List BasicIf) (body_stmts : List Stmt)
    (hf : it.sym_table.Fresh)
    (hcond : Interpreter.visitExpr code (n + 2) it cond = .ok itc)
    (hcv : itc.curr_val = .bool true) (hcs : itc.sym_table = it.sym_table)
    (he : Interpreter.visitExpr code n itc.push e = .ok ite)
    (hes : ite.sym_table = itc.push.sym_table) :
    (∀ (fuel : Nat) (s : Stmt) (it3 : Interpreter),
      Interpreter.visitStmt code fuel it s = .ok it3 →
      it3.sym_table.curr = it.sym_table.curr ∧
        it3.sym_table.envs.length = it.sym_table.envs.length) ∧
    ∃ it2, Interpreter.visitStmt code (n + 3) it
        (.IfStmt (.mk cond [.VarDecl ⟨x, type, e⟩]) else_ifs body_stmts) = .ok it2
      ∧ it2.sym_table.envs = it.sym_table.envs
      ∧ it2.sym_table.curr = it.sym_table.curr
      ∧ ∀ y : String, it2.sym_table.get_val_info y = it.sym_table.get_val_info y := by
  constructor
  · intro fuel s it3 hok
    have h := ((Interpreter.shape_all code fuel).2.2.2.2.1 it s it.sym_table hf
      (SymbolTable.SameShape.shape_refl _)).of_eq hok
    exact ⟨h.1, h.2.2.length_eq.symm⟩
  · have hrun : Interpreter.visitStmt code (n + 3) it
        (.IfStmt (.mk cond [.VarDecl ⟨x, type, e⟩]) else_ifs body_stmts)
        = .ok (ite.bindVar x).pop := by
      rw [Interpreter.visitStmt]
      simp only [BasicIf.expr, BasicIf.stmts, bind, Run.bind, hcond, Interpreter.boolValue, hcv,
        if_true, pure]
      rw [Interpreter.visitStmts, Interpreter.visitStmt]
      simp only [bind, Run.bind, he, pure]
      rw [Interpreter.visitStmts]
      simp [pure]
    have hout : itc.sym_table.push_environment.SameOutside (ite.bindVar x).sym_table := by
      have h1 := ite.bindVar_outside x
      rw [hes] at h1
      exact h1
    have hfc : itc.sym_table.Fresh := by rw [hcs]; exact hf
    have hpop : (ite.bindVar x).pop.sym_table
        = { itc.sym_table with next_id := (ite.bindVar x).sym_table.next_id } :=
      SymbolTable.SameOutside.outside_pop hfc hout
    have henvs : (ite.bindVar x).pop.sym_table.envs = it.sym_table.envs := by
      rw [hpop, ← hcs]
    have hcurr : (ite.bindVar x).pop.sym_table.curr = it.sym_table.curr := by
      rw [hpop, ← hcs]
    exact ⟨_, hrun, henvs, hcurr,
      fun y => SymbolTable.get_val_info_congr _ _ y henvs hcurr⟩

theorem if_body_declaration_scoped_witness :
    callState.sym_table.get_val_info "x" = some (.int 1) ∧
    ∃ it2, Interpreter.visitStmt declOrder 6 callState ifDeclaresX = .ok it2
      ∧ it2.sym_table.envs = callState.sym_table.envs
      ∧ it2.sym_table.curr = callState.sym_table.curr
      ∧ it2.sym_table.get_val_info "x" = callState.sym_table.get_val_info "x" :=
  ⟨rfl,
    match (if_body_declaration_scoped declOrder 3 callState
      (callState.set (.bool true)) ((callState.set (.bool true)).push.set (.int 2))
      (litExpr (tk .BOOL_VAL "true")) (litExpr (tk .INT_VAL "2")) (tk .ID "x") none [] []
      callState_fresh rfl rfl rfl rfl rfl).2 with
    | ⟨it2, h1, h2, h3, h4⟩ => ⟨it2, h1, h2, h3, h4 "x"⟩⟩

/-- Claim C33, at a failing input, for every amount of fuel from 20 on. The program
`fun int main() var x = "outer"  if true then var x = nil  x = "inner" end  print(x) end`
prints `inner`: `var x = nil` binds nothing in the block, because `visit(VarDeclStmt&)`
has no case for nil, so the assignment that follows reaches the outer `x`, and the lookup
of `x` after the `if` statement does not yield the value from before. The same holds with
`var x = new T`. With `var x = "block"`, which is bound in the block, the program prints
`outer`. -/
theorem inner_declaration_not_scoped (code : TokenType → Nat) (k : Nat) :
    runOutput code (k + 20) (shadowProgram (litExpr (tk .NIL "nil"))) = .ok "inner" ∧
    runOutput code (k + 20)
        (shadowProgram (.single false (.SimpleTerm (.NewRValue (tk .ID "T")))))
      = .ok "inner" ∧
    runOutput code (k + 20) (shadowProgram (litExpr (tk .STRING_VAL "block"))) = .ok "outer" :=
  ⟨rfl, rfl, rfl⟩

/-- The same on a state whose only environment binds `x` to 1, for every amount of fuel
from 20 on: after `if true then var x = nil  x = 5 end` the environment stack has its depth
of 1 again and a lookup of `x` yields 5; with `var x = 2` it yields 1. -/
theorem outer_x_after_if (code : TokenType → Nat) (k : Nat) :
    (callState.sym_table.get_val_info "x").bind DataObject.int? = some 1 ∧
    callState.sym_table.envs.length = 1 ∧
    outerXAfter code (k + 20) (ifDeclaresThenAssigns (litExpr (tk .NIL "nil")))
      = .ok (some 5, 1) ∧
    outerXAfter code (k + 20) (ifDeclaresThenAssigns (litExpr (tk .INT_VAL "2")))
      = .ok (some 1, 1) :=
  ⟨rfl, rfl, rfl, rfl⟩

/-! ## Theorems: the parser terminates -/

theorem Run.Syn.syn_bind {α β : Type} {P : α → Prop} {Q : β → Prop} {r : Run α} {f : α → Run β}
    (hr : r.Syn P) (hf : ∀ a, P a → (f a).Syn Q) : (r >>= f).Syn Q := by
  cases r with
  | ok a => exact hf a hr
  | raise e => exact hr
  | crash w => exact hr
  | timeout => exact hr

theorem Run.Syn.syn_mono {α : Type} {P Q : α → Prop} {r : Run α} (hr : r.Syn P)
    (h : ∀ a, P a → Q a) : r.Syn Q := by
  cases r with
  | ok a => exact h a hr
  | raise e => exact hr
  | crash w => exact hr
  | timeout => exact hr

theorem Parser.error_syn {α : Type} (P : α → Prop) (p : Parser) (msg : String) :
    (p.error msg : Run α).Syn P := rfl

theorem Parser.Within.within_mono {m k m2 k2 : Nat} {p : Parser} (h : p.Within m k)
    (hle : ∀ n, n + k ≤ m → n + k2 ≤ m2) : p.Within m2 k2 :=
  ⟨h.1, hle _ h.2⟩

theorem Parser.advance_inv (p : Parser) (h : p.Inv) : p.advance.Inv := by
  obtain ⟨lexer, curr⟩ := p
  cases lexer with
  | nil => exact ⟨fun _ => rfl, fun t ht => absurd ht (List.not_mem_nil t)⟩
  | cons t ts =>
    have h2 : ∀ u ∈ t :: ts, u.type ≠ .EOS := h.2
    exact ⟨fun ht => absurd ht (h2 t (List.mem_cons_self _ _)),
      fun u hu => h2 u (List.mem_cons_of_mem _ hu)⟩

theorem Parser.advance_remaining (p : Parser) (h : p.Inv) (hc : p.curr_token.type ≠ .EOS) :
    p.advance.remaining + 1 = p.remaining := by
  obtain ⟨lexer, curr⟩ := p
  have hc2 : curr.type ≠ .EOS := hc
  cases lexer with
  | nil => simp [Parser.advance, Parser.remaining, hc2]
  | cons t ts =>
    have h2 : ∀ u ∈ t :: ts, u.type ≠ .EOS := h.2
    have ht : t.type ≠ .EOS := h2 t (List.mem_cons_self _ _)
    simp [Parser.advance, Parser.remaining, hc2, ht]

theorem Parser.advance_remaining_le (p : Parser) (h : p.Inv) :
    p.advance.remaining ≤ p.remaining := by
  by_cases hc : p.curr_token.type = .EOS
  · have hl := h.1 hc
    obtain ⟨lexer, curr⟩ := p
    have hl2 : lexer = [] := hl
    subst hl2
    simp [Parser.advance, Parser.remaining]
  · have := p.advance_remaining h hc
    omega

theorem Parser.advance_within (p : Parser) (h : p.Inv) (hc : p.curr_token.type ≠ .EOS) :
    p.advance.Within p.remaining 1 :=
  ⟨p.advance_inv h, Nat.le_of_eq (p.advance_remaining h hc)⟩

/-- `eat` of a token kind other than `EOS` consumes one token or raises. -/
theorem Parser.eat_syn (p : Parser) (t : TokenType) (msg : String) (h : p.Inv)
    (ht : t ≠ .EOS) : (p.eat t msg).Syn (Parser.Within p.remaining 1) := by
  unfold Parser.eat
  split
  · rename_i hc
    exact p.advance_within h (by rw [hc]; exact ht)
  · rfl

theorem Parser.dtype_syn (p : Parser) (h : p.Inv) :
    p.dtype.Syn (Parser.Within p.remaining 1) := by
  unfold Parser.dtype
  repeat' split
  all_goals first
    | exact p.eat_syn _ _ h (by decide)
    | rfl

theorem Parser.new_rvalue_syn (p : Parser) (h : p.Inv) :
    p.new_rvalue.Syn (fun x => x.2.Within p.remaining 1) := by
  unfold Parser.new_rvalue
  exact Run.Syn.syn_bind (p.eat_syn .ID _ h (by decide)) (fun a ha => ha)

theorem Parser.pathLoop_syn : ∀ (fuel : Nat) (p : Parser) (path : List Token), p.Inv →
    p.remaining + 1 ≤ fuel →
    (Parser.pathLoop fuel p path).Syn (fun x => x.2.Within p.remaining 0)
  | 0, p, path, _, hf => by omega
  | fuel + 1, p, path, h, hf => by
    unfold Parser.pathLoop
    split
    · refine Run.Syn.syn_bind (p.eat_syn .DOT _ h (by decide)) (fun a ha => ?_)
      refine Run.Syn.syn_bind (a.eat_syn .ID _ ha.1 (by decide)) (fun b hb => ?_)
      have h1 := ha.2
      have h2 := hb.2
      exact Run.Syn.syn_mono (Parser.pathLoop_syn fuel b _ hb.1 (by omega))
        (fun x hx => hx.within_mono (fun n hn => by omega))
    · exact ⟨h, Nat.le_refl _⟩

theorem Parser.lvalueLoop_syn : ∀ (fuel : Nat) (p : Parser) (l : List Token), p.Inv →
    p.remaining + 1 ≤ fuel →
    (Parser.lvalueLoop fuel p l).Syn (fun x => x.2.Within p.remaining 0)
  | 0, p, l, _, hf => by omega
  | fuel + 1, p, l, h, hf => by
    unfold Parser.lvalueLoop
    split
    · refine Run.Syn.syn_bind (p.eat_syn .DOT _ h (by decide)) (fun a ha => ?_)
      refine Run.Syn.syn_bind (a.eat_syn .ID _ ha.1 (by decide)) (fun b hb => ?_)
      have h1 := ha.2
      have h2 := hb.2
      exact Run.Syn.syn_mono (Parser.lvalueLoop_syn fuel b _ hb.1 (by omega))
        (fun x hx => hx.within_mono (fun n hn => by omega))
    · exact ⟨h, Nat.le_refl _⟩

theorem Parser.operator_not_eos (t : TokenType) (h : Parser.is_operator t = true) :
    t ≠ .EOS := by
  cases t <;> simp [Parser.is_operator] at h <;> simp

theorem Parser.optional_eat_syn (p : Parser) (t : TokenType) (msg : String) (m k : Nat)
    (h : p.Within m k) (ht : t ≠ .EOS) :
    (if p.curr_token.type = t then p.eat t msg else pure p : Run Parser).Syn
      (Parser.Within m k) := by
  split
  · exact Run.Syn.syn_mono (p.eat_syn t msg h.1 ht)
      (fun a ha => ha.within_mono (fun n hn => by have := h.2; omega))
  · exact h

theorem Parser.optional_eat_bind {β : Type} (p : Parser) (t : TokenType) (msg : String)
    (f : Parser → Run β) (Q : β → Prop) (m k : Nat) (h : p.Within m k) (ht : t ≠ .EOS)
    (hf : ∀ c : Parser, c.Within m k → (f c).Syn Q) :
    (if p.curr_token.type = t then p.eat t msg >>= f else pure p >>= f).Syn Q := by
  split
  · exact Run.Syn.syn_bind (p.eat_syn t msg h.1 ht)
      (fun a ha => hf a (ha.within_mono (fun n hn => by have := h.2; omega)))
  · exact hf p h

theorem Parser.neg_head {β : Type} (p : Parser) (msg : String)
    (K : Bool × Parser → Run β) (Q : β → Prop) (h : p.Inv)
    (hK : ∀ x : Bool × Parser, x.2.Inv → x.2.remaining ≤ p.remaining →
      (x.2.curr_token.type = .NEG → x.2.remaining + 1 ≤ p.remaining) → (K x).Syn Q) :
    (if p.curr_token.type = .NEG then
      p.eat .NEG msg >>= fun p2 => pure (true, p2) >>= K
    else pure (false, p) >>= K).Syn Q := by
  split
  · refine Run.Syn.syn_bind (p.eat_syn .NEG _ h (by decide)) (fun a ha => ?_)
    exact hK (true, a) ha.1 (Nat.le_of_succ_le ha.2) (fun _ => ha.2)
  · rename_i hneg
    exact hK (false, p) h (Nat.le_refl _) (fun hn => absurd hn hneg)

/-- With fuel linear in the number of tokens left, `expr`, `simple_term` and the argument
loop return or raise a syntax error, and `expr` and `simple_term` consume a token. -/
theorem Parser.expr_syn_all : ∀ fuel : Nat,
    (∀ p : Parser, p.Inv → 2 * p.remaining + 2 ≤ fuel →
      (Parser.expr fuel p).Syn (fun x => x.2.Within p.remaining 1)) ∧
    (∀ p : Parser, p.Inv →
      2 * p.remaining + 1 + (if p.curr_token.type = .NEG then 2 else 0) ≤ fuel →
      (Parser.simple_term fuel p).Syn (fun x => x.2.Within p.remaining 1)) ∧
    (∀ (p : Parser) (acc : List Expr), p.Inv → 2 * p.remaining + 3 ≤ fuel →
      (Parser.argLoop fuel p acc).Syn (fun x => x.2.Within p.remaining 0)) := by
  intro fuel
  induction fuel with
  | zero =>
    refine ⟨fun p _ hf => ?_, fun p _ hf => ?_, fun p acc _ hf => ?_⟩ <;> omega
  | succ fuel ih =>
    obtain ⟨ihE, ihS, ihA⟩ := ih
    refine ⟨fun p h hf => ?_, fun p h hf => ?_, fun p acc h hf => ?_⟩
    · -- expr
      have tail : ∀ (negated : Bool) (first : ExprTerm) (q : Parser), q.Within p.remaining 1 →
          (if Parser.is_operator q.curr_token.type = true then
            Parser.expr fuel q.advance >>= fun d =>
              pure (Expr.binary negated first q.curr_token d.1, d.2)
          else pure (Expr.single negated first, q) : Run (Expr × Parser)).Syn
            (fun x => x.2.Within p.remaining 1) := by
        intro negated first q hq
        split
        · rename_i hop
          have ha := q.advance_within hq.1 (Parser.operator_not_eos _ hop)
          have hq2 := hq.2
          have ha2 := ha.2
          refine Run.Syn.syn_bind (ihE _ ha.1 (by omega)) (fun d hd => ?_)
          exact hd.within_mono (fun n hn => by omega)
        · exact hq
      rw [Parser.expr]
      refine Parser.neg_head p _ _ _ h (fun x h1 hr1 hn1 => ?_)
      obtain ⟨negated, p1⟩ := x
      dsimp only at h1 hr1 hn1 ⊢
      split
      · refine Run.Syn.syn_bind (p1.eat_syn .NOT _ h1 (by decide)) (fun a ha => ?_)
        have ha2 := ha.2
        refine Run.Syn.syn_bind (ihE _ ha.1 (by omega)) (fun d hd => ?_)
        exact tail _ _ _ (hd.within_mono (fun n hn => by omega))
      · split
        · refine Run.Syn.syn_bind (p1.eat_syn .LPAREN _ h1 (by decide)) (fun a ha => ?_)
          have ha2 := ha.2
          refine Run.Syn.syn_bind (ihE _ ha.1 (by omega)) (fun d hd => ?_)
          refine Parser.optional_eat_bind d.2 .RPAREN _ _ _ p.remaining 1
            (hd.within_mono (fun n hn => by omega)) (by decide) (fun c hc => ?_)
          exact tail _ _ _ hc
        · rename_i hnot hlp
          refine Run.Syn.syn_bind (ihS _ h1 ?_) (fun d hd => ?_)
          · split
            · rename_i hn
              have := hn1 hn
              omega
            · omega
          · exact tail _ _ _ (hd.within_mono (fun n hn => by omega))
    · -- simple_term
      have hf0 : 2 * p.remaining + 1 ≤ fuel + 1 := by split at hf <;> omega
      rw [Parser.simple_term]
      dsimp only
      split
      · rename_i hv
        refine p.advance_within h (fun he => ?_)
        rw [he] at hv
        exact absurd hv (by decide)
      · split
        · refine Run.Syn.syn_bind (p.eat_syn .NEW _ h (by decide)) (fun a ha => ?_)
          refine Run.Syn.syn_bind (a.new_rvalue_syn ha.1) (fun d hd => ?_)
          have ha2 := ha.2
          exact hd.within_mono (fun n hn => by omega)
        · split
          · rename_i hneg
            rw [if_pos hneg] at hf
            refine Run.Syn.syn_bind (ihE p h (by omega)) (fun d hd => ?_)
            exact hd
          · split
            · refine Run.Syn.syn_bind (p.eat_syn .ID _ h (by decide)) (fun a ha => ?_)
              have ha2 := ha.2
              split
              · refine Run.Syn.syn_bind (a.eat_syn .LPAREN _ ha.1 (by decide)) (fun b hb => ?_)
                have hb2 := hb.2
                refine Run.Syn.syn_bind (ihA b [] hb.1 (by omega)) (fun d hd => ?_)
                have hd2 := hd.2
                refine Run.Syn.syn_bind (d.2.eat_syn .RPAREN _ hd.1 (by decide)) (fun c hc => ?_)
                exact hc.within_mono (fun n hn => by omega)
              · refine Run.Syn.syn_bind (Parser.pathLoop_syn (fuel + 1) a _ ha.1 (by omega))
                  (fun d hd => ?_)
                exact hd.within_mono (fun n hn => by omega)
            · rfl
    · -- argLoop
      rw [Parser.argLoop]
      dsimp only
      split
      · refine Run.Syn.syn_bind (ihE p h (by omega)) (fun d hd => ?_)
        have hd2 := hd.2
        refine Parser.optional_eat_bind d.2 .COMMA _ _ _ p.remaining 1 hd (by decide)
          (fun c hc => ?_)
        have hc2 := hc.2
        exact Run.Syn.syn_mono (ihA c _ hc.1 (by omega)) (fun y hy => hy.within_mono (fun n hn => by omega))
      · exact ⟨h, Nat.le_refl _⟩
theorem Run.Syn.ite_bind {α β : Type} {c : Prop} [Decidable c] {P : α → Prop} {Q : β → Prop}
    {r1 r2 : Run α} {K : α → Run β} (h1 : c → r1.Syn P) (h2 : ¬c → r2.Syn P)
    (hK : ∀ a, P a → (K a).Syn Q) : (if c then r1 >>= K else r2 >>= K).Syn Q := by
  split
  · rename_i hc
    exact Run.Syn.syn_bind (h1 hc) hK
  · rename_i hc
    exact Run.Syn.syn_bind (h2 hc) hK

theorem Run.Syn.ite_bind_bind {γ α β : Type} {c : Prop} [Decidable c] {R : γ → Prop}
    {P : α → Prop} {Q : β → Prop} {r : Run γ} {g : γ → Run α} {x : α} {K : α → Run β}
    (hr : c → r.Syn R) (hg : ∀ a, R a → (g a).Syn P) (hx : ¬c → P x)
    (hK : ∀ a, P a → (K a).Syn Q) :
    (if c then r >>= fun a => g a >>= K else pure x >>= K).Syn Q := by
  split
  · rename_i hc
    exact Run.Syn.syn_bind (hr hc) (fun a ha => Run.Syn.syn_bind (hg a ha) hK)
  · rename_i hc
    exact hK x (hx hc)

theorem Parser.vdecl_stmt_syn (fuel : Nat) (p : Parser) (h : p.Inv)
    (hf : 2 * p.remaining ≤ fuel) :
    (Parser.vdecl_stmt fuel p).Syn (fun x => x.2.Within p.remaining 1) := by
  unfold Parser.vdecl_stmt
  refine Run.Syn.syn_bind (p.eat_syn .VAR _ h (by decide)) (fun a ha => ?_)
  have ha2 := ha.2
  dsimp only
  refine Run.Syn.syn_bind (a.eat_syn .ID _ ha.1 (by decide)) (fun b hb => ?_)
  have hb2 := hb.2
  refine Run.Syn.ite_bind_bind (R := Parser.Within b.remaining 1)
    (P := fun y : Option Token × Parser => y.2.Within b.remaining 0)
    (fun _ => b.eat_syn .COLON _ hb.1 (by decide)) (fun c hc => ?_) (fun _ => ⟨hb.1, Nat.le_refl _⟩)
    (fun y hy => ?_)
  · have hc2 := hc.2
    have := c.advance_remaining_le hc.1
    exact ⟨c.advance_inv hc.1, by show c.advance.remaining + 0 ≤ b.remaining; omega⟩
  · have hy2 := hy.2
    refine Run.Syn.syn_bind (y.2.eat_syn .ASSIGN _ hy.1 (by decide)) (fun d hd => ?_)
    have hd2 := hd.2
    refine Run.Syn.syn_bind ((Parser.expr_syn_all fuel).1 d hd.1 (by omega)) (fun e he => ?_)
    exact he.within_mono (fun n hn => by omega)

theorem Parser.return_stmt_syn (fuel : Nat) (p : Parser) (h : p.Inv)
    (hf : 2 * p.remaining ≤ fuel) :
    (Parser.return_stmt fuel p).Syn (fun x => x.2.Within p.remaining 1) := by
  unfold Parser.return_stmt
  refine Run.Syn.syn_bind (p.eat_syn .RETURN _ h (by decide)) (fun a ha => ?_)
  have ha2 := ha.2
  refine Run.Syn.syn_bind ((Parser.expr_syn_all fuel).1 a ha.1 (by omega)) (fun d hd => ?_)
  exact hd.within_mono (fun n hn => by omega)

/-- With fuel linear in the number of tokens left, the statement parsers return or raise a
syntax error; a statement consumes a token. -/
theorem Parser.stmt_syn_all : ∀ fuel : Nat,
    (∀ (p : Parser) (stmts : List Stmt), p.Inv → 2 * p.remaining + 3 ≤ fuel →
      (Parser.stmt fuel p stmts).Syn (fun x => x.2.Within p.remaining 1)) ∧
    (∀ (stop : List TokenType) (p : Parser) (stmts : List Stmt), p.Inv →
      2 * p.remaining + 4 ≤ fuel →
      (Parser.stmtLoop stop fuel p stmts).Syn (fun x => x.2.Within p.remaining 0)) ∧
    (∀ (p : Parser) (l : List BasicIf), p.Inv → 2 * p.remaining + 2 ≤ fuel →
      (Parser.elseifLoop fuel p l).Syn (fun x => x.2.Within p.remaining 0)) ∧
    (∀ p : Parser, p.Inv → 2 * p.remaining + 2 ≤ fuel →
      (Parser.if_stmt fuel p).Syn (fun x => x.2.Within p.remaining 1)) ∧
    (∀ p : Parser, p.Inv → 2 * p.remaining + 2 ≤ fuel →
      (Parser.while_stmt fuel p).Syn (fun x => x.2.Within p.remaining 1)) ∧
    (∀ p : Parser, p.Inv → 2 * p.remaining + 2 ≤ fuel →
      (Parser.for_stmt fuel p).Syn (fun x => x.2.Within p.remaining 1)) := by
  intro fuel
  induction fuel with
  | zero =>
    refine ⟨fun p _ _ hf => ?_, fun _ p _ _ hf => ?_, fun p _ _ hf => ?_, fun p _ hf => ?_,
      fun p _ hf => ?_, fun p _ hf => ?_⟩ <;> omega
  | succ fuel ih =>
    obtain ⟨ihStmt, ihLoop, ihElif, ihIf, ihWhile, ihFor⟩ := ih
    have hE := (Parser.expr_syn_all fuel).1
    have hA := (Parser.expr_syn_all fuel).2.2
    refine ⟨fun p stmts h hf => ?_, fun stop p stmts h hf => ?_, fun p l h hf => ?_,
      fun p h hf => ?_, fun p h hf => ?_, fun p h hf => ?_⟩
    · -- stmt
      rw [Parser.stmt]
      split
      · exact Run.Syn.syn_bind (Parser.vdecl_stmt_syn fuel p h (by omega)) (fun d hd => hd)
      · split
        · refine Run.Syn.syn_bind (p.eat_syn .ID _ h (by decide)) (fun a ha => ?_)
          have ha2 := ha.2
          split
          · refine Run.Syn.syn_bind (a.eat_syn .LPAREN _ ha.1 (by decide)) (fun b hb => ?_)
            have hb2 := hb.2
            refine Run.Syn.syn_bind (hA b [] hb.1 (by omega)) (fun d hd => ?_)
            have hd2 := hd.2
            refine Run.Syn.syn_bind (d.2.eat_syn .RPAREN _ hd.1 (by decide)) (fun c hc => ?_)
            exact hc.within_mono (fun n hn => by omega)
          · refine Run.Syn.syn_bind (Parser.lvalueLoop_syn fuel a _ ha.1 (by omega)) (fun d hd => ?_)
            have hd2 := hd.2
            refine Run.Syn.syn_bind (d.2.eat_syn .ASSIGN _ hd.1 (by decide)) (fun c hc => ?_)
            have hc2 := hc.2
            refine Run.Syn.syn_bind (hE c hc.1 (by omega)) (fun e he => ?_)
            exact he.within_mono (fun n hn => by omega)
        · split
          · exact Run.Syn.syn_bind (ihIf p h (by omega)) (fun d hd => hd)
          · split
            · exact Run.Syn.syn_bind (ihWhile p h (by omega)) (fun d hd => hd)
            · split
              · exact Run.Syn.syn_bind (ihFor p h (by omega)) (fun d hd => hd)
              · split
                · exact Run.Syn.syn_bind (Parser.return_stmt_syn fuel p h (by omega)) (fun d hd => hd)
                · rfl
    · -- stmtLoop
      rw [Parser.stmtLoop]
      split
      · refine Run.Syn.syn_bind (ihStmt p stmts h (by omega)) (fun d hd => ?_)
        have hd2 := hd.2
        exact Run.Syn.syn_mono (ihLoop stop d.2 d.1 hd.1 (by omega))
          (fun y hy => hy.within_mono (fun n hn => by omega))
      · exact ⟨h, Nat.le_refl _⟩
    · -- elseifLoop
      rw [Parser.elseifLoop]
      split
      · refine Run.Syn.syn_bind (p.eat_syn .ELSEIF _ h (by decide)) (fun a ha => ?_)
        have ha2 := ha.2
        refine Run.Syn.syn_bind (hE a ha.1 (by omega)) (fun d hd => ?_)
        have hd2 := hd.2
        refine Run.Syn.syn_bind (d.2.eat_syn .THEN _ hd.1 (by decide)) (fun b hb => ?_)
        have hb2 := hb.2
        refine Run.Syn.syn_bind (ihLoop _ b [] hb.1 (by omega)) (fun e he => ?_)
        have he2 := he.2
        exact Run.Syn.syn_mono (ihElif e.2 _ he.1 (by omega))
          (fun y hy => hy.within_mono (fun n hn => by omega))
      · exact ⟨h, Nat.le_refl _⟩
    · -- if_stmt
      rw [Parser.if_stmt]
      refine Run.Syn.syn_bind (p.eat_syn .IF _ h (by decide)) (fun a ha => ?_)
      have ha2 := ha.2
      refine Run.Syn.syn_bind (hE a ha.1 (by omega)) (fun d hd => ?_)
      have hd2 := hd.2
      refine Run.Syn.syn_bind (d.2.eat_syn .THEN _ hd.1 (by decide)) (fun b hb => ?_)
      have hb2 := hb.2
      refine Run.Syn.syn_bind (ihLoop _ b [] hb.1 (by omega)) (fun e he => ?_)
      have he2 := he.2
      dsimp only
      refine Run.Syn.ite_bind (P := fun y : List BasicIf × Parser => y.2.Within e.2.remaining 0)
        (fun _ => ihElif e.2 [] he.1 (by omega)) (fun _ => ⟨he.1, Nat.le_refl _⟩)
        (fun y hy => ?_)
      have hy2 := hy.2
      refine Run.Syn.ite_bind_bind (R := Parser.Within y.2.remaining 1)
        (P := fun z : List Stmt × Parser => z.2.Within y.2.remaining 0)
        (fun _ => y.2.eat_syn .ELSE _ hy.1 (by decide)) (fun c hc => ?_)
        (fun _ => ⟨hy.1, Nat.le_refl _⟩) (fun z hz => ?_)
      · have hc2 := hc.2
        exact Run.Syn.syn_mono (ihLoop _ c [] hc.1 (by omega))
          (fun w hw => hw.within_mono (fun n hn => by omega))
      · have hz2 := hz.2
        refine Run.Syn.syn_bind (z.2.eat_syn .END _ hz.1 (by decide)) (fun c hc => ?_)
        exact hc.within_mono (fun n hn => by omega)
    · -- while_stmt
      rw [Parser.while_stmt]
      refine Run.Syn.syn_bind (p.eat_syn .WHILE _ h (by decide)) (fun a ha => ?_)
      have ha2 := ha.2
      refine Run.Syn.syn_bind (hE a ha.1 (by omega)) (fun d hd => ?_)
      have hd2 := hd.2
      refine Run.Syn.syn_bind (d.2.eat_syn .DO _ hd.1 (by decide)) (fun b hb => ?_)
      have hb2 := hb.2
      refine Run.Syn.syn_bind (ihLoop _ b [] hb.1 (by omega)) (fun e he => ?_)
      have he2 := he.2
      refine Run.Syn.syn_bind (e.2.eat_syn .END _ he.1 (by decide)) (fun c hc => ?_)
      exact hc.within_mono (fun n hn => by omega)
    · -- for_stmt
      rw [Parser.for_stmt]
      dsimp only
      refine Run.Syn.syn_bind (p.eat_syn .FOR _ h (by decide)) (fun a ha => ?_)
      have ha2 := ha.2
      refine Run.Syn.syn_bind (a.eat_syn .ID _ ha.1 (by decide)) (fun a1 ha1 => ?_)
      have ha12 := ha1.2
      refine Run.Syn.syn_bind (a1.eat_syn .ASSIGN _ ha1.1 (by decide)) (fun a3 ha3 => ?_)
      have ha32 := ha3.2
      refine Run.Syn.syn_bind (hE a3 ha3.1 (by omega)) (fun d hd => ?_)
      have hd2 := hd.2
      refine Run.Syn.syn_bind (d.2.eat_syn .TO _ hd.1 (by decide)) (fun b hb => ?_)
      have hb2 := hb.2
      refine Run.Syn.syn_bind (hE b hb.1 (by omega)) (fun d2 hd2 => ?_)
      have hd22 := hd2.2
      refine Run.Syn.syn_bind (d2.2.eat_syn .DO _ hd2.1 (by decide)) (fun b2 hb2 => ?_)
      have hb22 := hb2.2
      refine Run.Syn.syn_bind (ihLoop _ b2 [] hb2.1 (by omega)) (fun e he => ?_)
      have he2 := he.2
      refine Run.Syn.syn_bind (e.2.eat_syn .END _ he.1 (by decide)) (fun c hc => ?_)
      exact hc.within_mono (fun n hn => by omega)

theorem Parser.paramLoop_syn : ∀ (fuel : Nat) (p : Parser) (params : List FunParam), p.Inv →
    p.remaining + 1 ≤ fuel →
    (Parser.paramLoop fuel p params).Syn (fun x => x.2.Within p.remaining 0)
  | 0, p, params, _, hf => by omega
  | fuel + 1, p, params, h, hf => by
    rw [Parser.paramLoop]
    dsimp only
    split
    · have hadv := p.advance_remaining_le h
      refine Run.Syn.syn_bind (p.advance.eat_syn .COLON _ (p.advance_inv h) (by decide))
        (fun a ha => ?_)
      have ha2 := ha.2
      refine Run.Syn.syn_bind (a.dtype_syn ha.1) (fun b hb => ?_)
      have hb2 := hb.2
      refine Parser.optional_eat_bind b .COMMA _ _ _ b.remaining 0 ⟨hb.1, Nat.le_refl _⟩
        (by decide) (fun c hc => ?_)
      have hc2 := hc.2
      exact Run.Syn.syn_mono (Parser.paramLoop_syn fuel c _ hc.1 (by omega))
        (fun y hy => hy.within_mono (fun n hn => by omega))
    · exact ⟨h, Nat.le_refl _⟩

theorem Parser.fdecl_syn (fuel : Nat) (p : Parser) (h : p.Inv) (hf : 2 * p.remaining ≤ fuel) :
    (Parser.fdecl fuel p).Syn (fun x => x.2.Within p.remaining 1) := by
  unfold Parser.fdecl
  refine Run.Syn.syn_bind (p.eat_syn .FUN _ h (by decide)) (fun a ha => ?_)
  have ha2 := ha.2
  dsimp only
  refine Run.Syn.ite_bind (P := Parser.Within a.remaining 1)
    (fun _ => a.eat_syn .NIL _ ha.1 (by decide)) (fun _ => a.dtype_syn ha.1) (fun y hy => ?_)
  have hy2 := hy.2
  refine Run.Syn.syn_bind (y.eat_syn .ID _ hy.1 (by decide)) (fun b hb => ?_)
  have hb2 := hb.2
  refine Run.Syn.syn_bind (b.eat_syn .LPAREN _ hb.1 (by decide)) (fun c hc => ?_)
  have hc2 := hc.2
  refine Run.Syn.syn_bind (Parser.paramLoop_syn fuel c [] hc.1 (by omega)) (fun d hd => ?_)
  have hd2 := hd.2
  refine Run.Syn.syn_bind (d.2.eat_syn .RPAREN _ hd.1 (by decide)) (fun e he => ?_)
  have he2 := he.2
  refine Run.Syn.syn_bind ((Parser.stmt_syn_all fuel).2.1 _ e [] he.1 (by omega)) (fun s hs => ?_)
  have hs2 := hs.2
  refine Run.Syn.syn_bind (s.2.eat_syn .END _ hs.1 (by decide)) (fun g hg => ?_)
  exact hg.within_mono (fun n hn => by omega)

theorem Parser.vdeclLoop_syn : ∀ (fuel : Nat) (p : Parser) (l : List VarDeclStmt), p.Inv →
    2 * p.remaining + 1 ≤ fuel →
    (Parser.vdeclLoop fuel p l).Syn (fun x => x.2.Within p.remaining 0)
  | 0, p, l, _, hf => by omega
  | fuel + 1, p, l, h, hf => by
    rw [Parser.vdeclLoop]
    split
    · refine Run.Syn.syn_bind (Parser.vdecl_stmt_syn fuel p h (by omega)) (fun d hd => ?_)
      have hd2 := hd.2
      exact Run.Syn.syn_mono (Parser.vdeclLoop_syn fuel d.2 _ hd.1 (by omega))
        (fun y hy => hy.within_mono (fun n hn => by omega))
    · exact ⟨h, Nat.le_refl _⟩

theorem Parser.tdecl_syn (fuel : Nat) (p : Parser) (h : p.Inv) (hf : 2 * p.remaining ≤ fuel) :
    (Parser.tdecl fuel p).Syn (fun x => x.2.Within p.remaining 1) := by
  unfold Parser.tdecl
  refine Run.Syn.syn_bind (p.eat_syn .TYPE _ h (by decide)) (fun a ha => ?_)
  have ha2 := ha.2
  refine Run.Syn.syn_bind (a.eat_syn .ID _ ha.1 (by decide)) (fun b hb => ?_)
  have hb2 := hb.2
  refine Run.Syn.syn_bind (Parser.vdeclLoop_syn fuel b [] hb.1 (by omega)) (fun d hd => ?_)
  have hd2 := hd.2
  refine Run.Syn.syn_bind (d.2.eat_syn .END _ hd.1 (by decide)) (fun c hc => ?_)
  exact hc.within_mono (fun n hn => by omega)

theorem Parser.declLoop_syn : ∀ (fuel : Nat) (p : Parser) (l : List Decl), p.Inv →
    2 * p.remaining + 1 ≤ fuel →
    (Parser.declLoop fuel p l).Syn (fun x => x.2.Inv ∧ x.2.curr_token.type = .EOS)
  | 0, p, l, _, hf => by omega
  | fuel + 1, p, l, h, hf => by
    rw [Parser.declLoop]
    split
    · split
      · refine Run.Syn.syn_bind (Parser.tdecl_syn fuel p h (by omega)) (fun d hd => ?_)
        have hd2 := hd.2
        exact Parser.declLoop_syn fuel d.2 _ hd.1 (by omega)
      · split
        · refine Run.Syn.syn_bind (Parser.fdecl_syn fuel p h (by omega)) (fun d hd => ?_)
          have hd2 := hd.2
          exact Parser.declLoop_syn fuel d.2 _ hd.1 (by omega)
        · rfl
    · rename_i hc
      exact ⟨h, not_not.mp hc⟩

theorem Parser.new_inv (tokens : List Token) (h : ∀ t ∈ tokens, t.type ≠ .EOS) :
    (Parser.new tokens).advance.Inv ∧ (Parser.new tokens).advance.remaining ≤ tokens.length := by
  cases tokens with
  | nil => exact ⟨⟨fun _ => rfl, fun t ht => absurd ht (List.not_mem_nil t)⟩, Nat.le_refl _⟩
  | cons t ts =>
    refine ⟨⟨fun ht => absurd ht (h t (List.mem_cons_self _ _)),
      fun u hu => h u (List.mem_cons_of_mem _ hu)⟩, ?_⟩
    have ht : t.type ≠ .EOS := h t (List.mem_cons_self _ _)
    simp [Parser.new, Parser.advance, Parser.remaining, ht]

theorem Parser.parse_syn (fuel : Nat) (tokens : List Token) (h : ∀ t ∈ tokens, t.type ≠ .EOS)
    (hf : 2 * tokens.length + 1 ≤ fuel) :
    (Parser.parse fuel (Parser.new tokens)).Syn
      (fun x => x.2.lexer = [] ∧ x.2.curr_token.type = .EOS) := by
  unfold Parser.parse
  have hn := Parser.new_inv tokens h
  refine Run.Syn.syn_bind (Parser.declLoop_syn fuel _ [] hn.1 (by have := hn.2; omega))
    (fun d hd => ?_)
  obtain ⟨decls, q⟩ := d
  obtain ⟨lexer, curr⟩ := q
  have hl : lexer = [] := hd.1.1 hd.2
  have hc : curr.type = .EOS := hd.2
  subst hl
  show ((Parser.eat ⟨[], curr⟩ .EOS "Expecting end-of-file ") >>= fun p =>
    (pure (⟨decls⟩, p) : Run (Program × Parser))).Syn _
  unfold Parser.eat
  rw [if_pos hc]
  exact ⟨rfl, rfl⟩

/-- Claim C37 (`Parser::parse(Program&)` terminates): for a token sequence without `EOS`
tokens (the lexer yields `EOS` once they are used up) and fuel of at least
`2 * tokens.length + 1`, `parse` neither runs out of fuel nor crashes: it raises a `SYNTAX`
error, or it returns at the end of the stream, with every token of the sequence consumed
and `EOS` as the current token. From a parser state `p` whose stream ends in `EOS`, with
fuel of at least `2 * p.remaining + 3`, each call of `expr`, `stmt`, `vdecl_stmt`, `tdecl`
and `fdecl` (the bodies of the loops) returns with at least one token consumed or raises a
`SYNTAX` error. -/
theorem parse_terminates (tokens : List Token) (p : Parser) (stmts : List Stmt)
    (fuel fuel2 : Nat) (h : ∀ t ∈ tokens, t.type ≠ .EOS) (hf : 2 * tokens.length + 1 ≤ fuel)
    (hp : p.Inv) (hf2 : 2 * p.remaining + 3 ≤ fuel2) :
    (Parser.parse fuel (Parser.new tokens)).Syn
      (fun x => x.2.lexer = [] ∧ x.2.curr_token.type = .EOS) ∧
    (Parser.expr fuel2 p).Syn (fun x => x.2.remaining + 1 ≤ p.remaining) ∧
    (Parser.stmt fuel2 p stmts).Syn (fun x => x.2.remaining + 1 ≤ p.remaining) ∧
    (Parser.vdecl_stmt fuel2 p).Syn (fun x => x.2.remaining + 1 ≤ p.remaining) ∧
    (Parser.tdecl fuel2 p).Syn (fun x => x.2.remaining + 1 ≤ p.remaining) ∧
    (Parser.fdecl fuel2 p).Syn (fun x => x.2.remaining + 1 ≤ p.remaining) :=
  ⟨Parser.parse_syn fuel tokens h hf,
    Run.Syn.syn_mono ((Parser.expr_syn_all fuel2).1 p hp (by omega)) (fun _ hx => hx.2),
    Run.Syn.syn_mono ((Parser.stmt_syn_all fuel2).1 p stmts hp hf2) (fun _ hx => hx.2),
    Run.Syn.syn_mono (Parser.vdecl_stmt_syn fuel2 p hp (by omega)) (fun _ hx => hx.2),
    Run.Syn.syn_mono (Parser.tdecl_syn fuel2 p hp (by omega)) (fun _ hx => hx.2),
    Run.Syn.syn_mono (Parser.fdecl_syn fuel2 p hp (by omega)) (fun _ hx => hx.2)⟩

theorem parse_terminates_witness :
    (Parser.parse 31 (Parser.new paramNamedReturnTokens)).Syn
      (fun x => x.2.lexer = [] ∧ x.2.curr_token.type = .EOS) ∧
    (Parser.expr 11 ⟨[tk .PLUS "+", tk .ID "b", tk .END "end"], tk .ID "a"⟩).Syn
      (fun x => x.2.remaining + 1 ≤
        Parser.remaining ⟨[tk .PLUS "+", tk .ID "b", tk .END "end"], tk .ID "a"⟩) :=
  have hw := parse_terminates paramNamedReturnTokens
    ⟨[tk .PLUS "+", tk .ID "b", tk .END "end"], tk .ID "a"⟩ [] 31 11 (by decide) (by decide)
    ⟨fun h => absurd h (by decide), by decide⟩ (by decide)
  ⟨hw.1, hw.2.1⟩

end MyPL
